import Mathlib

/-!
# TreeDS: patterns, tree comparison, one-matchers and the generative navigator

A shallow embedding of the parts of TreeDS that the properties below talk about.

* Pointers are modelled in two ways, depending on what the code does with them.
  Where the code only compares identities (`pattern::matched_tree`), a pointer is
  an address (`Nat`, `0` is `nullptr`). Where the code follows the pointer, a
  pointer is the (possibly absent) node it points to.
* Stateful member functions take the object before the call and return the
  value of the call together with the object after the call.
* Member functions of classes whose headers are not part of the sources
  (`matcher`, `tree`, `struct_node`, the node classes, `node_pred_navigator`)
  enter the functions that call them as explicit parameters.
* Where a property is decided by code that is not part of the sources (the
  search of the matchers, the quantified matchers, `marked_result`, the
  iterators, the traversal policies), that code is modelled from the
  specification; every such definition says so.
* A node is identified by the path that leads to it from the root; the
  iterators visit pairs of a path and a value.
-/

namespace TreeDS

/-! ## Nodes -/

/-- Modelled from the spec: the binary node (its header is missing from the
sources), seen through a `binary_node<T>*`: either `nullptr` or a node with a
value, a left and a right child (spec 3). -/
inductive binary_node (T : Type) where
  | null : binary_node T
  | node (value : T) (left right : binary_node T) : binary_node T
  deriving DecidableEq, Repr

/-- Modelled from the spec: the n-ary node (its header is missing from the
sources), seen through a `nary_node<T>*`: either `nullptr` or a node with a
value, its first child and its next sibling (spec 3). -/
inductive nary_node (T : Type) where
  | null : nary_node T
  | node (value : T) (first_child next_sibling : nary_node T) : nary_node T
  deriving DecidableEq, Repr

/-! ## Trees as `pattern` sees them -/

/-- The two node class templates. -/
inductive node_kind where
  | binary
  | nary
  deriving DecidableEq, Repr

/-- The `std::type_index` of `typeid(tree.root)`: the node class template and the
value type it is instantiated with (value types are numbered). -/
structure type_index where
  kind : node_kind
  value_type : Nat
  deriving DecidableEq, Repr

/-- The attributes of `basic_tree` (`basic_tree.hpp` lines 74-81). `N` is the type
of what `root` points to. `address` is `&tree`, `root_address` is the value of
the pointer `root` (`0` for `nullptr`) and `root_type` is `typeid(root)`. -/
structure basic_tree (N : Type) where
  address : Nat
  root_address : Nat
  root : N
  root_type : type_index
  size_value : Nat
  arity_value : Nat
  deriving DecidableEq, Repr

/-! ## `pattern` (`matcher/pattern.hpp`) -/

/-- The member functions of the matcher tree that `pattern::do_match` calls
(`matcher.hpp` is not among the sources). `M` is the state of the matcher tree,
`N` what the root pointer of the matched tree points to. -/
structure matcher_ops (M N : Type) where
  reset : M → M
  match_node : M → N → Bool × M

/-- The member functions of the matcher tree that `pattern::assign_result` and
`pattern::assign_mark` call for a destination tree with nodes `N`
(`matcher.hpp`, not among the sources), and the assignment of the produced
node to the destination (`tree::operator=`, `tree.hpp`, not among the sources
either). -/
structure result_ops (M N : Type) where
  result : M → N
  marked_result_index : Nat → M → N
  marked_result_name : String → M → N
  assign : basic_tree N → N → basic_tree N

/-- The attributes of `pattern` (`pattern.hpp` lines 18-20). -/
structure pattern (M : Type) where
  pattern_tree : M
  node_type : Option type_index
  matched_tree : Nat

/-- The constructor `pattern(PatternTree&&)`: `node_type` is `std::nullopt` and
`matched_tree` is `nullptr`. -/
def pattern.mk_pattern {M : Type} (tree : M) : pattern M :=
  { pattern_tree := tree, node_type := none, matched_tree := 0 }

/-- The test of `pattern::do_match` line 31:
`matched_tree != nullptr && matched_tree == tree.root`. -/
def pattern.memo_hit {M N : Type} (p : pattern M) (tree : basic_tree N) : Bool :=
  p.matched_tree != 0 && p.matched_tree == tree.root_address

/-- The function `pattern::do_match` (lines 28-41): the returned boolean and the pattern
after the call. -/
def pattern.do_match {M N : Type} (ops : matcher_ops M N) (p : pattern M)
    (tree : basic_tree N) : Bool × pattern M :=
  let tree_type := tree.root_type
  if p.memo_hit tree then
    (true, p)
  else
    let reset_tree := ops.reset p.pattern_tree
    let r := ops.match_node reset_tree tree.root
    if r.1 then
      (true, { pattern_tree := r.2, node_type := some tree_type, matched_tree := tree.address })
    else
      (false, { p with pattern_tree := r.2 })

/-- Both overloads of `pattern::match` (lines 44-52), which forward to `do_match`
(`match` is a keyword, hence the name). -/
def pattern.match_tree {M N : Type} (ops : matcher_ops M N) (p : pattern M)
    (tree : basic_tree N) : Bool × pattern M :=
  p.do_match ops tree

/-- How a call of `assign_result` or `assign_mark` ends. -/
inductive outcome where
  | returned
  | invalid_argument (what : String)
  deriving DecidableEq, Repr

/-- The message of the `std::invalid_argument` thrown in `pattern.hpp`. -/
def type_mismatch_message : String :=
  "Tried to assign the matched result to a tree having a different type of nodes (binary->nary or nary->binary)."

/-- The function `pattern::assign_result` (lines 54-61): how the call ends and the destination
tree after the call. -/
def pattern.assign_result {M N : Type} (ops : result_ops M N) (p : pattern M)
    (tree : basic_tree N) : outcome × basic_tree N :=
  if p.node_type ≠ some tree.root_type then
    (outcome.invalid_argument type_mismatch_message, tree)
  else
    (outcome.returned, ops.assign tree (ops.result p.pattern_tree))

/-- The function `pattern::assign_mark(capture_index<Index>, tree&)` (lines 63-70). -/
def pattern.assign_mark_index {M N : Type} (ops : result_ops M N) (p : pattern M)
    (index : Nat) (tree : basic_tree N) : outcome × basic_tree N :=
  if p.node_type ≠ some tree.root_type then
    (outcome.invalid_argument type_mismatch_message, tree)
  else
    (outcome.returned, ops.assign tree (ops.marked_result_index index p.pattern_tree))

/-- The function `pattern::assign_mark(capture_name<Name...>, tree&)` (lines 72-79). -/
def pattern.assign_mark_name {M N : Type} (ops : result_ops M N) (p : pattern M)
    (name : String) (tree : basic_tree N) : outcome × basic_tree N :=
  if p.node_type ≠ some tree.root_type then
    (outcome.invalid_argument type_mismatch_message, tree)
  else
    (outcome.returned, ops.assign tree (ops.marked_result_name name p.pattern_tree))

/-- A sequence of `match` calls on one pattern: the returned booleans, in order,
and the pattern after the last call. -/
def pattern.match_all {M N : Type} (ops : matcher_ops M N) :
    pattern M → List (basic_tree N) → List Bool × pattern M
  | p, [] => ([], p)
  | p, tree :: rest =>
    let r := p.match_tree ops tree
    let rs := pattern.match_all ops r.2 rest
    (r.1 :: rs.1, rs.2)

/-! ### Concrete trees and a concrete matcher tree, for evaluation -/

/-- A call received by a matcher tree. -/
inductive matcher_call where
  | reset
  | match_node (root_value : Option Int)
  deriving DecidableEq, Repr

/-- The value held by the node a pointer points to, when there is one. -/
def binary_node.value_opt {T : Type} : binary_node T → Option T
  | binary_node.null => none
  | binary_node.node v _ _ => some v

/-- A matcher tree for binary trees of integers that accepts exactly the roots
holding `v`; its state is the list of the calls it has received, oldest
first. -/
def logging_ops (v : Int) : matcher_ops (List matcher_call) (binary_node Int) where
  reset log := log ++ [matcher_call.reset]
  match_node log n := (decide (n.value_opt = some v), log ++ [matcher_call.match_node n.value_opt])

/-- Result functions that produce the node `produced` whatever the state of the
matcher tree, with an assignment that installs the node as the root. -/
def constant_result_ops (M : Type) {N : Type} (produced : N) (size arity : Nat) :
    result_ops M N where
  result _ := produced
  marked_result_index _ _ := produced
  marked_result_name _ _ := produced
  assign tree n := { tree with root := n, size_value := size, arity_value := arity }

/-- The binary tree `100(200(300, 400), 500)`, a tree object at address 1000
whose root node is at address 2000. -/
def sample_binary_tree : basic_tree (binary_node Int) where
  address := 1000
  root_address := 2000
  root := binary_node.node 100
    (binary_node.node 200
      (binary_node.node 300 binary_node.null binary_node.null)
      (binary_node.node 400 binary_node.null binary_node.null))
    (binary_node.node 500 binary_node.null binary_node.null)
  root_type := { kind := node_kind.binary, value_type := 0 }
  size_value := 5
  arity_value := 2

/-- The binary tree `7`, a tree object at address 1100 whose root node is at
address 2100. -/
def other_binary_tree : basic_tree (binary_node Int) where
  address := 1100
  root_address := 2100
  root := binary_node.node 7 binary_node.null binary_node.null
  root_type := { kind := node_kind.binary, value_type := 0 }
  size_value := 1
  arity_value := 0

/-- The n-ary tree `1(2, 3)`, a tree object at address 3000 whose root node is
at address 4000. -/
def sample_nary_tree : basic_tree (nary_node Int) where
  address := 3000
  root_address := 4000
  root := nary_node.node 1
    (nary_node.node 2 nary_node.null (nary_node.node 3 nary_node.null nary_node.null))
    nary_node.null
  root_type := { kind := node_kind.nary, value_type := 0 }
  size_value := 3
  arity_value := 2

/-! ## Comparison of a tree with a literal description (`basic_tree.hpp`) -/

/-- The member functions that `basic_tree::operator==(const struct_node&)` calls
on the description (`get_subtree_size`, `get_subtree_arity`) and on the root
node (`operator==`); `struct_node.hpp` and the node headers are not among the
sources. `N` is what the root pointer points to, `D` the type of non-empty
descriptions. -/
structure struct_ops (N D : Type) where
  get_subtree_size : D → Nat
  get_subtree_arity : D → Nat
  node_equals : N → D → Bool

/-- The member `basic_tree::operator==(const struct_node<ConvertibleT, Children...>&)`
(lines 228-240). -/
def basic_tree.equals_struct {N D : Type} (ops : struct_ops N D) (t : basic_tree N)
    (other : D) : Bool :=
  if t.size_value ≠ ops.get_subtree_size other
      ∨ t.arity_value ≠ ops.get_subtree_arity other then
    false
  else
    t.root_address != 0 && ops.node_equals t.root other

/-- The free `operator==(const struct_node&, const basic_tree&)` (lines 260-270). -/
def struct_equals_tree {N D : Type} (ops : struct_ops N D) (lhs : D) (rhs : basic_tree N) :
    Bool :=
  rhs.equals_struct ops lhs

/-- Modelled from the spec: `struct_node` (its header is missing from the
sources) is a literal tree description, a value and an ordered list of child
descriptions; `n()` is the empty description. -/
inductive struct_node (T : Type) where
  | empty : struct_node T
  | node (value : T) (children : List (struct_node T)) : struct_node T

mutual
/-- Modelled from the spec: `struct_node::get_subtree_size` (missing from the
sources), the count of nodes of the description. -/
def struct_node.get_subtree_size {T : Type} : struct_node T → Nat
  | struct_node.empty => 0
  | struct_node.node _ cs => 1 + struct_node.list_size cs
/-- The nodes described by a list of descriptions. -/
def struct_node.list_size {T : Type} : List (struct_node T) → Nat
  | [] => 0
  | c :: cs => c.get_subtree_size + struct_node.list_size cs
end

mutual
/-- Modelled from the spec: `struct_node::get_subtree_arity` (missing from the
sources), the maximum branching factor of the description. -/
def struct_node.get_subtree_arity {T : Type} : struct_node T → Nat
  | struct_node.empty => 0
  | struct_node.node _ cs => max cs.length (struct_node.list_arity cs)
/-- The maximum branching factor over a list of descriptions. -/
def struct_node.list_arity {T : Type} : List (struct_node T) → Nat
  | [] => 0
  | c :: cs => max c.get_subtree_arity (struct_node.list_arity cs)
end

/-- Modelled from the spec: `binary_node::operator==(const struct_node&)` (missing
from the sources), structural equality of a binary node and a description:
same value, at most two child descriptions, the left child equal to the first
and the right child equal to the second, where an absent child corresponds to
`n()` or to no description at all. -/
def binary_node.equals_struct {T : Type} [DecidableEq T] :
    binary_node T → struct_node T → Bool
  | binary_node.null, struct_node.empty => true
  | binary_node.null, struct_node.node _ _ => false
  | binary_node.node _ _ _, struct_node.empty => false
  | binary_node.node v l r, struct_node.node w cs =>
    decide (v = w) && decide (cs.length ≤ 2)
      && l.equals_struct (cs.getD 0 struct_node.empty)
      && r.equals_struct (cs.getD 1 struct_node.empty)

/-- The functions of `struct_ops` for binary trees of integers. -/
def binary_struct_ops : struct_ops (binary_node Int) (struct_node Int) where
  get_subtree_size d := d.get_subtree_size
  get_subtree_arity d := d.get_subtree_arity
  node_equals n d := n.equals_struct d

/-- The literal `n(v)`. -/
def struct_node.leaf {T : Type} (v : T) : struct_node T :=
  struct_node.node v []

/-! ## `one_matcher` (`matcher/node/one_matcher.hpp`) -/

/-- What `one_matcher::search_node_impl` uses and does not define itself; none of
the headers is among the sources. `S` is the state of the matcher (its value
matcher, its children and what they have recorded), `N` a node, `P` a node
pointer, `I` the state of the `siblings` policy, `C` a child matcher.
* `get_value`, `get_first_child`: members of the node class;
* `match_value`, `search_children`: members of the base class `matcher`;
* `get_instance`: `policy::siblings().get_instance(first_child, navigator, allocator)`;
* `get_current_node`: member of the policy state;
* `child_search_node`: `child.search_node(node, allocator)` of a child matcher. -/
structure search_env (S V N P I C : Type) where
  get_value : N → V
  get_first_child : N → P
  match_value : S → V → Bool × S
  get_instance : P → I
  get_current_node : I → P
  child_search_node : C → P → S → Bool × S
  search_children : S → I → (I → C → S → Bool × S) → Bool × S

/-- The lambda `do_search_child` of `one_matcher::search_node_impl` (lines 51-53). -/
def one_matcher.do_search_child {S V N P I C : Type} (env : search_env S V N P I C) :
    I → C → S → Bool × S :=
  fun it child s => env.child_search_node child (env.get_current_node it) s

/-- The function `one_matcher::search_node_impl` (lines 41-55): the returned boolean and the
matcher after the call. -/
def one_matcher.search_node_impl {S V N P I C : Type} (env : search_env S V N P I C)
    (s : S) (node : N) : Bool × S :=
  let tested := env.match_value s (env.get_value node)
  if !tested.1 then
    (false, tested.2)
  else
    let target := env.get_instance (env.get_first_child node)
    env.search_children tested.2 target (one_matcher.do_search_child env)

/-- What `one_matcher::result_impl` uses and does not define itself; none of the
headers is among the sources. `S` is the state of the matcher, `C` a child
matcher, `R` a node of the result under construction, `N` a node of the
matched tree.
* `clone_node`, `get_children`: members of the base class `matcher`;
* `empty`, `result`, `get_node`: members of a child matcher;
* `assign_child_like`: member of the node class, here returning the parent
  after the attachment. -/
structure result_env (S C R N : Type) where
  clone_node : S → R
  get_children : S → List C
  empty : C → Bool
  result : C → R
  get_node : C → N
  assign_child_like : R → R → N → R

/-- The lambda `attach_child` of `one_matcher::result_impl` (lines 60-66), as a
function of the result built so far. -/
def one_matcher.attach_child {S C R N : Type} (env : result_env S C R N) (result : R)
    (child : C) : R :=
  if !env.empty child then
    env.assign_child_like result (env.result child) (env.get_node child)
  else
    result

/-- The function `one_matcher::result_impl` (lines 57-73): `attach_child` is applied to the
children from the first to the last (the fold expression `(..., f(children))`). -/
def one_matcher.result_impl {S C R N : Type} (env : result_env S C R N) (s : S) : R :=
  (env.get_children s).foldl (one_matcher.attach_child env) (env.clone_node s)

/-- The attachments a one-matcher has to make: for each child matcher that is
not empty, in pattern order, the result of the child and the node of the
matched tree that the child matched. -/
def one_matcher.attachments {S C R N : Type} (env : result_env S C R N) (s : S) :
    List (R × N) :=
  ((env.get_children s).filter (fun child => !env.empty child)).map
    (fun child => (env.result child, env.get_node child))

/-- A child matcher after a match, reduced to what `result_impl` asks of it:
whether it is empty, the result it builds, and whether the node it matched is
the left child of its parent. -/
structure matched_child where
  is_empty : Bool
  built : binary_node Int
  matched_left : Bool
  deriving DecidableEq, Repr

/-- Modelled from the spec: `binary_node::assign_child_like` (its header is
missing from the sources) attaches the new node at the child position that
the reference node has under its own parent, as the left child when the
reference node is a left child and as the right child otherwise. The
reference node is reduced to that one bit. -/
def binary_node.assign_child_like {T : Type} (parent child : binary_node T)
    (reference_is_left : Bool) : binary_node T :=
  match parent with
  | binary_node.null => binary_node.null
  | binary_node.node v l r =>
    if reference_is_left then binary_node.node v child r else binary_node.node v l child

/-- A `result_env` for binary trees of integers: the state of the one-matcher is
the value of the node it matched and its child matchers, in pattern order;
`clone_node` allocates a node holding that value. -/
def binary_result_env : result_env (Int × List matched_child) matched_child
    (binary_node Int) Bool where
  clone_node s := binary_node.node s.1 binary_node.null binary_node.null
  get_children s := s.2
  empty c := c.is_empty
  result c := c.built
  get_node c := c.matched_left
  assign_child_like := binary_node.assign_child_like

/-- A one-matcher that matched the root of `100(200(300, 400), 500)`: its first
child matched the left child and built `200`, its second child (a
quantifier that consumed nothing) is empty, its third child matched the
right child and built `500`. -/
def sample_matched_one : Int × List matched_child :=
  (100,
    [{ is_empty := false,
       built := binary_node.node 200 binary_node.null binary_node.null,
       matched_left := true },
     { is_empty := true, built := binary_node.null, matched_left := false },
     { is_empty := false,
       built := binary_node.node 500 binary_node.null binary_node.null,
       matched_left := false }])

/-! ## `generative_navigator` (`node/navigator/generative_navigator.hpp`) -/

/-- A `multiple_node_pointer<TargetNodePtr, GeneratedNodePtr>`: the pointer into
the target tree and the pointer into the generated tree, as addresses (`0`
is `nullptr`). -/
structure node_ptrs_t where
  target : Nat
  generated : Nat
  deriving DecidableEq, Repr

/-- The member `multiple_node_pointer::all_valid`: no pointer of the pair is null. -/
def node_ptrs_t.all_valid (node : node_ptrs_t) : Bool :=
  node.target != 0 && node.generated != 0

/-- What a navigation call can read and write: the nodes of both trees together
with the allocator (`heap`) and the value of the external flag
`*generated_node_assigned` (read only when a flag was supplied). -/
structure nav_state (H : Type) where
  heap : H
  flag : Bool
  deriving DecidableEq, Repr

/-- The six accessors of the navigator. -/
inductive accessor where
  | prev_sibling
  | next_sibling
  | first_child
  | last_child
  | left_child
  | right_child
  deriving DecidableEq, Repr

/-- What `generative_navigator` uses and does not define itself; none of the
headers is among the sources.
* `navigate`: the accessors of the base class `node_pred_navigator`, which
  run the predicate (the predicate may assign the generated pointer and set
  the flag);
* `get_value`, `get_parent`, `assign_child_like`: members of the node class;
  `assign_child_like parent new_node reference` returns the pointer it
  returns in the code;
* `allocate`: `allocate(allocator, value).release()`. -/
structure navigator_env (H V : Type) where
  navigate : accessor → nav_state H → node_ptrs_t → node_ptrs_t × nav_state H
  get_value : H → Nat → V
  get_parent : H → Nat → Nat
  assign_child_like : H → Nat → Nat → Nat → Nat × H
  allocate : H → V → Nat × H

/-- The attributes of a `generative_navigator` that the navigation calls read:
whether `generated_node_assigned` points to a flag (`has_flag`) or is
`nullptr`. -/
structure generative_navigator where
  has_flag : Bool
  deriving DecidableEq, Repr

/-- The function `generative_navigator::do_navigate_generate` (lines 68-84): the returned
pair of pointers and the state after the call, or `none` when the assertion
`node.all_valid()` fails. `attach_node generated new_child reference_node` is
the `AttachF` argument. -/
def generative_navigator.do_navigate_generate {H V : Type} (env : navigator_env H V)
    (nav : generative_navigator) (st : nav_state H) (node : node_ptrs_t)
    (navigate : nav_state H → node_ptrs_t → node_ptrs_t × nav_state H)
    (attach_node : H → Nat → Nat → Nat → Nat × H) : Option (node_ptrs_t × nav_state H) :=
  if !node.all_valid then
    none
  else
    let navigated := navigate st node
    let result := navigated.1
    let st1 := navigated.2
    let reference_node := result.target
    let generated := result.generated
    let attached : node_ptrs_t × nav_state H :=
      if reference_node != 0 && (generated == 0 || (nav.has_flag && st1.flag)) then
        let new_child : Nat × H :=
          if nav.has_flag then (generated, st1.heap)
          else env.allocate st1.heap (env.get_value st1.heap reference_node)
        let a := attach_node new_child.2 node.generated new_child.1 reference_node
        ({ result with generated := a.1 }, { st1 with heap := a.2 })
      else
        (result, st1)
    let st3 : nav_state H :=
      if nav.has_flag then { attached.2 with flag := false } else attached.2
    some (attached.1, st3)

/-- The `AttachF` of `get_prev_sibling` and `get_next_sibling` (lines 91-93 and
100-102): `generated->get_parent()->assign_child_like(new_node, reference_node)`. -/
def generative_navigator.attach_to_parent {H V : Type} (env : navigator_env H V) :
    H → Nat → Nat → Nat → Nat × H :=
  fun heap generated new_node reference_node =>
    env.assign_child_like heap (env.get_parent heap generated) new_node reference_node

/-- The `AttachF` of the child accessors (lines 105-133):
`std::mem_fn(&node_t::assign_child_like)`, called on the generated node. -/
def generative_navigator.attach_to_node {H V : Type} (env : navigator_env H V) :
    H → Nat → Nat → Nat → Nat × H :=
  fun heap generated new_node reference_node =>
    env.assign_child_like heap generated new_node reference_node

/-- The six navigation calls `get_prev_sibling`, `get_next_sibling`,
`get_first_child`, `get_last_child`, `get_left_child` and `get_right_child`
(lines 87-133), selected by the accessor. -/
def generative_navigator.get {H V : Type} (env : navigator_env H V)
    (nav : generative_navigator) (which : accessor) (st : nav_state H) (node : node_ptrs_t) :
    Option (node_ptrs_t × nav_state H) :=
  match which with
  | accessor.prev_sibling =>
    nav.do_navigate_generate env st node (env.navigate accessor.prev_sibling)
      (generative_navigator.attach_to_parent env)
  | accessor.next_sibling =>
    nav.do_navigate_generate env st node (env.navigate accessor.next_sibling)
      (generative_navigator.attach_to_parent env)
  | accessor.first_child =>
    nav.do_navigate_generate env st node (env.navigate accessor.first_child)
      (generative_navigator.attach_to_node env)
  | accessor.last_child =>
    nav.do_navigate_generate env st node (env.navigate accessor.last_child)
      (generative_navigator.attach_to_node env)
  | accessor.left_child =>
    nav.do_navigate_generate env st node (env.navigate accessor.left_child)
      (generative_navigator.attach_to_node env)
  | accessor.right_child =>
    nav.do_navigate_generate env st node (env.navigate accessor.right_child)
      (generative_navigator.attach_to_node env)

/-! ### A concrete heap of binary nodes, for evaluation -/

/-- A binary node in memory: its value and the addresses of its parent and
children (`0` is `nullptr`). -/
structure heap_node where
  value : Int
  parent : Nat
  left : Nat
  right : Nat
  deriving DecidableEq, Repr

/-- The node at an address: address `a + 1` holds the element `a` of the heap. -/
def heap_at (heap : List heap_node) (address : Nat) : Option heap_node :=
  if address = 0 then none else heap.get? (address - 1)

/-- The neighbour of a binary node in memory that an accessor asks for; the
neighbour of `nullptr` or of an address without a node is `nullptr`. -/
def heap_neighbour (heap : List heap_node) (which : accessor) (address : Nat) : Nat :=
  match heap_at heap address with
  | none => 0
  | some n =>
    match which with
    | accessor.left_child => n.left
    | accessor.right_child => n.right
    | accessor.first_child => if n.left != 0 then n.left else n.right
    | accessor.last_child => if n.right != 0 then n.right else n.left
    | accessor.next_sibling =>
      match heap_at heap n.parent with
      | none => 0
      | some p => if p.left = address then p.right else 0
    | accessor.prev_sibling =>
      match heap_at heap n.parent with
      | none => 0
      | some p => if p.right = address ∧ p.left ≠ address then p.left else 0

/-- Whether the node at an address is the left child of its parent. -/
def heap_is_left_child (heap : List heap_node) (address : Nat) : Bool :=
  match heap_at heap address with
  | none => false
  | some n =>
    match heap_at heap n.parent with
    | none => false
    | some p => p.left == address

/-- Attach the node at `new_node` under the node at `parent`, on the side on
which the reference node hangs under its own parent, and return `new_node`;
with a null `parent` or a null `new_node` nothing is attached and the
returned pointer is null. -/
def heap_assign_child_like (heap : List heap_node) (parent new_node reference : Nat) :
    Nat × List heap_node :=
  if parent = 0 ∨ new_node = 0 then
    (0, heap)
  else
    let as_left := heap_is_left_child heap reference
    let linked := heap.modify
      (fun p => if as_left then { p with left := new_node } else { p with right := new_node })
      (parent - 1)
    (new_node, linked.modify (fun c => { c with parent := parent }) (new_node - 1))

/-- A `navigator_env` on the concrete heap. The predicate of the base navigator
accepts every node, assigns nothing and leaves the flag alone, so `navigate`
moves both pointers to the requested neighbour. -/
def heap_env : navigator_env (List heap_node) Int where
  navigate which st node :=
    ({ target := heap_neighbour st.heap which node.target,
       generated := heap_neighbour st.heap which node.generated }, st)
  get_value heap address :=
    match heap_at heap address with
    | none => 0
    | some n => n.value
  get_parent heap address :=
    match heap_at heap address with
    | none => 0
    | some n => n.parent
  assign_child_like := heap_assign_child_like
  allocate heap v := (heap.length + 1, heap ++ [{ value := v, parent := 0, left := 0, right := 0 }])

/-- The target tree `100(200, 500)` at the addresses 1, 2 and 3 and a generated
tree made of the single node `100` at address 4. -/
def sample_heap : List heap_node :=
  [{ value := 100, parent := 0, left := 2, right := 3 },
   { value := 200, parent := 1, left := 0, right := 0 },
   { value := 500, parent := 1, left := 0, right := 0 },
   { value := 100, parent := 0, left := 0, right := 0 }]

/-! ## The matcher engine -/

/-- The struct `matcher_info_t` (`matcher/utility.hpp` lines 17-28). -/
structure matcher_info_t where
  matches_null : Bool
  shallow_matches_null : Bool
  prefers_null : Bool
  possessive : Bool
  deriving DecidableEq, Repr

/-- The enum `quantifier` (`matcher/utility.hpp` lines 30-35). -/
inductive quantifier where
  | DEFAULT
  | RELUCTANT
  | GREEDY
  | POSSESSIVE
  deriving DecidableEq, Repr

/-- The constant `one_matcher::info` (`one_matcher.hpp` lines 27-35). -/
def one_matcher.info : matcher_info_t :=
  { matches_null := false, shallow_matches_null := false, prefers_null := false,
    possessive := true }

/-- Modelled from the spec: the value matchers (their headers are missing from
the sources) are a literal equality test, a predicate function, or a wildcard
that matches any value (spec 4.4, step 2). -/
inductive value_matcher (T : Type) where
  | literal (value : T) : value_matcher T
  | predicate (test : T → Bool) : value_matcher T
  | wildcard : value_matcher T

/-- Modelled from the spec: `match_value` (missing from the sources), the value
test of a value matcher. -/
def value_matcher.match_value {T : Type} [DecidableEq T] : value_matcher T → T → Bool
  | value_matcher.literal v, x => decide (v = x)
  | value_matcher.predicate test, x => test x
  | value_matcher.wildcard, _ => true

/-- Modelled from the spec: a matcher node (`matcher.hpp` and the headers of the
quantified matchers are missing from the sources) composes a value matcher
with an optional first-child matcher and an optional next-sibling matcher
(spec 3). `empty_t` is the absent matcher (`detail::empty_t`), `one` the
one-matcher, with the name of the capture wrapped around it when there is
one, and `star` the sibling quantifier, zero or more siblings each accepted
by the value matcher, with its preference. -/
inductive matcher_node (T : Type) where
  | empty_t : matcher_node T
  | one (mark : Option String) (value : value_matcher T)
      (first_child next_sibling : matcher_node T) : matcher_node T
  | star (preference : quantifier) (value : value_matcher T)
      (next_sibling : matcher_node T) : matcher_node T

/-- Modelled from the spec: what the matcher engine asks of a navigator and of
the nodes (their headers are missing from the sources): the value of a
node (none for `nullptr`) and its children in sibling order, each child
being the subtree rooted at it. -/
structure node_navigator (N T : Type) where
  get_value : N → Option T
  children : N → List N

/-- Modelled from the spec: the transient state a successful match leaves in the
matcher tree (spec 3): the node bound to every capture that matched, in
pattern order, and the number of siblings every quantifier consumed, in
pattern order. -/
structure match_result (N : Type) where
  marks : List (String × N)
  runs : List Nat
  deriving DecidableEq, Repr

/-- The state of a quantifier that consumed `k` siblings, put in front of the
state of its continuation. -/
def match_result.record {N : Type} (k : Nat) (r : match_result N) : match_result N :=
  { r with runs := k :: r.runs }

/-- The first alternative that succeeds. -/
def first_success {R : Type} : Option R → Option R → Option R
  | some r, _ => some r
  | none, second => second

/-- Modelled from the spec: the order in which a quantifier tries its two
alternatives, deferring to the continuation now or consuming one more sibling
(spec 4.4, step 5). A reluctant quantifier tries the shortest consumption
first and grows on failure; a possessive one commits to the longest
consumption; the others (greedy, and the default) try the longest first and
shrink on failure. -/
def quantifier.choose {R : Type} (preference : quantifier) (defer_now consume_more : Option R) :
    Option R :=
  match preference with
  | quantifier.RELUCTANT => first_success defer_now consume_more
  | quantifier.POSSESSIVE => consume_more
  | quantifier.GREEDY => first_success consume_more defer_now
  | quantifier.DEFAULT => first_success consume_more defer_now

/-- Modelled from the spec: the search of a sibling quantifier (spec 4.4, step 5;
the headers of the quantified matchers are missing from the sources). Having
consumed `k` siblings, the quantifier either defers to its continuation or
consumes one more sibling that its value matcher accepts, in the order of its
preference. -/
def star_search {N : Type} (preference : quantifier) (accepts : N → Bool)
    (continuation : List N → Option (match_result N)) :
    Nat → List N → Option (match_result N)
  | k, [] => (continuation []).map (match_result.record k)
  | k, n :: rest =>
    if accepts n then
      preference.choose ((continuation (n :: rest)).map (match_result.record k))
        (star_search preference accepts continuation (k + 1) rest)
    else
      (continuation (n :: rest)).map (match_result.record k)

/-- Modelled from the spec: the value test of a matcher at a node (spec 4.4,
steps 1 and 2); an absent node is not accepted. -/
def node_navigator.accepts {N T : Type} [DecidableEq T] (nav : node_navigator N T)
    (value : value_matcher T) (n : N) : Bool :=
  match nav.get_value n with
  | none => false
  | some v => value.match_value v

/-- Modelled from the spec: a capture wrapper records the node it is bound to
on success (spec 4.4, step 2); a one-matcher without a capture records
nothing. -/
def mark_of {N : Type} (mark : Option String) (n : N) : List (String × N) :=
  match mark with
  | none => []
  | some name => [(name, n)]

/-- Modelled from the spec: the search of a matcher and its next siblings along a
run of sibling nodes (spec 4.4; `search_node` and `search_children` are
missing from the sources). The absent matcher asks nothing. A one-matcher
fails on an absent node (`matches_null` is false), tests the value of the
first node, then its first-child matcher is searched along the children of
that node and its next-sibling matcher along the following siblings. A
quantifier runs `star_search` with its next-sibling matcher as the
continuation. -/
def search {N T : Type} [DecidableEq T] (nav : node_navigator N T) :
    matcher_node T → List N → Option (match_result N)
  | matcher_node.empty_t, _ => some { marks := [], runs := [] }
  | matcher_node.one _ _ _ _, [] => none
  | matcher_node.one mark value first_child next_sibling, n :: rest =>
    if nav.accepts value n then
      match search nav first_child (nav.children n), search nav next_sibling rest with
      | some below, some after =>
        some { marks := mark_of mark n ++ below.marks ++ after.marks,
               runs := below.runs ++ after.runs }
      | _, _ => none
    else
      none
  | matcher_node.star preference value next_sibling, siblings =>
    star_search preference (nav.accepts value) (search nav next_sibling) 0 siblings

/-- Modelled from the spec: `search_node` (missing from the sources), the search
of the root matcher of a pattern against one candidate node. -/
def search_node {N T : Type} [DecidableEq T] (nav : node_navigator N T)
    (m : matcher_node T) (node : N) : Option (match_result N) :=
  search nav m [node]

/-- Modelled from the spec: `marked_result` (missing from the sources) gives the
subtree bound to the capture with the given name, and nothing (the empty
tree) for a capture that never matched (spec 4.5). -/
def match_result.marked_result {N : Type} (r : match_result N) (name : String) : Option N :=
  r.marks.lookup name

/-- The children of a binary node in sibling order: the left child, then the
right child, those that are present. -/
def binary_node.children {T : Type} : binary_node T → List (binary_node T)
  | binary_node.null => []
  | binary_node.node _ l r =>
    (match l with
      | binary_node.null => []
      | binary_node.node _ _ _ => [l])
    ++ (match r with
      | binary_node.null => []
      | binary_node.node _ _ _ => [r])

/-- The navigator of binary trees. -/
def binary_navigator (T : Type) : node_navigator (binary_node T) T where
  get_value n := n.value_opt
  children n := n.children

/-- The pattern of the spec's scenario, `100(one(200)(any, 400), one())`, with a
capture named `a` wrapped around `one(200)(any, 400)`. -/
def sample_pattern : matcher_node Int :=
  matcher_node.one none (value_matcher.literal 100)
    (matcher_node.one (some "a") (value_matcher.literal 200)
      (matcher_node.star quantifier.DEFAULT value_matcher.wildcard
        (matcher_node.one none (value_matcher.literal 400)
          matcher_node.empty_t matcher_node.empty_t))
      (matcher_node.one none value_matcher.wildcard matcher_node.empty_t matcher_node.empty_t))
    matcher_node.empty_t

/-- A run of `j` siblings that is consistent with the continuation of a
quantifier: the run lies within the siblings, the value matcher accepts each
of its nodes, and the continuation matches the siblings that follow it. -/
def consistent_run {N : Type} (accepts : N → Bool)
    (continuation : List N → Option (match_result N)) (siblings : List N) (j : Nat) : Prop :=
  j ≤ siblings.length ∧ (∀ n ∈ siblings.take j, accepts n = true)
    ∧ (continuation (siblings.drop j)).isSome = true

/-- A node and its following siblings, each as the subtree rooted at it (cut
from its own siblings). -/
def nary_node.siblings {T : Type} : nary_node T → List (nary_node T)
  | nary_node.null => []
  | nary_node.node v c s => nary_node.node v c nary_node.null :: s.siblings

/-- The children of an n-ary node in sibling order. -/
def nary_node.children {T : Type} : nary_node T → List (nary_node T)
  | nary_node.null => []
  | nary_node.node _ c _ => c.siblings

/-- The value held by the node a pointer points to, when there is one. -/
def nary_node.value_opt {T : Type} : nary_node T → Option T
  | nary_node.null => none
  | nary_node.node v _ _ => some v

/-- The navigator of n-ary trees. -/
def nary_navigator (T : Type) : node_navigator (nary_node T) T where
  get_value n := n.value_opt
  children n := n.children

/-- The literal `n(v)` as an n-ary node followed by the sibling `next`. -/
def nary_node.leaf {T : Type} (v : T) (next : nary_node T) : nary_node T :=
  nary_node.node v nary_node.null next

/-- The n-ary tree `0(1, 3, 3, 4)`. -/
def sample_siblings_tree : nary_node Int :=
  nary_node.node 0
    (nary_node.leaf 1 (nary_node.leaf 3 (nary_node.leaf 3 (nary_node.leaf 4 nary_node.null))))
    nary_node.null

/-- A pattern made of a sibling quantifier followed by a continuation, under a
root: `root(star(value), continuation)`. -/
def quantifier_pattern {T : Type} (root : value_matcher T) (preference : quantifier)
    (value : value_matcher T) (continuation : matcher_node T) : matcher_node T :=
  matcher_node.one none root (matcher_node.star preference value continuation)
    matcher_node.empty_t

/-- The pattern `0(star(any value), 3)`: under a root holding 0, a sibling
quantifier with the given preference followed by the literal 3. -/
def quantified_pattern (preference : quantifier) : matcher_node Int :=
  quantifier_pattern (value_matcher.literal 0) preference value_matcher.wildcard
    (matcher_node.one none (value_matcher.literal 3) matcher_node.empty_t matcher_node.empty_t)

/-- The captures of a pattern, in pattern order: the name of each capture with
the value matcher and the first-child matcher of the one-matcher it is
wrapped around. -/
def matcher_node.captures {T : Type} :
    matcher_node T → List (String × value_matcher T × matcher_node T)
  | matcher_node.empty_t => []
  | matcher_node.one mark value first_child next_sibling =>
    (match mark with
      | none => []
      | some name => [(name, value, first_child)])
    ++ first_child.captures ++ next_sibling.captures
  | matcher_node.star _ _ next_sibling => next_sibling.captures

/-- The relation `nav.subtree_of b n`: `b` is the subtree rooted at a node of the tree rooted
at `n`, that is `n` itself or a subtree of one of its children. -/
inductive node_navigator.subtree_of {N T : Type} (nav : node_navigator N T) : N → N → Prop where
  | self (n : N) : node_navigator.subtree_of nav n n
  | child (b c n : N) (hchild : c ∈ nav.children n)
      (hsub : node_navigator.subtree_of nav b c) : node_navigator.subtree_of nav b n

/-- The environment of `one_matcher::search_node_impl` in the matcher engine, for
a one-matcher with the given value matcher and first-child matcher: a
pointer to a first child and the state of the `siblings` policy started
there are the run of siblings that starts at the child, the state of the
matcher is what the children recorded, and `search_children` searches the
first-child matcher, with its next siblings, from the first child on. -/
def engine_search_env {N T : Type} [DecidableEq T] (nav : node_navigator N T)
    (value : value_matcher T) (first_child : matcher_node T) :
    search_env (Option (match_result N)) (Option T) N (List N) (List N) (matcher_node T) where
  get_value := nav.get_value
  get_first_child := nav.children
  match_value s v :=
    (match v with
      | none => false
      | some x => value.match_value x, s)
  get_instance p := p
  get_current_node it := it
  child_search_node child p _ :=
    match search nav child p with
    | some r => (true, some r)
    | none => (false, none)
  search_children s target do_search := do_search target first_child s

/-! ## `pattern::match` as a call -/

/-- How a call of `pattern::match` ends, with what `do_match` returns: neither
`match` nor `do_match` (`pattern.hpp` lines 28-52) contains a `throw`
statement, so the call returns whenever `reset` and `match_node` of the
matcher tree return. -/
def pattern.match_call {M N : Type} (ops : matcher_ops M N) (p : pattern M)
    (tree : basic_tree N) : outcome × Bool × pattern M :=
  (outcome.returned, p.match_tree ops tree)

/-! ## Size and arity (`utility.hpp`, `basic_tree.hpp`) -/

/-- The function `calculate_size(const binary_node<T>&)` (`utility.hpp` lines 185-194). The
code takes a reference; on the null pointer, which it cannot receive, the
value here is 0. -/
def binary_node.calculate_size {T : Type} : binary_node T → Nat
  | binary_node.null => 0
  | binary_node.node _ l r =>
    1
    + (match l with
        | binary_node.null => 0
        | binary_node.node _ _ _ => l.calculate_size)
    + (match r with
        | binary_node.null => 0
        | binary_node.node _ _ _ => r.calculate_size)

/-- The loop of `calculate_size(const nary_node<T>&)` (`utility.hpp` lines 200-203),
started at `child` with the running `size`; `calculate_size(*child)` is the
loop over the children of `child` started with 1. -/
def nary_node.calculate_size_loop {T : Type} : nary_node T → Nat → Nat
  | nary_node.null, size => size
  | nary_node.node _ c s, size =>
    nary_node.calculate_size_loop s (size + nary_node.calculate_size_loop c 1)

/-- The function `calculate_size(const nary_node<T>&)` (`utility.hpp` lines 196-205). The code
takes a reference; on the null pointer, which it cannot receive, the value
here is 0. -/
def nary_node.calculate_size {T : Type} : nary_node T → Nat
  | nary_node.null => 0
  | nary_node.node _ c _ => nary_node.calculate_size_loop c 1

/-- The member `basic_tree::empty` (lines 179-181). -/
def basic_tree.empty {N : Type} (t : basic_tree N) : Bool :=
  t.size_value == 0

/-- The member `basic_tree::size` (lines 187-189). -/
def basic_tree.size {N : Type} (t : basic_tree N) : Nat :=
  t.size_value

/-- The member `basic_tree::arity` (lines 191-193). -/
def basic_tree.arity {N : Type} (t : basic_tree N) : Nat :=
  t.arity_value

/-- The constructor `basic_tree()` (lines 84-85) with the default member initialisers of
lines 74-81: no root, size 0 and arity 0. `null` is the null pointer of the
node type; the address of the object and the type of its root pointer are
given. -/
def basic_tree.default_tree {N : Type} (address : Nat) (root_type : type_index) (null : N) :
    basic_tree N :=
  { address := address, root_address := 0, root := null, root_type := root_type,
    size_value := 0, arity_value := 0 }

/-- The member `basic_tree::operator==(const struct_node<std::nullptr_t>&)` (lines 242-244),
the comparison with the empty literal `n()`. -/
def basic_tree.equals_empty_struct {N : Type} (t : basic_tree N) : Bool :=
  t.empty

/-- The pointer `root` and what it points to agree: the pointer is null exactly
when there is no node. -/
def binary_root_consistent {T : Type} (t : basic_tree (binary_node T)) : Prop :=
  t.root_address = 0 ↔ t.root = binary_node.null

/-- The pointer `root` and what it points to agree: the pointer is null exactly
when there is no node. -/
def nary_root_consistent {T : Type} (t : basic_tree (nary_node T)) : Prop :=
  t.root_address = 0 ↔ t.root = nary_node.null

/-- Modelled from the spec: the length of a chain of siblings, the node a pointer
points to and the siblings after it (the node header is missing from the
sources; an n-ary node links to its next sibling, spec 3). -/
def nary_node.sibling_count {T : Type} : nary_node T → Nat
  | nary_node.null => 0
  | nary_node.node _ _ s => 1 + s.sibling_count

/-- Modelled from the spec: `nary_node::following_siblings` (missing from the
sources), the number of siblings after a node. -/
def nary_node.following_siblings {T : Type} : nary_node T → Nat
  | nary_node.null => 0
  | nary_node.node _ _ s => s.sibling_count

/-- The initial value of `arity` in `calculate_arity` (`utility.hpp` lines 210-212):
`child ? child->following_siblings() + 1 : 0u`. -/
def nary_node.initial_arity {T : Type} : nary_node T → Nat
  | nary_node.null => 0
  | nary_node.node v c s => (nary_node.node v c s).following_siblings + 1

/-- The loop of `calculate_arity` on n-ary nodes (`utility.hpp` lines 213-220), started
at `child` with the running `arity`; the early `return arity` ends the loop
with the running value, and `calculate_arity(*child, max_expected_arity)` is
the loop over the children of `child`. -/
def nary_node.calculate_arity_loop {T : Type} (max_expected_arity : Nat) :
    nary_node T → Nat → Nat
  | nary_node.null, arity => arity
  | nary_node.node _ c s, arity =>
    if arity = max_expected_arity then
      arity
    else
      nary_node.calculate_arity_loop max_expected_arity s
        (max arity (nary_node.calculate_arity_loop max_expected_arity c c.initial_arity))

/-- The function `calculate_arity(const Node&, std::size_t)` (`utility.hpp` lines 207-221) on
n-ary nodes. The code takes a reference; on the null pointer, which it cannot
receive, the value here is 0. -/
def nary_node.calculate_arity {T : Type} (max_expected_arity : Nat) : nary_node T → Nat
  | nary_node.null => 0
  | nary_node.node _ c _ => nary_node.calculate_arity_loop max_expected_arity c c.initial_arity

/-- The function `calculate_arity(const Node&, std::size_t)` (`utility.hpp` lines 207-221) on
binary nodes, with the loop unrolled over the at most two children. The
accessors of the binary node are missing from the sources and follow the
spec: the first child is the left child when there is one and the right
child otherwise, and the next sibling of a left child is the right child.
On the null pointer, which the code cannot receive, the value here is 0. -/
def binary_node.calculate_arity {T : Type} (max_expected_arity : Nat) : binary_node T → Nat
  | binary_node.null => 0
  | binary_node.node _ l r =>
    match l, r with
    | binary_node.null, binary_node.null => 0
    | binary_node.null, binary_node.node _ _ _ =>
      if 1 = max_expected_arity then 1
      else max 1 (binary_node.calculate_arity max_expected_arity r)
    | binary_node.node _ _ _, binary_node.null =>
      if 1 = max_expected_arity then 1
      else max 1 (binary_node.calculate_arity max_expected_arity l)
    | binary_node.node _ _ _, binary_node.node _ _ _ =>
      if 2 = max_expected_arity then 2
      else
        if max 2 (binary_node.calculate_arity max_expected_arity l) = max_expected_arity then
          max 2 (binary_node.calculate_arity max_expected_arity l)
        else
          max (max 2 (binary_node.calculate_arity max_expected_arity l))
            (binary_node.calculate_arity max_expected_arity r)

/-! ## `tree_view` (`viewer/tree_view.hpp`) -/

/-- What the constructors of `tree_view` read of an iterator:
`position.get_raw_node()`, as an address (`0` is `nullptr`) and as what it
points to. -/
structure raw_position (N : Type) where
  raw_node_address : Nat
  raw_node : N
  deriving DecidableEq, Repr

/-- Modelled from the spec: `is_root` of the navigator of a tree (the navigator
header is missing from the sources) is true iff the node equals the anchor,
here the root of the tree (spec 4.1). -/
def basic_tree.is_root {N : Type} (tree : basic_tree N) (node_address : Nat) : Bool :=
  node_address == tree.root_address

/-- The constructor `tree_view(const tree_base&)` (`tree_view.hpp` lines 28-34): the view of
a whole tree takes over the root, the size and the arity of the tree. The
attributes of the view are those handed to the constructor of its base
class. -/
def tree_view.of_tree {N : Type} (view_address : Nat) (tree : basic_tree N) : basic_tree N :=
  { address := view_address, root_address := tree.root_address, root := tree.root,
    root_type := tree.root_type, size_value := tree.size_value,
    arity_value := tree.arity_value }

/-- The constructor `tree_view(const tree_base&, const tree_iterator&)` (`tree_view.hpp`
lines 36-64): the attributes handed to the constructor of the base class. -/
def tree_view.at_position {N : Type} (view_address : Nat) (tree : basic_tree N)
    (position : raw_position N) : basic_tree N :=
  { address := view_address
    root_address := position.raw_node_address
    root := position.raw_node
    root_type := tree.root_type
    size_value :=
      if position.raw_node_address != 0 then
        if tree.is_root position.raw_node_address then tree.size_value else 0
      else 0
    arity_value :=
      if position.raw_node_address != 0 then
        if tree.is_root position.raw_node_address then tree.arity_value else 0
      else 0 }

/-- The position of the left child of the root of `100(200(300, 400), 500)`, the
node `200` at address 2001. -/
def sample_inner_position : raw_position (binary_node Int) where
  raw_node_address := 2001
  raw_node := binary_node.node 200
    (binary_node.node 300 binary_node.null binary_node.null)
    (binary_node.node 400 binary_node.null binary_node.null)

/-! ## Iterators of a tree (`basic_tree.hpp`) -/

/-- What `begin`, `end` and their variants use of `tree_iterator` (its header is
not among the sources): the constructor from a tree, which gives an iterator
equivalent to the end, and `operator++`. `I` is the iterator type for one
policy. -/
structure iterator_ops (N I : Type) where
  make : basic_tree N → I
  increment : I → I

/-- The member `basic_tree::cbegin` (lines 121-125): `++const_iterator<P>(*this)`. -/
def basic_tree.cbegin {N I : Type} (ops : iterator_ops N I) (t : basic_tree N) : I :=
  ops.increment (ops.make t)

/-- The member `basic_tree::cend` (lines 132-135): `const_iterator<P>(*this)`. -/
def basic_tree.cend {N I : Type} (ops : iterator_ops N I) (t : basic_tree N) : I :=
  ops.make t

/-- The member `basic_tree::begin` (lines 116-119), which forwards to `cbegin`. -/
def basic_tree.begin {N I : Type} (ops : iterator_ops N I) (t : basic_tree N) : I :=
  t.cbegin ops

/-- The member `basic_tree::end` (lines 127-130), which forwards to `cend` (`end` is a
keyword, hence the name). -/
def basic_tree.end_ {N I : Type} (ops : iterator_ops N I) (t : basic_tree N) : I :=
  t.cend ops

/-- A `std::reverse_iterator<I>`: the base iterator it wraps. -/
structure reverse_iterator (I : Type) where
  current : I

/-- The member `basic_tree::crbegin` (lines 142-145): `std::make_reverse_iterator(cend(policy))`. -/
def basic_tree.crbegin {N I : Type} (ops : iterator_ops N I) (t : basic_tree N) :
    reverse_iterator I :=
  { current := t.cend ops }

/-- The member `basic_tree::crend` (lines 152-156): `std::make_reverse_iterator(cbegin(policy))`. -/
def basic_tree.crend {N I : Type} (ops : iterator_ops N I) (t : basic_tree N) :
    reverse_iterator I :=
  { current := t.cbegin ops }

/-- The member `basic_tree::rbegin` (lines 137-140), which forwards to `crbegin`. -/
def basic_tree.rbegin {N I : Type} (ops : iterator_ops N I) (t : basic_tree N) :
    reverse_iterator I :=
  t.crbegin ops

/-- The member `basic_tree::rend` (lines 147-150), which forwards to `crend`. -/
def basic_tree.rend {N I : Type} (ops : iterator_ops N I) (t : basic_tree N) :
    reverse_iterator I :=
  t.crend ops

/-- The operations of an iterator that a traversal loop uses: `operator++`,
`operator--`, `operator==` and `operator*`, which has no value at the end. -/
structure cursor_ops (I X : Type) where
  increment : I → I
  decrement : I → I
  equals : I → I → Bool
  dereference : I → Option X

/-- The operations of `std::reverse_iterator` in terms of those of its base
iterator: `++` decrements the base, `--` increments it, `==` compares the
bases and `*` dereferences the predecessor of the base. -/
def reverse_iterator.cursor {I X : Type} (base : cursor_ops I X) :
    cursor_ops (reverse_iterator I) X where
  increment r := { current := base.decrement r.current }
  decrement r := { current := base.increment r.current }
  equals a b := base.equals a.current b.current
  dereference r := base.dereference (base.decrement r.current)

/-- The loop `for (it = first; it != last; ++it) visit(*it)`, as the test runs it; `fuel`
bounds the number of times the condition is evaluated. -/
def iterate {I X : Type} (ops : cursor_ops I X) : Nat → I → I → List X
  | 0, _, _ => []
  | fuel + 1, it, last =>
    if ops.equals it last then []
    else (ops.dereference it).toList ++ iterate ops fuel (ops.increment it) last

/-- Modelled from the spec: `tree_iterator` (its header is missing from the
sources) is a cursor (spec 4.3): the identity of the tree it points into, the
total order in which its policy visits the nodes of the tree (spec 4.2), and
the current node, given by its rank in that order, or the end sentinel. -/
structure tree_iterator (X : Type) where
  pointed_tree : Nat
  order : List X
  current : Option Nat
  deriving DecidableEq, Repr

/-- Modelled from the spec: the current node of an iterator, none at the end
sentinel. -/
def tree_iterator.node {X : Type} (it : tree_iterator X) : Option X :=
  match it.current with
  | none => none
  | some i => it.order[i]?

/-- Modelled from the spec: `operator++` delegates to the policy, which gives the
next node under its order or the end; incrementing the end-equivalent
iterator gives the first node, as `cbegin` relies on (spec 4.2, 4.3). -/
def tree_iterator.increment {X : Type} (it : tree_iterator X) : tree_iterator X :=
  { it with
    current :=
      match it.current with
      | none => if it.order.length = 0 then none else some 0
      | some i => if i + 1 < it.order.length then some (i + 1) else none }

/-- Modelled from the spec: `operator--` delegates to the policy, which gives the
previous node under its order; decrementing the first node gives the end
sentinel and decrementing the end gives the last node (spec 4.2, 4.3). -/
def tree_iterator.decrement {X : Type} (it : tree_iterator X) : tree_iterator X :=
  { it with
    current :=
      match it.current with
      | none => if it.order.length = 0 then none else some (it.order.length - 1)
      | some 0 => none
      | some (i + 1) => some i }

/-- Modelled from the spec: iterators compare equal iff they reference the same
tree and the same current node; two end sentinels of a tree are equal
(spec 4.3). -/
def tree_iterator.equals {X : Type} [DecidableEq X] (a b : tree_iterator X) : Bool :=
  a.pointed_tree == b.pointed_tree && a.node == b.node

/-- Modelled from the spec: the operations of `tree_iterator` that a loop uses;
dereferencing gives the current node. -/
def tree_iterator.cursor (X : Type) [DecidableEq X] : cursor_ops (tree_iterator X) X where
  increment := tree_iterator.increment
  decrement := tree_iterator.decrement
  equals := tree_iterator.equals
  dereference := tree_iterator.node

/-- Modelled from the spec: the constructor of `tree_iterator` from a tree gives
the end sentinel of the tree; `visits` is the order of the policy on the
nodes under a root. -/
def tree_iterator.of_tree {N X : Type} (visits : N → List X) (t : basic_tree N) :
    tree_iterator X :=
  { pointed_tree := t.address, order := visits t.root, current := none }

/-- The iterators of the policy whose order is `visits`, as `begin` and `end` use
them. -/
def tree_iterator.ops {N X : Type} (visits : N → List X) :
    iterator_ops N (tree_iterator X) where
  make := tree_iterator.of_tree visits
  increment := tree_iterator.increment

/-! ## Traversal policies -/

/-- Modelled from the spec: the traversal policies (their headers are missing
from the sources): pre-order, post-order, in-order, breadth-first and
siblings (spec 4.2). -/
inductive policy where
  | pre_order
  | post_order
  | in_order
  | breadth_first
  | siblings
  deriving DecidableEq, Repr

/-- Modelled from the spec: pre-order on binary nodes, parent before children,
left before right (spec 4.2). -/
def binary_node.pre_order {X : Type} : binary_node X → List X
  | binary_node.null => []
  | binary_node.node v l r => v :: (l.pre_order ++ r.pre_order)

/-- Modelled from the spec: post-order on binary nodes, children before parent
(spec 4.2). -/
def binary_node.post_order {X : Type} : binary_node X → List X
  | binary_node.null => []
  | binary_node.node v l r => l.post_order ++ r.post_order ++ [v]

/-- Modelled from the spec: in-order on binary nodes, left, self, right
(spec 4.2). -/
def binary_node.in_order {X : Type} : binary_node X → List X
  | binary_node.null => []
  | binary_node.node v l r => l.in_order ++ v :: r.in_order

/-- Modelled from the spec: breadth-first traversal with an explicit FIFO queue
of pending nodes (spec 4.2): the node at the front of the queue is visited and
its children are put at the back, left to right. `fuel` bounds the number of
visits. -/
def breadth_first_queue {N : Type} (children : N → List N) : Nat → List N → List N
  | 0, _ => []
  | _ + 1, [] => []
  | fuel + 1, n :: queue => n :: breadth_first_queue children fuel (queue ++ children n)

/-- The queue that holds the root of a binary tree, empty for a tree without a
root. -/
def binary_node.as_queue {X : Type} : binary_node X → List (binary_node X)
  | binary_node.null => []
  | binary_node.node v l r => [binary_node.node v l r]

/-- Modelled from the spec: breadth-first on binary nodes: the queue starts with
the root and the traversal makes as many visits as the tree has nodes. -/
def binary_node.breadth_first {X : Type} (root : binary_node X) : List X :=
  (breadth_first_queue binary_node.children root.calculate_size root.as_queue).filterMap
    binary_node.value_opt

/-- Modelled from the spec: the total order in which a policy visits the nodes
under a binary root. The siblings policy restricts the traversal to the
direct children of one node, left to right (spec 4.2); when a tree is
iterated that node is the root. -/
def binary_node.visits {X : Type} : policy → binary_node X → List X
  | policy.pre_order, root => root.pre_order
  | policy.post_order, root => root.post_order
  | policy.in_order, root => root.in_order
  | policy.breadth_first, root => root.breadth_first
  | policy.siblings, root => root.children.filterMap binary_node.value_opt

/-- The identity of a node: the path that leads to it from the root, as the
list of child positions taken (in a binary tree 0 is the left child and 1
the right child). -/
abbrev node_path : Type := List Nat

/-- A binary tree in which every node carries its identity next to its value;
`above` is the path of the node the pointer hangs under, followed by the
position of the pointer. -/
def binary_node.with_paths {T : Type} : node_path → binary_node T → binary_node (node_path × T)
  | _, binary_node.null => binary_node.null
  | path, binary_node.node v l r =>
    binary_node.node (path, v) (l.with_paths (path ++ [0])) (r.with_paths (path ++ [1]))

/-- The nodes of a binary tree, each with its identity, in the order of a
policy. -/
def binary_node.visits_of {T : Type} (p : policy) (root : binary_node T) :
    List (node_path × T) :=
  (root.with_paths []).visits p

/-- The binary tree of the test after `insert_over`:
`100(n(), 200(-10(-20, -30(-40)), 400))`. -/
def readme_binary_tree : binary_node Int :=
  binary_node.node 100 binary_node.null
    (binary_node.node 200
      (binary_node.node (-10)
        (binary_node.node (-20) binary_node.null binary_node.null)
        (binary_node.node (-30)
          (binary_node.node (-40) binary_node.null binary_node.null)
          binary_node.null))
      (binary_node.node 400 binary_node.null binary_node.null))
/-- The nodes at depth `d` under the nodes of a queue, left to right: the nodes
of the queue themselves at depth 0, and at depth `d + 1` the nodes at depth
`d` under their children. -/
def level_of {N : Type} (children : N → List N) : Nat → List N → List N
  | 0, queue => queue
  | d + 1, queue => level_of children d (queue.flatMap children)

/-- The levels 0 to `depth - 1` under the nodes of a queue, one after the
other. -/
def levels_upto {N : Type} (children : N → List N) (depth : Nat) (queue : List N) : List N :=
  (List.range depth).flatMap (fun d => level_of children d queue)

/-- The nodes of a tree as seen by a traversal with a queue: which pointers are
nodes (`present`), the children of a node, a measure of a node, and the
nodes under a node. -/
structure queue_view (N : Type) where
  present : N → Prop
  children : N → List N
  size : N → Nat
  subtrees : N → List N

/-- A view of finite trees: the children of a node are nodes, the measure of a
node exceeds the sum of the measures of its children, and the nodes under a
node are the node itself followed by the nodes under its children. -/
structure queue_view.finite {N : Type} (view : queue_view N) : Prop where
  children_present : ∀ n, view.present n → ∀ c ∈ view.children n, view.present c
  size_children : ∀ n, view.present n → ((view.children n).map view.size).sum + 1 ≤ view.size n
  subtrees_eq : ∀ n, view.present n → view.subtrees n = n :: (view.children n).flatMap view.subtrees

/-- The nodes under a binary root, each as the subtree rooted at it: the root,
the nodes under its left child, the nodes under its right child. -/
def binary_node.subtrees {X : Type} : binary_node X → List (binary_node X)
  | binary_node.null => []
  | binary_node.node v l r => binary_node.node v l r :: (l.subtrees ++ r.subtrees)

/-- Binary trees as a traversal with a queue sees them. -/
def binary_node.queue_view (X : Type) : queue_view (binary_node X) where
  present n := n ≠ binary_node.null
  children := binary_node.children
  size := binary_node.calculate_size
  subtrees := binary_node.subtrees

/-- Modelled from the spec: pre-order along a chain of siblings of an n-ary
tree: a node, then the nodes under its children, then its next siblings
(spec 4.2). -/
def nary_node.forest_pre_order {X : Type} : nary_node X → List X
  | nary_node.null => []
  | nary_node.node v c s => v :: (c.forest_pre_order ++ s.forest_pre_order)

/-- Modelled from the spec: pre-order on n-ary nodes, parent before children,
children left to right (spec 4.2). -/
def nary_node.pre_order {X : Type} : nary_node X → List X
  | nary_node.null => []
  | nary_node.node v c _ => v :: c.forest_pre_order

/-- Modelled from the spec: post-order along a chain of siblings of an n-ary
tree: the nodes under the children of a node, then the node, then its next
siblings (spec 4.2). -/
def nary_node.forest_post_order {X : Type} : nary_node X → List X
  | nary_node.null => []
  | nary_node.node v c s => c.forest_post_order ++ v :: s.forest_post_order

/-- Modelled from the spec: post-order on n-ary nodes, children before parent
(spec 4.2). -/
def nary_node.post_order {X : Type} : nary_node X → List X
  | nary_node.null => []
  | nary_node.node v c _ => c.forest_post_order ++ [v]

/-- The queue that holds the root of an n-ary tree, empty for a tree without a
root. -/
def nary_node.as_queue {X : Type} : nary_node X → List (nary_node X)
  | nary_node.null => []
  | nary_node.node v c _ => [nary_node.node v c nary_node.null]

/-- Modelled from the spec: breadth-first on n-ary nodes: the queue starts with
the root and the traversal makes as many visits as the tree has nodes. -/
def nary_node.breadth_first {X : Type} (root : nary_node X) : List X :=
  (breadth_first_queue nary_node.children root.calculate_size root.as_queue).filterMap
    nary_node.value_opt

/-- Modelled from the spec: the total order in which a policy visits the nodes
under an n-ary root; in-order is for binary trees only (spec 4.2) and visits
nothing here. The siblings policy restricts the traversal to the direct
children of one node, left to right (spec 4.2); when a tree is iterated that
node is the root. -/
def nary_node.visits {X : Type} : policy → nary_node X → List X
  | policy.pre_order, root => root.pre_order
  | policy.post_order, root => root.post_order
  | policy.in_order, _ => []
  | policy.breadth_first, root => root.breadth_first
  | policy.siblings, root => root.children.filterMap nary_node.value_opt

/-- A chain of siblings in which every node carries its identity next to its
value: `above` is the path of the parent and `index` the position of the
first node of the chain among the children of the parent. -/
def nary_node.forest_with_paths {T : Type} :
    node_path → Nat → nary_node T → nary_node (node_path × T)
  | _, _, nary_node.null => nary_node.null
  | above, index, nary_node.node v c s =>
    nary_node.node (above ++ [index], v) (c.forest_with_paths (above ++ [index]) 0)
      (s.forest_with_paths above (index + 1))

/-- An n-ary tree in which every node carries its identity next to its value;
the root has the empty path. -/
def nary_node.with_paths {T : Type} : nary_node T → nary_node (node_path × T)
  | nary_node.null => nary_node.null
  | nary_node.node v c _ => nary_node.node ([], v) (c.forest_with_paths [] 0) nary_node.null

/-- The nodes of an n-ary tree, each with its identity, in the order of a
policy. -/
def nary_node.visits_of {T : Type} (p : policy) (root : nary_node T) : List (node_path × T) :=
  root.with_paths.visits p

/-- The nodes along a chain of siblings and under them, each as the subtree
rooted at it. -/
def nary_node.forest_subtrees {X : Type} : nary_node X → List (nary_node X)
  | nary_node.null => []
  | nary_node.node v c s =>
    nary_node.node v c nary_node.null :: (c.forest_subtrees ++ s.forest_subtrees)

/-- The nodes under an n-ary root, each as the subtree rooted at it. -/
def nary_node.subtrees {X : Type} : nary_node X → List (nary_node X)
  | nary_node.null => []
  | nary_node.node v c _ => nary_node.node v c nary_node.null :: c.forest_subtrees

/-- A node taken on its own, cut from its siblings. -/
def nary_node.detached {X : Type} : nary_node X → Prop
  | nary_node.null => False
  | nary_node.node _ _ s => s = nary_node.null

/-- N-ary trees as a traversal with a queue sees them. -/
def nary_node.queue_view (X : Type) : queue_view (nary_node X) where
  present := nary_node.detached
  children := nary_node.children
  size := nary_node.calculate_size
  subtrees := nary_node.subtrees

/-- The n-ary tree `A(B, C(D))` of the spec's scenario. -/
def sample_letters_tree : nary_node String :=
  nary_node.node "A"
    (nary_node.node "B" nary_node.null
      (nary_node.node "C" (nary_node.node "D" nary_node.null nary_node.null) nary_node.null))
    nary_node.null

/-- The iterators of a binary tree under a policy. -/
def binary_iterator_ops (T : Type) (p : policy) :
    iterator_ops (binary_node T) (tree_iterator (node_path × T)) :=
  tree_iterator.ops (binary_node.visits_of p)

/-- The iterators of an n-ary tree under a policy. -/
def nary_iterator_ops (T : Type) (p : policy) :
    iterator_ops (nary_node T) (tree_iterator (node_path × T)) :=
  tree_iterator.ops (nary_node.visits_of p)

/-- The nodes that the loop from `begin()` to `end()` visits, in order, each
with its identity; `fuel` bounds the number of times the loop condition is
evaluated. -/
def basic_tree.forward_visits {N T : Type} [DecidableEq T]
    (ops : iterator_ops N (tree_iterator (node_path × T))) (fuel : Nat) (t : basic_tree N) :
    List (node_path × T) :=
  iterate (tree_iterator.cursor (node_path × T)) fuel (t.begin ops) (t.end_ ops)

/-- The nodes that the loop from `rbegin()` to `rend()` visits, in order, each
with its identity. -/
def basic_tree.reverse_visits {N T : Type} [DecidableEq T]
    (ops : iterator_ops N (tree_iterator (node_path × T))) (fuel : Nat) (t : basic_tree N) :
    List (node_path × T) :=
  iterate (reverse_iterator.cursor (tree_iterator.cursor (node_path × T))) fuel
    (t.rbegin ops) (t.rend ops)

/-- The binary tree of the test after `insert_over`, as a tree object at address
1200 whose root node is at address 2200. -/
def readme_tree : basic_tree (binary_node Int) where
  address := 1200
  root_address := 2200
  root := readme_binary_tree
  root_type := { kind := node_kind.binary, value_type := 0 }
  size_value := 7
  arity_value := 2

/-- The n-ary tree `A(B, C(D))`, as a tree object at address 1300 whose root node
is at address 2300. -/
def letters_tree : basic_tree (nary_node String) where
  address := 1300
  root_address := 2300
  root := sample_letters_tree
  root_type := { kind := node_kind.nary, value_type := 1 }
  size_value := 4
  arity_value := 2

/-! ## Capture names (`matcher/utility.hpp`) -/

/-- The types that `index_of_capture` tells apart: instances of the class
templates `capture_node` and `matcher`, lvalue references, and any other
type (`atom`, told from the others by a number). Names are types as well
(`const_name<...>`). -/
inductive cpp_type where
  | atom (id : Nat) : cpp_type
  | capture_node (name first_child next_sibling : cpp_type) : cpp_type
  | matcher (derived value_matcher first_child next_sibling : cpp_type) : cpp_type
  | lvalue_reference (referred : cpp_type) : cpp_type
  deriving DecidableEq, Repr

/-- The pattern of the partial specialisation #2 of `index_of_capture`
(`matcher/utility.hpp` lines 106-115): whether the first element of the tuple is
`matcher<capture_node<CaptureName, FirstChild, NextSibling>, CaptureName, FirstChild, NextSibling>&`
for the name that is looked for and some `FirstChild` and `NextSibling`. -/
def cpp_type.matches_capture : cpp_type → cpp_type → Bool
  | cpp_type.lvalue_reference
      (cpp_type.matcher (cpp_type.capture_node n fc ns) value_matcher first_child next_sibling),
    name =>
    decide (n = name) && decide (value_matcher = name) && decide (first_child = fc)
      && decide (next_sibling = ns)
  | _, _ => false

/-- The variable template `detail::index_of_capture<Name, Tuple>`
(`matcher/utility.hpp` lines 99-123) on `Tuple = std::tuple<types...>`. The primary
template (#1) is the only one that fits the empty tuple and has the value 1;
of the two specialisations that fit a tuple whose first element is the
capture looked for, #2 is the more specialised one and has the value 0;
otherwise #3 discards the first element. -/
def index_of_capture (name : cpp_type) : List cpp_type → Nat
  | [] => 1
  | u :: types => if u.matches_capture name then 0 else 1 + index_of_capture name types

/-- The variable template `detail::is_valid_name<Name, Tuple>` (`matcher/utility.hpp`
lines 125-126): `index_of_capture<Name, Tuple> < std::tuple_size_v<Tuple>`. -/
def is_valid_name (name : cpp_type) (tuple : List cpp_type) : Bool :=
  decide (index_of_capture name tuple < tuple.length)

/-- A reference to the capture matcher with the given name, first child and
next sibling, as it stands in a captures tuple. -/
def capture_matcher (name first_child next_sibling : cpp_type) : cpp_type :=
  cpp_type.lvalue_reference
    (cpp_type.matcher (cpp_type.capture_node name first_child next_sibling) name first_child
      next_sibling)

/-- An element of a tuple is a capture matcher with the given name. -/
def is_capture_named (name element : cpp_type) : Prop :=
  ∃ first_child next_sibling, element = capture_matcher name first_child next_sibling

/-- The four unrelated types of the example in the comment of `index_of_capture`
(`matcher/utility.hpp` lines 75-98): `std::vector<char>`, `std::list<int>`,
`std::set<int>` and `std::deque<bool>`. -/
def documented_tuple : List cpp_type :=
  [cpp_type.atom 1, cpp_type.atom 2, cpp_type.atom 3, cpp_type.atom 4]

/-- A captures tuple of three elements: a capture named `atom 10`, a matcher that
is not a capture, and a capture named `atom 11`. -/
def sample_captures : List cpp_type :=
  [capture_matcher (cpp_type.atom 10) (cpp_type.atom 0) (cpp_type.atom 0),
   cpp_type.lvalue_reference
     (cpp_type.matcher (cpp_type.atom 20) (cpp_type.atom 21) (cpp_type.atom 0) (cpp_type.atom 0)),
   capture_matcher (cpp_type.atom 11) (cpp_type.atom 0) (cpp_type.atom 0),
   capture_matcher (cpp_type.atom 11) (cpp_type.atom 10) (cpp_type.atom 0)]

/-! ## `keep_calling` (`utility.hpp`) -/

/-- The loop of the four-argument `keep_calling` (`utility.hpp` lines 157-164) from the
state `prev`, `next`; a node pointer is `none` for `nullptr`. `fuel` bounds
the number of times the loop condition is evaluated: `none` when it is used
up, otherwise the returned pointer. -/
def keep_calling_test_loop {N : Type} (call : Option N → Option N)
    (test : Option N → Option N → Bool) (result : Option N → Option N → Option N) :
    Nat → Option N → Option N → Option (Option N)
  | 0, _, _ => none
  | _ + 1, prev, none => some prev
  | fuel + 1, prev, some n =>
    if test prev (some n) then
      some (result prev (some n))
    else
      keep_calling_test_loop call test result fuel (some n) (call (some n))

/-- The function `keep_calling(Node from, Call&& call, Test&& test, Result&& result)`
(`utility.hpp` lines 153-165). -/
def keep_calling_test {N : Type} (call : Option N → Option N)
    (test : Option N → Option N → Bool) (result : Option N → Option N → Option N)
    (fuel : Nat) (from_node : Option N) : Option (Option N) :=
  keep_calling_test_loop call test result fuel from_node (call from_node)

/-- The loop of the two-argument `keep_calling` (`utility.hpp` lines 178-181) from the
state `prev`, `next`; `fuel` bounds the number of times the loop condition
is evaluated. -/
def keep_calling_loop {N : Type} (call : Option N → Option N) :
    Nat → Option N → Option N → Option (Option N)
  | 0, _, _ => none
  | _ + 1, prev, none => some prev
  | fuel + 1, _, some n => keep_calling_loop call fuel (some n) (call (some n))

/-- The function `keep_calling(Node from, Call&& call)` (`utility.hpp` lines 174-183). -/
def keep_calling {N : Type} (call : Option N → Option N) (fuel : Nat)
    (from_node : Option N) : Option (Option N) :=
  keep_calling_loop call fuel from_node (call from_node)

/-- The nodes that a loop of `keep_calling` in the state `prev`, `next` goes
through: `prev`, `next`, `call(next)`, `call(call(next))` and so on. -/
def keep_calling_chain {N : Type} (call : Option N → Option N) (prev next : Option N) :
    Nat → Option N
  | 0 => prev
  | i + 1 => call^[i] next

/-- The parent links of a path of three nodes: the parent of 3 is 2, the parent
of 2 is 1 and 1 has no parent; called on `nullptr` the function returns
`nullptr`. -/
def sample_parent : Option Nat → Option Nat
  | some 3 => some 2
  | some 2 => some 1
  | _ => none

/-- A successor function that answers `nullptr` with a node: the successor of
`nullptr` is the node 7, and the node 7 has no successor. -/
def restarting_call : Option Nat → Option Nat
  | none => some 7
  | some _ => none

/-! ## `apply_at_index` (`utility.hpp`) -/

/-- How a call of `apply_at_index` ends: it returns a value, having applied `f`
to the elements at the listed positions of the tuple, in that order, or it
reaches the `assert(false)` of the terminal case. -/
inductive apply_outcome (β : Type) where
  | returned (value : β) (applied_to : List Nat) : apply_outcome β
  | assertion_failed : apply_outcome β
  deriving DecidableEq, Repr

/-- The function `detail::element_apply_construction<Target>::single_apply`
(`utility.hpp` lines 227-250). The tuple is a list of elements of one type;
`std::get<Target - 1>(tuple)` is well-formed because `Target` is at most the
size of the tuple. `Target = 0` is the specialisation of lines 242-250, whose
assertion fails. -/
def element_apply_construction.single_apply {α β : Type} (f : α → β) (tuple : List α) :
    (target : Nat) → target ≤ tuple.length → Nat → apply_outcome β
  | 0, _, _ => apply_outcome.assertion_failed
  | target + 1, h, index =>
    if index = target then
      apply_outcome.returned (f (tuple.get ⟨target, h⟩)) [target]
    else
      element_apply_construction.single_apply f tuple target (Nat.le_of_succ_le h) index

/-- The function `apply_at_index(F&& f, Tuple&& tuple, std::size_t index)`
(`utility.hpp` lines 256-264): `single_apply` with `Target` the size of the tuple. -/
def apply_at_index {α β : Type} (f : α → β) (tuple : List α) (index : Nat) : apply_outcome β :=
  element_apply_construction.single_apply f tuple tuple.length (Nat.le_refl _) index

/-! ## The arity of a subtree -/

/-- The maximum number of children over a list of nodes. -/
def max_children_of {N : Type} (children : N → List N) (nodes : List N) : Nat :=
  (nodes.map (fun m => (children m).length)).foldr max 0

/-- The maximum number of children of any node of the subtree rooted at a
binary node. -/
def binary_node.max_children {X : Type} (n : binary_node X) : Nat :=
  max_children_of binary_node.children n.subtrees

/-- The maximum number of children of any node of the subtree rooted at an
n-ary node. -/
def nary_node.max_children {X : Type} (n : nary_node X) : Nat :=
  max_children_of nary_node.children n.subtrees

/-- The loop of `calculate_arity` on n-ary nodes (`utility.hpp` lines 213-220) without
the early return of lines 214-216. -/
def nary_node.full_arity_loop {T : Type} : nary_node T → Nat → Nat
  | nary_node.null, arity => arity
  | nary_node.node _ c s, arity =>
    nary_node.full_arity_loop s (max arity (nary_node.full_arity_loop c c.initial_arity))

/-- The function `calculate_arity` on n-ary nodes without its early return. -/
def nary_node.full_arity {T : Type} : nary_node T → Nat
  | nary_node.null => 0
  | nary_node.node _ c _ => nary_node.full_arity_loop c c.initial_arity

/-- The function `calculate_arity` on binary nodes without its early return. -/
def binary_node.full_arity {T : Type} : binary_node T → Nat
  | binary_node.null => 0
  | binary_node.node _ l r =>
    match l, r with
    | binary_node.null, binary_node.null => 0
    | binary_node.null, binary_node.node _ _ _ => max 1 (binary_node.full_arity r)
    | binary_node.node _ _ _, binary_node.null => max 1 (binary_node.full_arity l)
    | binary_node.node _ _ _, binary_node.node _ _ _ =>
      max (max 2 (binary_node.full_arity l)) (binary_node.full_arity r)

/-- The n-ary tree `1(2(5, 6, 7), 3, 4)`: the root has three children and so has
its first child. -/
def sample_wide_tree : nary_node Int :=
  nary_node.node 1
    (nary_node.node 2
      (nary_node.leaf 5 (nary_node.leaf 6 (nary_node.leaf 7 nary_node.null)))
      (nary_node.leaf 3 (nary_node.leaf 4 nary_node.null)))
    nary_node.null

/-- The n-ary tree `1(2(5, 6, 7), 3)`: the root has two children and its first
child has three. -/
def sample_deep_tree : nary_node Int :=
  nary_node.node 1
    (nary_node.node 2
      (nary_node.leaf 5 (nary_node.leaf 6 (nary_node.leaf 7 nary_node.null)))
      (nary_node.leaf 3 nary_node.null))
    nary_node.null

/-! ## A pre-seeded generated pointer -/

/-- The heap of `sample_heap` with one more node: a node holding 200 that a
capture has built already, at address 5, attached to nothing yet. -/
def seeded_heap : List heap_node :=
  sample_heap ++ [{ value := 200, parent := 0, left := 0, right := 0 }]

/-- A `navigator_env` on the concrete heap whose predicate pre-seeds the
generated pointer at the first child: on `get_first_child` the base
navigator returns the target neighbour together with the node at address 5
as the generated pointer and sets the flag; the other accessors move both
pointers and leave the flag alone, as in `heap_env`. -/
def seeded_env : navigator_env (List heap_node) Int :=
  { heap_env with
    navigate := fun which st node =>
      if which = accessor.first_child then
        ({ target := heap_neighbour st.heap which node.target, generated := 5 },
         { st with flag := true })
      else
        heap_env.navigate which st node }

/-! ## The first step of `search_node` -/

/-- Modelled from the spec: the first step of `matcher::search_node` (`matcher.hpp`
is missing from the sources; spec 4.4, step 1): on an absent node the search
succeeds iff the `matches_null` trait of the matcher is set, and nothing else
is tried; on a present node the search is that of the matcher
(`search_node_impl`, given with the state it works on). -/
def matcher.search_node {S N : Type} (info : matcher_info_t)
    (search_node_impl : S → N → Bool × S) (state : S) (node : Option N) : Bool × S :=
  match node with
  | none => (info.matches_null, state)
  | some n => search_node_impl state n

/-! ## Comparison of two trees (`basic_tree.hpp`) -/

/-- The member `basic_tree::operator==(const basic_tree&)` (lines 217-226).
`node_equals` is `operator==` of the node class, whose header is not among the
sources. The value is `none` when the evaluation dereferences a null root
pointer in `this->root->operator==(*other.root)`. -/
def basic_tree.equals {N : Type} (node_equals : N → N → Bool) (a other : basic_tree N) :
    Option Bool :=
  if a.size_value ≠ other.size_value ∨ a.arity_value ≠ other.arity_value then
    some false
  else if a.root_address = 0 ∧ other.root_address = 0 then
    some true
  else if a.root_address = 0 ∨ other.root_address = 0 then
    none
  else
    some (node_equals a.root other.root)

/-- Whether the evaluation of `basic_tree::operator==(const basic_tree&)` reaches the
deep comparison `this->root->operator==(*other.root)` of line 225: the sizes
and the arities are equal and the roots are not both null. -/
def basic_tree.deep_comparison_reached {N : Type} (a other : basic_tree N) : Bool :=
  !(a.size_value != other.size_value || a.arity_value != other.arity_value)
    && !(a.root_address == 0 && other.root_address == 0)

/-- Plain structural equality of two trees, without a look at the cached size
and arity: both have no root, or both have a root and the roots are equal
nodes. -/
def basic_tree.structurally_equal {N : Type} (node_equals : N → N → Bool)
    (a other : basic_tree N) : Bool :=
  (a.root_address == 0 && other.root_address == 0)
    || (a.root_address != 0 && other.root_address != 0 && node_equals a.root other.root)

/-- A copy of `100(200(300, 400), 500)` in another tree object, at address
1500 with its root node at address 2500. -/
def sample_binary_copy : basic_tree (binary_node Int) :=
  { sample_binary_tree with address := 1500, root_address := 2500 }

/-- The empty binary tree of integers, a tree object at address 1600. -/
def empty_binary_tree : basic_tree (binary_node Int) :=
  basic_tree.default_tree 1600 { kind := node_kind.binary, value_type := 0 } binary_node.null

/-- A tree object whose attributes disagree: no root, but a cached size of 1
and a cached arity of 0, as the tree `7` has. -/
def rootless_sized_tree : basic_tree (binary_node Int) :=
  { empty_binary_tree with size_value := 1 }

/-! ## A memo hit on another tree -/

/-- A matcher tree for n-ary trees of integers that accepts every root; its
state is the list of the calls it has received, oldest first. -/
def accepting_ops : matcher_ops (List matcher_call) (nary_node Int) where
  reset log := log ++ [matcher_call.reset]
  match_node log n := (true, log ++ [matcher_call.match_node n.value_opt])

/-- The n-ary tree `1(2, 3)` as a tree object at the address 2000, the address
of the root node of `sample_binary_tree`: the tree object is the first
member of what that node holds, or it lived at that address before the node
was allocated there. -/
def aliasing_nary_tree : basic_tree (nary_node Int) :=
  { sample_nary_tree with address := 2000 }

/-! ## Patterns that have not matched yet -/

/-- A pattern on which no `match` call has yet returned true: a pattern as its
constructor leaves it, or such a pattern after one more `match` call, against
a tree of any node type, that returned false. -/
inductive pattern.never_matched {M : Type} : pattern M → Prop where
  | fresh (tree : M) : pattern.never_matched (pattern.mk_pattern tree)
  | failed {N : Type} (ops : matcher_ops M N) (p : pattern M) (tree : basic_tree N)
      (hbefore : pattern.never_matched p) (hfalse : (p.match_tree ops tree).1 = false) :
      pattern.never_matched (p.match_tree ops tree).2

/-! ## `matcher_traits` (`matcher/utility.hpp`) -/

/-- The two member types of `detail::matcher_traits`, each a `std::tuple` given by
the list of its element types. -/
structure matcher_traits where
  children_captures : List cpp_type
  siblings_captures : List cpp_type
  deriving DecidableEq, Repr

/-- The class template `detail::matcher_traits<matcher<Derived, ValueMatcher, FirstChild, NextSibling>>`
(`matcher/utility.hpp` lines 39-64). A template argument `FirstChild` or
`NextSibling` is either `detail::empty_t` (`none`) or a matcher type, given by
the element types of its `captures_t`. Of the specialisations that fit, the
most specialised one is chosen: lines 42-46 when both are `empty_t`, lines
48-52 when only `FirstChild` is, lines 54-58 when only `NextSibling` is, and
lines 60-64 otherwise. -/
def matcher_traits.of : Option (List cpp_type) → Option (List cpp_type) → matcher_traits
  | none, none => { children_captures := [], siblings_captures := [] }
  | none, some next_sibling =>
    { children_captures := [], siblings_captures := next_sibling }
  | some first_child, none =>
    { children_captures := [], siblings_captures := first_child }
  | some first_child, some next_sibling =>
    { children_captures := first_child, siblings_captures := next_sibling }

/-- The capture list of a template argument `FirstChild` or `NextSibling`: its
`captures_t`, and the empty list for `detail::empty_t`. -/
def captures_of : Option (List cpp_type) → List cpp_type
  | none => []
  | some captures => captures

/-! ## Matches of a pattern -/

/-- The number of quantifiers of a pattern. -/
def matcher_node.star_count {T : Type} : matcher_node T → Nat
  | matcher_node.empty_t => 0
  | matcher_node.one _ _ first_child next_sibling =>
    first_child.star_count + next_sibling.star_count
  | matcher_node.star _ _ next_sibling => 1 + next_sibling.star_count

/-- A match of a pattern along a run of sibling nodes, as the spec describes it
(4.4, steps 2 to 5) and apart from any search: `marks` are the nodes the
captures are bound to and `runs` the numbers of siblings the quantifiers
consume, both in pattern order. The absent matcher asks nothing. A
one-matcher sits on the first node of the run: its value matcher accepts the
node, its first-child matcher matches along the children of the node and
its next-sibling matcher along the following siblings; a capture wrapped
around it is bound to that node. A quantifier consumes some run of siblings
that its value matcher accepts, and its next-sibling matcher matches along
what follows. -/
def matches_with {N T : Type} [DecidableEq T] (nav : node_navigator N T) :
    matcher_node T → List N → List (String × N) → List Nat → Prop
  | matcher_node.empty_t, _, marks, runs => marks = [] ∧ runs = []
  | matcher_node.one mark value first_child next_sibling, siblings, marks, runs =>
    ∃ n rest below after child_runs sibling_runs,
      siblings = n :: rest ∧ nav.accepts value n = true ∧
      matches_with nav first_child (nav.children n) below child_runs ∧
      matches_with nav next_sibling rest after sibling_runs ∧
      marks = mark_of mark n ++ below ++ after ∧ runs = child_runs ++ sibling_runs
  | matcher_node.star _ value next_sibling, siblings, marks, runs =>
    ∃ j rest_runs, runs = j :: rest_runs ∧ j ≤ siblings.length ∧
      (∀ n ∈ siblings.take j, nav.accepts value n = true) ∧
      matches_with nav next_sibling (siblings.drop j) marks rest_runs

/-- The node the capture with the given name matched: in a match of the whole
pattern at the root in which the quantifiers consume the given numbers of
siblings, the (first) capture with that name is bound to the node `b`. -/
def bound_in_match {N T : Type} [DecidableEq T] (nav : node_navigator N T)
    (m : matcher_node T) (root : N) (runs : List Nat) (name : String) (b : N) : Prop :=
  ∃ marks, matches_with nav m [root] marks runs ∧ marks.lookup name = some b

/-- Modelled from the spec: the structural clone of the subtree rooted at a
binary node, by which a capture reproduces the subtree it is bound to
(spec 4.5). -/
def binary_node.clone {T : Type} : binary_node T → binary_node T
  | binary_node.null => binary_node.null
  | binary_node.node v l r => binary_node.node v l.clone r.clone

/-- Modelled from the spec: the structural clone of the subtree rooted at an
n-ary node, cut from its siblings (spec 4.5). -/
def nary_node.clone_chain {T : Type} : nary_node T → nary_node T
  | nary_node.null => nary_node.null
  | nary_node.node v c s => nary_node.node v c.clone_chain s.clone_chain

/-- Modelled from the spec: `marked_result` as a tree (spec 4.5): the clone of the
subtree bound to the capture with the given name, nothing for a capture
that never matched. -/
def match_result.marked_tree {N : Type} (clone : N → N) (r : match_result N)
    (name : String) : Option N :=
  (r.marked_result name).map clone

/-- The binary tree `0(200, 200(300))`, in which two nodes hold 200. -/
def twin_tree : binary_node Int :=
  binary_node.node 0
    (binary_node.node 200 binary_node.null binary_node.null)
    (binary_node.node 200
      (binary_node.node 300 binary_node.null binary_node.null) binary_node.null)

/-- The pattern `0(one(200), one(200))` with a capture named `a` wrapped around
the first `one(200)`. -/
def twin_pattern : matcher_node Int :=
  matcher_node.one none (value_matcher.literal 0)
    (matcher_node.one (some "a") (value_matcher.literal 200) matcher_node.empty_t
      (matcher_node.one none (value_matcher.literal 200) matcher_node.empty_t
        matcher_node.empty_t))
    matcher_node.empty_t

/-! # Properties -/

/-! ## `pattern` -/

/-- A `match` call that returns false leaves `node_type` and `matched_tree` as
they were. -/
theorem pattern.do_match_false_keeps {M N : Type} (ops : matcher_ops M N) (p : pattern M)
    (tree : basic_tree N) (h : (p.do_match ops tree).1 = false) :
    (p.do_match ops tree).2.node_type = p.node_type ∧
      (p.do_match ops tree).2.matched_tree = p.matched_tree := by
  unfold pattern.do_match at h ⊢
  by_cases hm : p.memo_hit tree = true
  · simp [hm] at h
  · by_cases hr : (ops.match_node (ops.reset p.pattern_tree) tree.root).1 = true
    · simp [hm, hr] at h
    · simp [hm, hr]

/-- A `match` call that is not answered from the memo and returns true records
the type of the root pointer and the address of the tree. -/
theorem pattern.do_match_true_records {M N : Type} (ops : matcher_ops M N) (p : pattern M)
    (tree : basic_tree N) (hm : p.memo_hit tree = false)
    (h : (p.do_match ops tree).1 = true) :
    (p.do_match ops tree).2.node_type = some tree.root_type ∧
      (p.do_match ops tree).2.matched_tree = tree.address := by
  unfold pattern.do_match at h ⊢
  by_cases hr : (ops.match_node (ops.reset p.pattern_tree) tree.root).1 = true
  · simp [hm, hr]
  · simp [hm, hr] at h

/-- A sequence of `match` calls that all return false leaves `node_type` and
`matched_tree` as they were. -/
theorem pattern.match_all_false_keeps {M N : Type} (ops : matcher_ops M N) :
    ∀ (trees : List (basic_tree N)) (p : pattern M),
      (∀ b ∈ (p.match_all ops trees).1, b = false) →
      (p.match_all ops trees).2.node_type = p.node_type ∧
        (p.match_all ops trees).2.matched_tree = p.matched_tree
  | [], p, _ => by simp [pattern.match_all]
  | tree :: rest, p, h => by
    have h1 : (p.do_match ops tree).1 = false := by
      apply h
      simp [pattern.match_all, pattern.match_tree]
    have h2 : ∀ b ∈ ((p.do_match ops tree).2.match_all ops rest).1, b = false := by
      intro b hb
      apply h
      simp [pattern.match_all, pattern.match_tree, hb]
    have ih := pattern.match_all_false_keeps ops rest (p.do_match ops tree).2 h2
    have hk := pattern.do_match_false_keeps ops p tree h1
    simp only [pattern.match_all, pattern.match_tree]
    exact ⟨ih.1.trans hk.1, ih.2.trans hk.2⟩

/-- A pattern whose `node_type` is not the type of the destination's root
pointer makes all three assignment functions throw and leave the destination
as it was. -/
theorem pattern.assign_mismatch {M N : Type} (ops : result_ops M N) (p : pattern M)
    (dest : basic_tree N) (index : Nat) (name : String)
    (h : p.node_type ≠ some dest.root_type) :
    p.assign_result ops dest = (outcome.invalid_argument type_mismatch_message, dest) ∧
      p.assign_mark_index ops index dest
        = (outcome.invalid_argument type_mismatch_message, dest) ∧
      p.assign_mark_name ops name dest
        = (outcome.invalid_argument type_mismatch_message, dest) := by
  simp [pattern.assign_result, pattern.assign_mark_index, pattern.assign_mark_name, h]

/-- Take a pattern on which a `match` call against a tree `source` was a real
attempt (not answered from the memo) and returned true, followed by any
number of `match` calls that returned false. For every destination tree whose
node kind differs from the node kind of `source`, `assign_result`,
`assign_mark(index)` and `assign_mark(name)` each end with the
invalid-argument condition and the destination tree after the call is the
destination tree before the call. -/
theorem pattern.assign_other_kind_throws {M N1 N2 : Type} (ops : matcher_ops M N1)
    (rops : result_ops M N2) (p0 : pattern M) (source : basic_tree N1)
    (later : List (basic_tree N1)) (dest : basic_tree N2) (index : Nat) (name : String)
    (hreal : p0.memo_hit source = false)
    (hsucc : (p0.match_tree ops source).1 = true)
    (hlater : ∀ b ∈ ((p0.match_tree ops source).2.match_all ops later).1, b = false)
    (hkind : dest.root_type.kind ≠ source.root_type.kind) :
    (((p0.match_tree ops source).2.match_all ops later).2.assign_result rops dest
        = (outcome.invalid_argument type_mismatch_message, dest)) ∧
      (((p0.match_tree ops source).2.match_all ops later).2.assign_mark_index rops index dest
        = (outcome.invalid_argument type_mismatch_message, dest)) ∧
      (((p0.match_tree ops source).2.match_all ops later).2.assign_mark_name rops name dest
        = (outcome.invalid_argument type_mismatch_message, dest)) := by
  have hrec := pattern.do_match_true_records ops p0 source hreal hsucc
  have hkeep := pattern.match_all_false_keeps ops later (p0.match_tree ops source).2 hlater
  apply pattern.assign_mismatch
  rw [hkeep.1]
  simp only [pattern.match_tree]
  rw [hrec.1]
  intro heq
  apply hkind
  injection heq with heq
  rw [heq]

/-- The pattern accepting roots that hold 100 is matched against the binary tree
`100(200(300, 400), 500)` (true, a real attempt) and then against the binary
tree `7` (false); assigning into the n-ary tree `1(2, 3)` throws and leaves
it unchanged. -/
theorem pattern.assign_other_kind_throws_witness :
    (pattern.mk_pattern ([] : List matcher_call)).memo_hit sample_binary_tree = false ∧
    ((pattern.mk_pattern []).match_tree (logging_ops 100) sample_binary_tree).1 = true ∧
    (((pattern.mk_pattern []).match_tree (logging_ops 100) sample_binary_tree).2.match_all
        (logging_ops 100) [other_binary_tree]).1 = [false] ∧
    ((((pattern.mk_pattern []).match_tree (logging_ops 100) sample_binary_tree).2.match_all
        (logging_ops 100) [other_binary_tree]).2.assign_result
          (constant_result_ops (List matcher_call) (nary_node.null : nary_node Int) 0 0)
          sample_nary_tree
        = (outcome.invalid_argument type_mismatch_message, sample_nary_tree)) :=
  ⟨by decide, by decide, by decide,
    (pattern.assign_other_kind_throws (logging_ops 100)
      (constant_result_ops (List matcher_call) (nary_node.null : nary_node Int) 0 0)
      (pattern.mk_pattern []) sample_binary_tree [other_binary_tree] sample_nary_tree 0 ""
      (by decide) (by decide) (by decide) (by decide)).1⟩

/-- C1, as the code computes it. A `match` call that is answered from the memo
(line 31) returns true without recording the type of the tree, and the memo
test compares the recorded address of a tree object with the address of a
root node. A pattern is matched against the n-ary tree `1(2, 3)`, a tree
object at address 2000, and then against the binary tree
`100(200(300, 400), 500)` whose root node is at address 2000: the second call
is a memo hit and returns true, without a call to the matcher tree, and the
recorded type stays that of the n-ary tree. The last successful match was
against a binary tree, yet `assign_result`, `assign_mark(index)` and
`assign_mark(name)` into the n-ary tree `1(2, 3)` return without the
invalid-argument condition and replace the destination. -/
theorem pattern.memo_hit_keeps_stale_node_type :
    ((pattern.mk_pattern ([] : List matcher_call)).match_tree accepting_ops
        aliasing_nary_tree).1 = true ∧
    ((pattern.mk_pattern ([] : List matcher_call)).match_tree accepting_ops
        aliasing_nary_tree).2.memo_hit sample_binary_tree = true ∧
    (((pattern.mk_pattern ([] : List matcher_call)).match_tree accepting_ops
        aliasing_nary_tree).2.match_tree (logging_ops 100) sample_binary_tree).1 = true ∧
    (((pattern.mk_pattern ([] : List matcher_call)).match_tree accepting_ops
        aliasing_nary_tree).2.match_tree (logging_ops 100) sample_binary_tree).2.pattern_tree
      = [matcher_call.reset, matcher_call.match_node (some 1)] ∧
    (((pattern.mk_pattern ([] : List matcher_call)).match_tree accepting_ops
        aliasing_nary_tree).2.match_tree (logging_ops 100) sample_binary_tree).2.node_type
      = some { kind := node_kind.nary, value_type := 0 } ∧
    sample_binary_tree.root_type.kind ≠ sample_nary_tree.root_type.kind ∧
    ((((pattern.mk_pattern ([] : List matcher_call)).match_tree accepting_ops
        aliasing_nary_tree).2.match_tree (logging_ops 100)
          sample_binary_tree).2.assign_result
        (constant_result_ops (List matcher_call)
          (nary_node.node 9 nary_node.null nary_node.null) 1 0) sample_nary_tree
      = (outcome.returned,
          { sample_nary_tree with
            root := nary_node.node 9 nary_node.null nary_node.null
            size_value := 1
            arity_value := 0 })) ∧
    ((((pattern.mk_pattern ([] : List matcher_call)).match_tree accepting_ops
        aliasing_nary_tree).2.match_tree (logging_ops 100)
          sample_binary_tree).2.assign_mark_index
        (constant_result_ops (List matcher_call)
          (nary_node.node 9 nary_node.null nary_node.null) 1 0) 0 sample_nary_tree).1
      = outcome.returned ∧
    ((((pattern.mk_pattern ([] : List matcher_call)).match_tree accepting_ops
        aliasing_nary_tree).2.match_tree (logging_ops 100)
          sample_binary_tree).2.assign_mark_name
        (constant_result_ops (List matcher_call)
          (nary_node.node 9 nary_node.null nary_node.null) 1 0) "a" sample_nary_tree).1
      = outcome.returned := by
  decide

/-- After a `match` call on `tree` that was a real attempt and returned true, a
second `match` call on the same tree is not answered from the memo when the
tree object and its root node have different addresses: the recorded address
is `&tree`, the address it is compared with is `tree.root`. -/
theorem pattern.do_match_again_no_memo {M N : Type} (ops : matcher_ops M N) (p : pattern M)
    (tree : basic_tree N) (hm : p.memo_hit tree = false)
    (h : (p.do_match ops tree).1 = true) (haddr : tree.address ≠ tree.root_address) :
    (p.do_match ops tree).2.memo_hit tree = false := by
  have hrec := pattern.do_match_true_records ops p tree hm h
  simp [pattern.memo_hit, hrec.2, haddr]

/-- C3, evaluated: the pattern accepting roots that hold 100 is matched twice
against the same tree `100(200(300, 400), 500)` (tree object at address 1000,
root node at address 2000). The first call returns true after one `reset` and
one `match_node`. The second call returns true as well, but it is not a memo hit:
the matcher tree is reset and run a second time. -/
theorem pattern.rematch_same_tree_reruns :
    ((pattern.mk_pattern []).match_tree (logging_ops 100) sample_binary_tree).1 = true ∧
    ((pattern.mk_pattern []).match_tree (logging_ops 100) sample_binary_tree).2.pattern_tree
      = [matcher_call.reset, matcher_call.match_node (some 100)] ∧
    ((pattern.mk_pattern []).match_tree (logging_ops 100) sample_binary_tree).2.matched_tree
      = 1000 ∧
    sample_binary_tree.root_address = 2000 ∧
    ((pattern.mk_pattern []).match_tree (logging_ops 100) sample_binary_tree).2.memo_hit
      sample_binary_tree = false ∧
    (((pattern.mk_pattern []).match_tree (logging_ops 100) sample_binary_tree).2.match_tree
      (logging_ops 100) sample_binary_tree).1 = true ∧
    (((pattern.mk_pattern []).match_tree (logging_ops 100) sample_binary_tree).2.match_tree
      (logging_ops 100) sample_binary_tree).2.pattern_tree
      = [matcher_call.reset, matcher_call.match_node (some 100),
         matcher_call.reset, matcher_call.match_node (some 100)] := by
  decide

/-- C4, as stated, fails: the pattern accepting roots that hold 100 is matched
against `100(200(300, 400), 500)` (true) and then against the tree `7`. The
second call returns false, and afterwards the pattern still records the
node type and the tree of the first call. -/
theorem pattern.failed_match_keeps_record :
    (((pattern.mk_pattern []).match_tree (logging_ops 100) sample_binary_tree).2.match_tree
      (logging_ops 100) other_binary_tree).1 = false ∧
    (((pattern.mk_pattern []).match_tree (logging_ops 100) sample_binary_tree).2.match_tree
      (logging_ops 100) other_binary_tree).2.node_type
      = some { kind := node_kind.binary, value_type := 0 } ∧
    (((pattern.mk_pattern []).match_tree (logging_ops 100) sample_binary_tree).2.match_tree
      (logging_ops 100) other_binary_tree).2.matched_tree = 1000 := by
  decide

/-- C4, amended. Every `match` call that is not answered from the memo resets the
matcher tree before running it: the matcher tree after the call is the one
`match_node` leaves when started from the reset matcher tree. The recorded
node type and matched tree are not reset: a call that returns false (such a
call is never answered from the memo) leaves both exactly as they were before
the call. -/
theorem pattern.match_resets_matcher_tree_only {M N : Type} (ops : matcher_ops M N)
    (p : pattern M) (tree : basic_tree N) :
    (p.memo_hit tree = false →
      (p.match_tree ops tree).2.pattern_tree
        = (ops.match_node (ops.reset p.pattern_tree) tree.root).2) ∧
    ((p.match_tree ops tree).1 = false →
      p.memo_hit tree = false ∧
      (p.match_tree ops tree).2.node_type = p.node_type ∧
      (p.match_tree ops tree).2.matched_tree = p.matched_tree) := by
  constructor
  · intro hm
    simp only [pattern.match_tree, pattern.do_match, hm]
    by_cases hr : (ops.match_node (ops.reset p.pattern_tree) tree.root).1 = true
    · simp [hr]
    · simp [hr]
  · intro h
    refine ⟨?_, pattern.do_match_false_keeps ops p tree h⟩
    by_cases hm : p.memo_hit tree = true
    · simp [pattern.match_tree, pattern.do_match, hm] at h
    · simpa using hm

/-- C4, amended, at a concrete input: a failing call after a successful one keeps
the recorded node type. -/
theorem pattern.match_resets_matcher_tree_only_witness :
    (((pattern.mk_pattern []).match_tree (logging_ops 100) sample_binary_tree).2.match_tree
      (logging_ops 100) other_binary_tree).1 = false ∧
    (((pattern.mk_pattern []).match_tree (logging_ops 100) sample_binary_tree).2.match_tree
      (logging_ops 100) other_binary_tree).2.node_type
      = ((pattern.mk_pattern []).match_tree (logging_ops 100) sample_binary_tree).2.node_type :=
  ⟨by decide,
    ((pattern.match_resets_matcher_tree_only (logging_ops 100)
      ((pattern.mk_pattern []).match_tree (logging_ops 100) sample_binary_tree).2
      other_binary_tree).2 (by decide)).2.1⟩

/-! ## Comparison of a tree with a literal description -/

/-- C2. For every tree `t` and every non-empty literal description `d`, `t == d` is
true exactly when `t` has a root, its size and arity are the subtree size and
arity of `d`, and its root is structurally equal to `d`; whenever the root
differs from `d` (in a value or in the arrangement of the children) the
answer is false; and `d == t` gives the answer of `t == d`. -/
theorem basic_tree.equals_struct_iff {N D : Type} (ops : struct_ops N D) (t : basic_tree N)
    (d : D) :
    (t.equals_struct ops d = true ↔
      (t.root_address ≠ 0 ∧ t.size_value = ops.get_subtree_size d
        ∧ t.arity_value = ops.get_subtree_arity d ∧ ops.node_equals t.root d = true)) ∧
    (ops.node_equals t.root d = false → t.equals_struct ops d = false) ∧
    struct_equals_tree ops d t = t.equals_struct ops d := by
  refine ⟨?_, ?_, rfl⟩
  · unfold basic_tree.equals_struct
    by_cases hs : t.size_value = ops.get_subtree_size d
    · by_cases ha : t.arity_value = ops.get_subtree_arity d
      · simp [hs, ha]
      · simp [hs, ha]
    · simp [hs]
  · intro h
    unfold basic_tree.equals_struct
    simp [h]

/-- The tree `100(200(300, 400), 500)` compares equal to the literal of the same
shape and values and different from a literal with one other value, from a
literal with the children of the root swapped and from a literal that leaves
out a child. -/
theorem sample_binary_tree_equals_struct :
    sample_binary_tree.equals_struct binary_struct_ops
      (struct_node.node 100 [struct_node.node 200 [struct_node.leaf 300, struct_node.leaf 400],
        struct_node.leaf 500]) = true ∧
    sample_binary_tree.equals_struct binary_struct_ops
      (struct_node.node 100 [struct_node.node 200 [struct_node.leaf 300, struct_node.leaf 401],
        struct_node.leaf 500]) = false ∧
    sample_binary_tree.equals_struct binary_struct_ops
      (struct_node.node 100 [struct_node.leaf 500,
        struct_node.node 200 [struct_node.leaf 300, struct_node.leaf 400]]) = false ∧
    sample_binary_tree.equals_struct binary_struct_ops
      (struct_node.node 100 [struct_node.node 200 [struct_node.leaf 300, struct_node.leaf 400]])
      = false := by
  decide

/-! ## `one_matcher` -/

/-- C7. For every one-matcher and every present node, `search_node_impl` returns
true if and only if the value matcher accepts the value of the node and
`search_children`, run on the `siblings` policy started at the first child of
the node with `do_search_child` as the test, returns true. When the value
test fails the call returns false with the matcher as the value test left
it, and this holds for every other node with the same value and every other
implementation of the policy, of the child matchers and of `search_children`:
nothing about the children is consulted. -/
theorem one_matcher.search_node_impl_iff {S V N P I C : Type} (env : search_env S V N P I C)
    (s : S) (node : N) :
    ((one_matcher.search_node_impl env s node).1 = true ↔
      ((env.match_value s (env.get_value node)).1 = true ∧
        (env.search_children (env.match_value s (env.get_value node)).2
          (env.get_instance (env.get_first_child node))
          (one_matcher.do_search_child env)).1 = true)) ∧
    ((env.match_value s (env.get_value node)).1 = false →
      ∀ (env2 : search_env S V N P I C) (node2 : N),
        env2.match_value = env.match_value →
        env2.get_value node2 = env.get_value node →
        one_matcher.search_node_impl env2 s node2
          = (false, (env.match_value s (env.get_value node)).2)) := by
  constructor
  · unfold one_matcher.search_node_impl
    by_cases h : (env.match_value s (env.get_value node)).1 = true
    · simp [h]
    · simp [h]
  · intro h env2 node2 hm hv
    unfold one_matcher.search_node_impl
    simp [hm, hv, h]

/-- The fold of `attach_child` over the children is the fold of
`assign_child_like` over the attachments. -/
theorem one_matcher.foldl_attach_child {S C R N : Type} (env : result_env S C R N) :
    ∀ (children : List C) (start : R),
      children.foldl (one_matcher.attach_child env) start
        = ((children.filter (fun child => !env.empty child)).map
            (fun child => (env.result child, env.get_node child))).foldl
            (fun acc a => env.assign_child_like acc a.1 a.2) start
  | [], _ => rfl
  | child :: rest, start => by
    by_cases h : env.empty child = true
    · simp [List.filter, one_matcher.attach_child, h,
        one_matcher.foldl_attach_child env rest start]
    · simp [List.filter, one_matcher.attach_child, h,
        one_matcher.foldl_attach_child env rest]

/-- A fold of attachments keeps what every single attachment keeps. -/
theorem one_matcher.foldl_assign_keeps {R N X : Type} (assign : R → R → N → R)
    (observe : R → X) (hkeep : ∀ parent child reference,
      observe (assign parent child reference) = observe parent) :
    ∀ (todo : List (R × N)) (start : R),
      observe (todo.foldl (fun acc a => assign acc a.1 a.2) start) = observe start
  | [], _ => rfl
  | a :: rest, start => by
    simp only [List.foldl]
    rw [one_matcher.foldl_assign_keeps assign observe hkeep rest, hkeep]

/-- C8. The result built by a one-matcher is the clone of the node it matched
(`clone_node`) to which the results of the child matchers that are not empty
have been attached, in pattern order, each by `assign_child_like` with the
node of the matched tree that the child matched as the reference for the
position; a child matcher takes part in an attachment if and only if it is
not empty. Whatever an attachment leaves untouched on the parent (`observe`,
for instance the value the parent holds) is on the result what it is on the
clone. -/
theorem one_matcher.result_impl_attaches {S C R N X : Type} (env : result_env S C R N)
    (s : S) (observe : R → X)
    (hkeep : ∀ parent child reference,
      observe (env.assign_child_like parent child reference) = observe parent) :
    one_matcher.result_impl env s
      = (one_matcher.attachments env s).foldl
          (fun acc a => env.assign_child_like acc a.1 a.2) (env.clone_node s) ∧
    observe (one_matcher.result_impl env s) = observe (env.clone_node s) ∧
    (one_matcher.attachments env s).length
      = ((env.get_children s).filter (fun child => !env.empty child)).length ∧
    (∀ a, a ∈ one_matcher.attachments env s ↔
      ∃ child ∈ env.get_children s,
        env.empty child = false ∧ a = (env.result child, env.get_node child)) := by
  have hfold : one_matcher.result_impl env s
      = (one_matcher.attachments env s).foldl
          (fun acc a => env.assign_child_like acc a.1 a.2) (env.clone_node s) :=
    one_matcher.foldl_attach_child env (env.get_children s) (env.clone_node s)
  refine ⟨hfold, ?_, ?_, ?_⟩
  · rw [hfold]
    exact one_matcher.foldl_assign_keeps env.assign_child_like observe hkeep _ _
  · simp [one_matcher.attachments]
  · intro a
    simp only [one_matcher.attachments, List.mem_map, List.mem_filter]
    constructor
    · rintro ⟨child, ⟨hmem, hne⟩, rfl⟩
      exact ⟨child, hmem, by simpa using hne, rfl⟩
    · rintro ⟨child, hmem, hne, rfl⟩
      exact ⟨child, ⟨hmem, by simp [hne]⟩, rfl⟩

/-- Attaching a child to a binary node keeps the value of the node. -/
theorem binary_node.assign_child_like_value {T : Type} (parent child : binary_node T)
    (reference_is_left : Bool) :
    (parent.assign_child_like child reference_is_left).value_opt = parent.value_opt := by
  cases parent with
  | null => rfl
  | node v l r => cases reference_is_left <;> rfl

/-- C8, at a concrete input: the one-matcher that matched the root of
`100(200(300, 400), 500)` with an empty second child builds `100(200, 500)`,
with `200` on the left and `500` on the right as in the matched tree. -/
theorem one_matcher.result_impl_attaches_witness :
    one_matcher.result_impl binary_result_env sample_matched_one
      = binary_node.node 100
          (binary_node.node 200 binary_node.null binary_node.null)
          (binary_node.node 500 binary_node.null binary_node.null) ∧
    (one_matcher.result_impl binary_result_env sample_matched_one).value_opt = some 100 ∧
    (one_matcher.attachments binary_result_env sample_matched_one).length = 2 :=
  ⟨by decide,
    (one_matcher.result_impl_attaches binary_result_env sample_matched_one
      binary_node.value_opt binary_node.assign_child_like_value).2.1.trans (by decide),
    by decide⟩

/-! ## `generative_navigator` -/

/-- Without an external flag, a neighbour that is present on the target side and
absent on the generated side is synthesised: a node holding the value of
the target neighbour is allocated and handed to `attach_node`, and the
generated side of the returned pair is the pointer `attach_node` returns. -/
theorem generative_navigator.do_navigate_generate_no_flag {H V : Type}
    (env : navigator_env H V) (st : nav_state H) (node : node_ptrs_t)
    (navigate : nav_state H → node_ptrs_t → node_ptrs_t × nav_state H)
    (attach_node : H → Nat → Nat → Nat → Nat × H)
    (hvalid : node.all_valid = true)
    (htarget : (navigate st node).1.target ≠ 0)
    (hgenerated : (navigate st node).1.generated = 0) :
    generative_navigator.do_navigate_generate env { has_flag := false } st node navigate
        attach_node
      = some
          ({ target := (navigate st node).1.target,
             generated :=
               (attach_node
                 (env.allocate (navigate st node).2.heap
                   (env.get_value (navigate st node).2.heap (navigate st node).1.target)).2
                 node.generated
                 (env.allocate (navigate st node).2.heap
                   (env.get_value (navigate st node).2.heap (navigate st node).1.target)).1
                 (navigate st node).1.target).1 },
           { heap :=
               (attach_node
                 (env.allocate (navigate st node).2.heap
                   (env.get_value (navigate st node).2.heap (navigate st node).1.target)).2
                 node.generated
                 (env.allocate (navigate st node).2.heap
                   (env.get_value (navigate st node).2.heap (navigate st node).1.target)).1
                 (navigate st node).1.target).2,
             flag := (navigate st node).2.flag }) := by
  simp [generative_navigator.do_navigate_generate, hvalid, htarget, hgenerated]

/-- With an external flag supplied, a neighbour that is present on the target
side and absent on the generated side is not synthesised: `allocate` is not
called and `attach_node` receives the null generated pointer as the new
node, on the heap as `navigate` left it. -/
theorem generative_navigator.do_navigate_generate_flag_null {H V : Type}
    (env : navigator_env H V) (st : nav_state H) (node : node_ptrs_t)
    (navigate : nav_state H → node_ptrs_t → node_ptrs_t × nav_state H)
    (attach_node : H → Nat → Nat → Nat → Nat × H)
    (hvalid : node.all_valid = true)
    (htarget : (navigate st node).1.target ≠ 0)
    (hgenerated : (navigate st node).1.generated = 0) :
    generative_navigator.do_navigate_generate env { has_flag := true } st node navigate
        attach_node
      = some
          ({ target := (navigate st node).1.target,
             generated :=
               (attach_node (navigate st node).2.heap node.generated 0
                 (navigate st node).1.target).1 },
           { heap :=
               (attach_node (navigate st node).2.heap node.generated 0
                 (navigate st node).1.target).2,
             flag := false }) := by
  simp [generative_navigator.do_navigate_generate, hvalid, htarget, hgenerated]

/-- C9, evaluated: on the target tree `100(200, 500)` and a generated tree made of
the root only, `get_first_child` is called at the pair of roots. Without an
external flag the navigator allocates a node holding 200 (address 5) and
attaches it as the left child of the generated root. With an external flag
supplied (and not set) it allocates nothing: the heap is unchanged and the
generated side of the returned pair is null. -/
theorem generative_navigator.first_child_with_flag_not_generated :
    (generative_navigator.get heap_env { has_flag := false } accessor.first_child
        { heap := sample_heap, flag := false } { target := 1, generated := 4 }
      = some
          ({ target := 2, generated := 5 },
           { heap :=
               [{ value := 100, parent := 0, left := 2, right := 3 },
                { value := 200, parent := 1, left := 0, right := 0 },
                { value := 500, parent := 1, left := 0, right := 0 },
                { value := 100, parent := 0, left := 5, right := 0 },
                { value := 200, parent := 4, left := 0, right := 0 }],
             flag := false })) ∧
    (generative_navigator.get heap_env { has_flag := true } accessor.first_child
        { heap := sample_heap, flag := false } { target := 1, generated := 4 }
      = some ({ target := 2, generated := 0 }, { heap := sample_heap, flag := false })) := by
  decide

/-- C10. For every navigation call of a generative navigator that was given an
external flag, made at a pair of valid pointers, the call returns and the
flag is false afterwards, whatever the flag was before the call, whatever the
base navigator and its predicate did to it, and whether or not a node was
attached. -/
theorem generative_navigator.get_resets_flag {H V : Type} (env : navigator_env H V)
    (nav : generative_navigator) (which : accessor) (st : nav_state H) (node : node_ptrs_t)
    (hflag : nav.has_flag = true) (hvalid : node.all_valid = true) :
    ∃ r, nav.get env which st node = some r ∧ r.2.flag = false := by
  cases which <;>
    simp [generative_navigator.get, generative_navigator.do_navigate_generate, hflag, hvalid]

/-- C10, at a concrete input: `get_first_child` at the pair of roots with the flag
set before the call. -/
theorem generative_navigator.get_resets_flag_witness :
    ∃ r, generative_navigator.get heap_env { has_flag := true } accessor.first_child
        { heap := sample_heap, flag := true } { target := 1, generated := 4 } = some r
      ∧ r.2.flag = false :=
  generative_navigator.get_resets_flag heap_env { has_flag := true } accessor.first_child
    { heap := sample_heap, flag := true } { target := 1, generated := 4 } rfl (by decide)

/-! ## The matcher engine -/

theorem consistent_run_nil {N : Type} (accepts : N → Bool)
    (continuation : List N → Option (match_result N)) (j : Nat) :
    consistent_run accepts continuation [] j ↔ j = 0 ∧ (continuation []).isSome = true := by
  unfold consistent_run
  constructor
  · rintro ⟨hj, _, hc⟩
    have hj0 : j = 0 := by simpa using hj
    subst hj0
    exact ⟨rfl, by simpa using hc⟩
  · rintro ⟨rfl, hc⟩
    exact ⟨by simp, by simp, by simpa using hc⟩

theorem consistent_run_zero {N : Type} (accepts : N → Bool)
    (continuation : List N → Option (match_result N)) (siblings : List N) :
    consistent_run accepts continuation siblings 0 ↔ (continuation siblings).isSome = true := by
  simp [consistent_run]

theorem consistent_run_succ {N : Type} (accepts : N → Bool)
    (continuation : List N → Option (match_result N)) (n : N) (rest : List N) (j : Nat) :
    consistent_run accepts continuation (n :: rest) (j + 1)
      ↔ accepts n = true ∧ consistent_run accepts continuation rest j := by
  simp only [consistent_run, List.length_cons, Nat.add_le_add_iff_right, List.take_succ_cons,
    List.mem_cons, forall_eq_or_imp, List.drop_succ_cons]
  tauto

/-- A greedy quantifier returns the state of the longest consistent run, and
fails only when no run is consistent. -/
theorem star_search_greedy {N : Type} (accepts : N → Bool)
    (continuation : List N → Option (match_result N)) :
    ∀ (siblings : List N) (k : Nat),
      (∀ r, star_search quantifier.GREEDY accepts continuation k siblings = some r →
        ∃ j r0, consistent_run accepts continuation siblings j
          ∧ continuation (siblings.drop j) = some r0 ∧ r = r0.record (k + j)
          ∧ ∀ j2, consistent_run accepts continuation siblings j2 → j2 ≤ j)
      ∧ (star_search quantifier.GREEDY accepts continuation k siblings = none →
        ∀ j, ¬ consistent_run accepts continuation siblings j)
  | [], k => by
    constructor
    · intro r h
      cases hc : continuation [] with
      | none => simp [star_search, hc] at h
      | some r0 =>
        simp only [star_search, hc, Option.map_some', Option.some.injEq] at h
        refine ⟨0, r0, ?_, by simpa using hc, by simpa using h.symm, ?_⟩
        · exact (consistent_run_nil accepts continuation 0).2 ⟨rfl, by simp [hc]⟩
        · intro j2 hj2
          exact le_of_eq ((consistent_run_nil accepts continuation j2).1 hj2).1
    · intro h j hj
      have hc : continuation [] = none := by simpa [star_search] using h
      have := ((consistent_run_nil accepts continuation j).1 hj).2
      simp [hc] at this
  | n :: rest, k => by
    have ih := star_search_greedy accepts continuation rest (k + 1)
    by_cases ha : accepts n = true
    · cases hrec : star_search quantifier.GREEDY accepts continuation (k + 1) rest with
      | some r1 =>
        obtain ⟨j, r0, hj, hc, hr, hmax⟩ := ih.1 r1 hrec
        constructor
        · intro r h
          have hr1 : r = r1 := by
            simpa [star_search, ha, hrec, first_success, quantifier.choose] using h.symm
          refine ⟨j + 1, r0, ?_, by simpa using hc, ?_, ?_⟩
          · exact (consistent_run_succ accepts continuation n rest j).2 ⟨ha, hj⟩
          · rw [hr1, hr]
            congr 1
            omega
          · intro j2 hj2
            cases j2 with
            | zero => omega
            | succ j3 =>
              have := hmax j3 ((consistent_run_succ accepts continuation n rest j3).1 hj2).2
              omega
        · intro h
          simp [star_search, ha, hrec, first_success, quantifier.choose] at h
      | none =>
        have hno := ih.2 hrec
        constructor
        · intro r h
          cases hc : continuation (n :: rest) with
          | none => simp [star_search, ha, hrec, first_success, quantifier.choose, hc] at h
          | some r0 =>
            have hr : r = r0.record k := by
              simpa [star_search, ha, hrec, first_success, quantifier.choose, hc] using h.symm
            refine ⟨0, r0, ?_, by simpa using hc, by simpa using hr, ?_⟩
            · exact (consistent_run_zero accepts continuation _).2 (by simp [hc])
            · intro j2 hj2
              cases j2 with
              | zero => omega
              | succ j3 =>
                exact absurd
                  ((consistent_run_succ accepts continuation n rest j3).1 hj2).2 (hno j3)
        · intro h j hj
          have hc : continuation (n :: rest) = none := by
            simpa [star_search, ha, hrec, first_success, quantifier.choose] using h
          cases j with
          | zero =>
            have := (consistent_run_zero accepts continuation _).1 hj
            simp [hc] at this
          | succ j3 =>
            exact absurd ((consistent_run_succ accepts continuation n rest j3).1 hj).2 (hno j3)
    · constructor
      · intro r h
        cases hc : continuation (n :: rest) with
        | none => simp [star_search, ha, hc] at h
        | some r0 =>
          have hr : r = r0.record k := by
            simpa [star_search, ha, hc] using h.symm
          refine ⟨0, r0, ?_, by simpa using hc, by simpa using hr, ?_⟩
          · exact (consistent_run_zero accepts continuation _).2 (by simp [hc])
          · intro j2 hj2
            cases j2 with
            | zero => omega
            | succ j3 =>
              exact absurd ((consistent_run_succ accepts continuation n rest j3).1 hj2).1 ha
      · intro h j hj
        have hc : continuation (n :: rest) = none := by
          simpa [star_search, ha] using h
        cases j with
        | zero =>
          have := (consistent_run_zero accepts continuation _).1 hj
          simp [hc] at this
        | succ j3 =>
          exact absurd ((consistent_run_succ accepts continuation n rest j3).1 hj).1 ha

/-- A reluctant quantifier returns the state of the shortest consistent run, and
fails only when no run is consistent. -/
theorem star_search_reluctant {N : Type} (accepts : N → Bool)
    (continuation : List N → Option (match_result N)) :
    ∀ (siblings : List N) (k : Nat),
      (∀ r, star_search quantifier.RELUCTANT accepts continuation k siblings = some r →
        ∃ j r0, consistent_run accepts continuation siblings j
          ∧ continuation (siblings.drop j) = some r0 ∧ r = r0.record (k + j)
          ∧ ∀ j2, consistent_run accepts continuation siblings j2 → j ≤ j2)
      ∧ (star_search quantifier.RELUCTANT accepts continuation k siblings = none →
        ∀ j, ¬ consistent_run accepts continuation siblings j)
  | [], k => by
    constructor
    · intro r h
      cases hc : continuation [] with
      | none => simp [star_search, hc] at h
      | some r0 =>
        simp only [star_search, hc, Option.map_some', Option.some.injEq] at h
        refine ⟨0, r0, ?_, by simpa using hc, by simpa using h.symm, ?_⟩
        · exact (consistent_run_nil accepts continuation 0).2 ⟨rfl, by simp [hc]⟩
        · intro j2 _
          omega
    · intro h j hj
      have hc : continuation [] = none := by simpa [star_search] using h
      have := ((consistent_run_nil accepts continuation j).1 hj).2
      simp [hc] at this
  | n :: rest, k => by
    have ih := star_search_reluctant accepts continuation rest (k + 1)
    cases hc : continuation (n :: rest) with
    | some r0 =>
      constructor
      · intro r h
        have hr : r = r0.record k := by
          by_cases ha : accepts n = true
          · simpa [star_search, ha, first_success, quantifier.choose, hc] using h.symm
          · simpa [star_search, ha, hc] using h.symm
        refine ⟨0, r0, ?_, by simpa using hc, by simpa using hr, ?_⟩
        · exact (consistent_run_zero accepts continuation _).2 (by simp [hc])
        · intro j2 _
          omega
      · intro h
        by_cases ha : accepts n = true
        · simp [star_search, ha, first_success, quantifier.choose, hc] at h
        · simp [star_search, ha, hc] at h
    | none =>
      by_cases ha : accepts n = true
      · have heq : star_search quantifier.RELUCTANT accepts continuation k (n :: rest)
            = star_search quantifier.RELUCTANT accepts continuation (k + 1) rest := by
          simp [star_search, ha, first_success, quantifier.choose, hc]
        constructor
        · intro r h
          rw [heq] at h
          obtain ⟨j, r1, hj, hc1, hr, hmin⟩ := ih.1 r h
          refine ⟨j + 1, r1, ?_, by simpa using hc1, ?_, ?_⟩
          · exact (consistent_run_succ accepts continuation n rest j).2 ⟨ha, hj⟩
          · rw [hr]
            congr 1
            omega
          · intro j2 hj2
            cases j2 with
            | zero =>
              have := (consistent_run_zero accepts continuation _).1 hj2
              simp [hc] at this
            | succ j3 =>
              have := hmin j3 ((consistent_run_succ accepts continuation n rest j3).1 hj2).2
              omega
        · intro h j hj
          rw [heq] at h
          cases j with
          | zero =>
            have := (consistent_run_zero accepts continuation _).1 hj
            simp [hc] at this
          | succ j3 =>
            exact absurd ((consistent_run_succ accepts continuation n rest j3).1 hj).2
              (ih.2 h j3)
      · constructor
        · intro r h
          simp [star_search, ha, hc] at h
        · intro _ j hj
          cases j with
          | zero =>
            have := (consistent_run_zero accepts continuation _).1 hj
            simp [hc] at this
          | succ j3 =>
            exact absurd ((consistent_run_succ accepts continuation n rest j3).1 hj).1 ha

/-- The search of a quantifier pattern at a node whose value the root matcher
accepts is the search of the quantifier along the children of the node. -/
theorem search_node_quantifier_pattern {N T : Type} [DecidableEq T] (nav : node_navigator N T)
    (root : value_matcher T) (preference : quantifier) (value : value_matcher T)
    (continuation : matcher_node T) (node : N) :
    search_node nav (quantifier_pattern root preference value continuation) node
      = if nav.accepts root node then
          star_search preference (nav.accepts value) (search nav continuation) 0
            (nav.children node)
        else none := by
  unfold search_node quantifier_pattern
  by_cases ha : nav.accepts root node = true
  · cases hs : star_search preference (nav.accepts value) (search nav continuation) 0
        (nav.children node) with
    | none => simp [search, ha, hs]
    | some r => simp [search, ha, hs, mark_of]
  · simp [search, ha]

/-- C6. For every source node and every pattern made of a sibling quantifier
followed by a continuation (in particular a literal one) under a root
matcher, the greedy variant and the reluctant variant succeed or fail
identically; when the greedy variant succeeds, the run it consumed is the
longest run of children consistent with the continuation, and when the
reluctant variant succeeds, the run it consumed is the shortest such run. -/
theorem quantifier_greedy_reluctant {N T : Type} [DecidableEq T] (nav : node_navigator N T)
    (root : value_matcher T) (value : value_matcher T) (continuation : matcher_node T)
    (node : N) :
    ((search_node nav (quantifier_pattern root quantifier.GREEDY value continuation)
        node).isSome
      = (search_node nav (quantifier_pattern root quantifier.RELUCTANT value continuation)
        node).isSome) ∧
    (∀ r, search_node nav (quantifier_pattern root quantifier.GREEDY value continuation) node
        = some r →
      ∃ j, r.runs.head? = some j
        ∧ consistent_run (nav.accepts value) (search nav continuation) (nav.children node) j
        ∧ ∀ j2, consistent_run (nav.accepts value) (search nav continuation)
            (nav.children node) j2 → j2 ≤ j) ∧
    (∀ r, search_node nav (quantifier_pattern root quantifier.RELUCTANT value continuation)
        node = some r →
      ∃ j, r.runs.head? = some j
        ∧ consistent_run (nav.accepts value) (search nav continuation) (nav.children node) j
        ∧ ∀ j2, consistent_run (nav.accepts value) (search nav continuation)
            (nav.children node) j2 → j ≤ j2) := by
  have hg := star_search_greedy (nav.accepts value) (search nav continuation)
    (nav.children node) 0
  have hr := star_search_reluctant (nav.accepts value) (search nav continuation)
    (nav.children node) 0
  rw [search_node_quantifier_pattern, search_node_quantifier_pattern]
  by_cases ha : nav.accepts root node = true
  · simp only [ha, if_true]
    refine ⟨?_, ?_, ?_⟩
    · cases h1 : star_search quantifier.GREEDY (nav.accepts value) (search nav continuation) 0
          (nav.children node) with
      | none =>
        cases h2 : star_search quantifier.RELUCTANT (nav.accepts value)
            (search nav continuation) 0 (nav.children node) with
        | none => rfl
        | some r2 =>
          obtain ⟨j, _, hj, _⟩ := hr.1 r2 h2
          exact absurd hj (hg.2 h1 j)
      | some r1 =>
        cases h2 : star_search quantifier.RELUCTANT (nav.accepts value)
            (search nav continuation) 0 (nav.children node) with
        | none =>
          obtain ⟨j, _, hj, _⟩ := hg.1 r1 h1
          exact absurd hj (hr.2 h2 j)
        | some r2 => rfl
    · intro r h
      obtain ⟨j, r0, hj, _, hrec, hmax⟩ := hg.1 r h
      exact ⟨j, by simp [hrec, match_result.record], hj, hmax⟩
    · intro r h
      obtain ⟨j, r0, hj, _, hrec, hmin⟩ := hr.1 r h
      exact ⟨j, by simp [hrec, match_result.record], hj, hmin⟩
  · simp [ha]

/-- C6, at a concrete input: on the n-ary tree `0(1, 3, 3, 4)` the pattern
`0(star(any value), 3)` matches in both variants; the greedy quantifier
consumes the two children before the last 3, the reluctant one the single
child before the first 3. On the tree `1(2, 3)`, whose root does not hold 0,
both variants fail. -/
theorem quantifier_greedy_reluctant_sample :
    (search_node (nary_navigator Int) (quantified_pattern quantifier.GREEDY)
        sample_siblings_tree).map (fun r => r.runs) = some [2] ∧
    (search_node (nary_navigator Int) (quantified_pattern quantifier.RELUCTANT)
        sample_siblings_tree).map (fun r => r.runs) = some [1] ∧
    search_node (nary_navigator Int) (quantified_pattern quantifier.GREEDY)
        sample_nary_tree.root = none ∧
    search_node (nary_navigator Int) (quantified_pattern quantifier.RELUCTANT)
        sample_nary_tree.root = none := by
  decide

/-- Whatever its preference, a quantifier that succeeds returns the state of its
continuation on the siblings that follow some run, with its own run put in
front. -/
theorem star_search_some {N : Type} (preference : quantifier) (accepts : N → Bool)
    (continuation : List N → Option (match_result N)) :
    ∀ (siblings : List N) (k : Nat) (r : match_result N),
      star_search preference accepts continuation k siblings = some r →
      ∃ j k2 r0, continuation (siblings.drop j) = some r0 ∧ r = r0.record k2
  | [], k, r, h => by
    cases hc : continuation [] with
    | none => simp [star_search, hc] at h
    | some r0 =>
      exact ⟨0, k, r0, by simpa using hc, by simpa [star_search, hc] using h.symm⟩
  | n :: rest, k, r, h => by
    have hdefer : (continuation (n :: rest)).map (match_result.record k) = some r →
        ∃ j k2 r0, continuation ((n :: rest).drop j) = some r0 ∧ r = r0.record k2 := by
      intro hd
      cases hc : continuation (n :: rest) with
      | none => simp [hc] at hd
      | some r0 => exact ⟨0, k, r0, by simpa using hc, by simpa [hc] using hd.symm⟩
    have hmore : star_search preference accepts continuation (k + 1) rest = some r →
        ∃ j k2 r0, continuation ((n :: rest).drop j) = some r0 ∧ r = r0.record k2 := by
      intro hm
      obtain ⟨j, k2, r0, hc, hr⟩ :=
        star_search_some preference accepts continuation rest (k + 1) r hm
      exact ⟨j + 1, k2, r0, by simpa using hc, hr⟩
    by_cases ha : accepts n = true
    · simp only [star_search, ha, if_true] at h
      cases preference with
      | RELUCTANT =>
        cases hd : (continuation (n :: rest)).map (match_result.record k) with
        | some r1 =>
          rw [quantifier.choose, hd, first_success] at h
          exact hdefer (hd.trans h)
        | none =>
          rw [quantifier.choose, hd, first_success] at h
          exact hmore h
      | POSSESSIVE => exact hmore h
      | GREEDY =>
        cases hm : star_search quantifier.GREEDY accepts continuation (k + 1) rest with
        | some r1 =>
          rw [quantifier.choose, hm, first_success] at h
          exact hmore (hm.trans h)
        | none =>
          rw [quantifier.choose, hm, first_success] at h
          exact hdefer h
      | DEFAULT =>
        cases hm : star_search quantifier.DEFAULT accepts continuation (k + 1) rest with
        | some r1 =>
          rw [quantifier.choose, hm, first_success] at h
          exact hmore (hm.trans h)
        | none =>
          rw [quantifier.choose, hm, first_success] at h
          exact hdefer h
    · simp only [star_search, ha] at h
      exact hdefer h

/-- A name among the keys of an association list is looked up successfully, and
what is looked up is an entry of the list. -/
theorem lookup_of_mem_keys {N : Type} (name : String) :
    ∀ (marks : List (String × N)), name ∈ marks.map Prod.fst →
      ∃ b, marks.lookup name = some b ∧ (name, b) ∈ marks
  | [], h => by simp at h
  | (key, b) :: rest, h => by
    by_cases hk : name = key
    · subst hk
      exact ⟨b, by simp [List.lookup], by simp⟩
    · have hrest : name ∈ rest.map Prod.fst := by
        simp only [List.map_cons, List.mem_cons] at h
        rcases h with h | h
        · exact absurd h hk
        · exact h
      obtain ⟨b2, hl, hm⟩ := lookup_of_mem_keys name rest hrest
      refine ⟨b2, ?_, by simp [hm]⟩
      have hne : (name == key) = false := by simpa using hk
      simp [List.lookup, hne, hl]

/-- What a successful search records: the names of the marks are the names of the
captures of the pattern, in pattern order; every marked node is the subtree
rooted at a node of one of the candidate siblings, and the one-matcher that
some capture of that name is wrapped around accepts its value and matches its
children. -/
theorem search_marks {N T : Type} [DecidableEq T] (nav : node_navigator N T) :
    ∀ (m : matcher_node T) (siblings : List N) (r : match_result N),
      search nav m siblings = some r →
      r.marks.map Prod.fst = m.captures.map (fun c => c.1) ∧
      ∀ name b, (name, b) ∈ r.marks →
        (∃ n ∈ siblings, nav.subtree_of b n) ∧
        ∃ value first_child, (name, value, first_child) ∈ m.captures
          ∧ nav.accepts value b = true
          ∧ (search nav first_child (nav.children b)).isSome = true := by
  intro m
  induction m with
  | empty_t =>
    intro siblings r h
    have hr : r = { marks := [], runs := [] } := by simpa [search] using h.symm
    subst hr
    simp [matcher_node.captures]
  | one mark value first_child next_sibling ih_child ih_sibling =>
    intro siblings r h
    cases siblings with
    | nil => simp [search] at h
    | cons n rest =>
      by_cases ha : nav.accepts value n = true
      · cases hb : search nav first_child (nav.children n) with
        | none => simp [search, ha, hb] at h
        | some below =>
          cases hs : search nav next_sibling rest with
          | none => simp [search, ha, hb, hs] at h
          | some after =>
            have hr : r = { marks := mark_of mark n ++ below.marks ++ after.marks,
                            runs := below.runs ++ after.runs } := by
              simpa [search, ha, hb, hs] using h.symm
            obtain ⟨hnb, hmb⟩ := ih_child (nav.children n) below hb
            obtain ⟨hna, hma⟩ := ih_sibling rest after hs
            subst hr
            constructor
            · cases mark with
              | none => simp [mark_of, matcher_node.captures, hnb, hna]
              | some name => simp [mark_of, matcher_node.captures, hnb, hna]
            · intro name b hmem
              simp only [List.mem_append] at hmem
              rcases hmem with (hmem | hmem) | hmem
              · cases mark with
                | none => simp [mark_of] at hmem
                | some name0 =>
                  simp only [mark_of, List.mem_singleton, Prod.mk.injEq] at hmem
                  obtain ⟨rfl, rfl⟩ := hmem
                  refine ⟨⟨b, by simp, node_navigator.subtree_of.self b⟩,
                    value, first_child, by simp [matcher_node.captures], ha, by simp [hb]⟩
              · obtain ⟨⟨c, hc, hsub⟩, v, f, hcap, hacc, hsome⟩ := hmb name b hmem
                refine ⟨⟨n, by simp, node_navigator.subtree_of.child b c n hc hsub⟩,
                  v, f, ?_, hacc, hsome⟩
                simp [matcher_node.captures, hcap]
              · obtain ⟨⟨c, hc, hsub⟩, v, f, hcap, hacc, hsome⟩ := hma name b hmem
                refine ⟨⟨c, by simp [hc], hsub⟩, v, f, ?_, hacc, hsome⟩
                simp [matcher_node.captures, hcap]
      · simp [search, ha] at h
  | star preference value next_sibling ih_sibling =>
    intro siblings r h
    simp only [search] at h
    obtain ⟨j, k2, r0, hc, hr⟩ := star_search_some preference (nav.accepts value)
      (search nav next_sibling) siblings 0 r h
    obtain ⟨hn, hm⟩ := ih_sibling (siblings.drop j) r0 hc
    subst hr
    constructor
    · simpa [match_result.record, matcher_node.captures] using hn
    · intro name b hmem
      obtain ⟨⟨c, hc2, hsub⟩, v, f, hcap, hacc, hsome⟩ := hm name b hmem
      exact ⟨⟨c, List.mem_of_mem_drop hc2, hsub⟩, v, f,
        by simpa [matcher_node.captures] using hcap, hacc, hsome⟩

/-- A one-matcher alone matches a node exactly when its value matcher accepts
the value of the node and its first-child matcher matches the children. -/
theorem search_node_one_alone {N T : Type} [DecidableEq T] (nav : node_navigator N T)
    (mark : Option String) (value : value_matcher T) (first_child : matcher_node T) (b : N) :
    (search_node nav (matcher_node.one mark value first_child matcher_node.empty_t) b).isSome
      = (nav.accepts value b && (search nav first_child (nav.children b)).isSome) := by
  unfold search_node
  by_cases ha : nav.accepts value b = true
  · cases hb : search nav first_child (nav.children b) with
    | none => simp [search, ha, hb]
    | some below => simp [search, ha, hb]
  · simp [search, ha]

/-- Whatever its preference, a quantifier that succeeds has consumed a run of
siblings that its value matcher accepts, and returns the state of its
continuation on the siblings that follow, with the length of the run put in
front. -/
theorem star_search_run {N : Type} (preference : quantifier) (accepts : N → Bool)
    (continuation : List N → Option (match_result N)) :
    ∀ (siblings : List N) (k : Nat) (r : match_result N),
      star_search preference accepts continuation k siblings = some r →
      ∃ j r0, j ≤ siblings.length ∧ (∀ n ∈ siblings.take j, accepts n = true) ∧
        continuation (siblings.drop j) = some r0 ∧ r = r0.record (k + j)
  | [], k, r, h => by
    cases hc : continuation [] with
    | none => simp [star_search, hc] at h
    | some r0 =>
      exact ⟨0, r0, by simp, by simp, by simpa using hc,
        by simpa [star_search, hc] using h.symm⟩
  | n :: rest, k, r, h => by
    have hdefer : (continuation (n :: rest)).map (match_result.record k) = some r →
        ∃ j r0, j ≤ (n :: rest).length ∧ (∀ x ∈ (n :: rest).take j, accepts x = true) ∧
          continuation ((n :: rest).drop j) = some r0 ∧ r = r0.record (k + j) := by
      intro hd
      cases hc : continuation (n :: rest) with
      | none => simp [hc] at hd
      | some r0 =>
        exact ⟨0, r0, by simp, by simp, by simpa using hc, by simpa [hc] using hd.symm⟩
    have hmore : accepts n = true →
        star_search preference accepts continuation (k + 1) rest = some r →
        ∃ j r0, j ≤ (n :: rest).length ∧ (∀ x ∈ (n :: rest).take j, accepts x = true) ∧
          continuation ((n :: rest).drop j) = some r0 ∧ r = r0.record (k + j) := by
      intro ha hm
      obtain ⟨j, r0, hj, hacc, hc, hr⟩ :=
        star_search_run preference accepts continuation rest (k + 1) r hm
      refine ⟨j + 1, r0, by simpa using hj, ?_, by simpa using hc, ?_⟩
      · intro x hx
        simp only [List.take_succ_cons, List.mem_cons] at hx
        rcases hx with rfl | hx
        · exact ha
        · exact hacc x hx
      · rw [hr]
        congr 1
        omega
    by_cases ha : accepts n = true
    · simp only [star_search, ha, if_true] at h
      cases preference with
      | RELUCTANT =>
        cases hd : (continuation (n :: rest)).map (match_result.record k) with
        | some r1 =>
          rw [quantifier.choose, hd, first_success] at h
          exact hdefer (hd.trans h)
        | none =>
          rw [quantifier.choose, hd, first_success] at h
          exact hmore ha h
      | POSSESSIVE => exact hmore ha h
      | GREEDY =>
        cases hm : star_search quantifier.GREEDY accepts continuation (k + 1) rest with
        | some r1 =>
          rw [quantifier.choose, hm, first_success] at h
          exact hmore ha (hm.trans h)
        | none =>
          rw [quantifier.choose, hm, first_success] at h
          exact hdefer h
      | DEFAULT =>
        cases hm : star_search quantifier.DEFAULT accepts continuation (k + 1) rest with
        | some r1 =>
          rw [quantifier.choose, hm, first_success] at h
          exact hmore ha (hm.trans h)
        | none =>
          rw [quantifier.choose, hm, first_success] at h
          exact hdefer h
    · simp only [star_search, ha] at h
      exact hdefer h

/-- What a successful search reports is a match of the pattern: its marks and
its runs are those of a match along the candidate siblings. -/
theorem search_sound {N T : Type} [DecidableEq T] (nav : node_navigator N T) :
    ∀ (m : matcher_node T) (siblings : List N) (r : match_result N),
      search nav m siblings = some r → matches_with nav m siblings r.marks r.runs := by
  intro m
  induction m with
  | empty_t =>
    intro siblings r h
    have hr : r = { marks := [], runs := [] } := by simpa [search] using h.symm
    subst hr
    exact ⟨rfl, rfl⟩
  | one mark value first_child next_sibling ih_child ih_sibling =>
    intro siblings r h
    cases siblings with
    | nil => simp [search] at h
    | cons n rest =>
      by_cases ha : nav.accepts value n = true
      · cases hb : search nav first_child (nav.children n) with
        | none => simp [search, ha, hb] at h
        | some below =>
          cases hs : search nav next_sibling rest with
          | none => simp [search, ha, hb, hs] at h
          | some after =>
            have hr : r = { marks := mark_of mark n ++ below.marks ++ after.marks,
                            runs := below.runs ++ after.runs } := by
              simpa [search, ha, hb, hs] using h.symm
            subst hr
            exact ⟨n, rest, below.marks, after.marks, below.runs, after.runs, rfl, ha,
              ih_child (nav.children n) below hb, ih_sibling rest after hs, rfl, rfl⟩
      · simp [search, ha] at h
  | star preference value next_sibling ih_sibling =>
    intro siblings r h
    simp only [search] at h
    obtain ⟨j, r0, hj, hacc, hc, hr⟩ := star_search_run preference (nav.accepts value)
      (search nav next_sibling) siblings 0 r h
    subst hr
    exact ⟨j, r0.runs, by simp [match_result.record], hj, hacc,
      by simpa [match_result.record] using ih_sibling (siblings.drop j) r0 hc⟩

/-- A match has one run for every quantifier of the pattern. -/
theorem matches_with_runs_length {N T : Type} [DecidableEq T] (nav : node_navigator N T) :
    ∀ (m : matcher_node T) (siblings : List N) (marks : List (String × N)) (runs : List Nat),
      matches_with nav m siblings marks runs → runs.length = m.star_count := by
  intro m
  induction m with
  | empty_t =>
    intro siblings marks runs h
    obtain ⟨_, hr⟩ := h
    simp [hr, matcher_node.star_count]
  | one mark value first_child next_sibling ih_child ih_sibling =>
    intro siblings marks runs h
    obtain ⟨n, rest, below, after, rb, ra, _, _, hb, hs, _, hr⟩ := h
    rw [hr, List.length_append, ih_child _ _ _ hb, ih_sibling _ _ _ hs]
    rfl
  | star preference value next_sibling ih_sibling =>
    intro siblings marks runs h
    obtain ⟨j, ra, hr, _, _, hs⟩ := h
    rw [hr, List.length_cons, ih_sibling _ _ _ hs, matcher_node.star_count]
    omega

/-- The numbers of siblings that the quantifiers consume determine the match:
two matches of a pattern along the same siblings with the same runs bind the
captures to the same nodes. -/
theorem matches_with_unique {N T : Type} [DecidableEq T] (nav : node_navigator N T) :
    ∀ (m : matcher_node T) (siblings : List N) (marks1 marks2 : List (String × N))
      (runs : List Nat),
      matches_with nav m siblings marks1 runs → matches_with nav m siblings marks2 runs →
      marks1 = marks2 := by
  intro m
  induction m with
  | empty_t =>
    intro siblings marks1 marks2 runs h1 h2
    rw [h1.1, h2.1]
  | one mark value first_child next_sibling ih_child ih_sibling =>
    intro siblings marks1 marks2 runs h1 h2
    obtain ⟨n1, rest1, below1, after1, rb1, ra1, hs1, _, hb1, ha1, hm1, hr1⟩ := h1
    obtain ⟨n2, rest2, below2, after2, rb2, ra2, hs2, _, hb2, ha2, hm2, hr2⟩ := h2
    have hcons : n1 :: rest1 = n2 :: rest2 := hs1.symm.trans hs2
    obtain ⟨hn, hrest⟩ := List.cons.inj hcons
    subst hn
    subst hrest
    have hlen : rb1.length = rb2.length := by
      rw [matches_with_runs_length nav first_child _ _ _ hb1,
        matches_with_runs_length nav first_child _ _ _ hb2]
    have happ : rb1 ++ ra1 = rb2 ++ ra2 := hr1.symm.trans hr2
    obtain ⟨hrb, hra⟩ := List.append_inj happ hlen
    subst hrb
    subst hra
    rw [hm1, hm2, ih_child _ _ _ _ hb1 hb2, ih_sibling _ _ _ _ ha1 ha2]
  | star preference value next_sibling ih_sibling =>
    intro siblings marks1 marks2 runs h1 h2
    obtain ⟨j1, ra1, hr1, _, _, hs1⟩ := h1
    obtain ⟨j2, ra2, hr2, _, _, hs2⟩ := h2
    have hcons : j1 :: ra1 = j2 :: ra2 := hr1.symm.trans hr2
    obtain ⟨hj, hra⟩ := List.cons.inj hcons
    subst hj
    subst hra
    exact ih_sibling _ _ _ _ hs1 hs2

/-- The structural clone of a binary subtree is structurally equal to it. -/
theorem binary_node.clone_eq {T : Type} : ∀ n : binary_node T, n.clone = n
  | binary_node.null => rfl
  | binary_node.node v l r => by
    rw [binary_node.clone, binary_node.clone_eq l, binary_node.clone_eq r]

/-- The structural clone of a chain of n-ary nodes is structurally equal to
it. -/
theorem nary_node.clone_chain_eq {T : Type} : ∀ n : nary_node T, n.clone_chain = n
  | nary_node.null => rfl
  | nary_node.node v c s => by
    rw [nary_node.clone_chain, nary_node.clone_chain_eq c, nary_node.clone_chain_eq s]

/-- C5. For every source tree and every pattern with a named capture around a
sub-pattern, if the match succeeds then the marked result for that name is
the exact source subtree rooted at the node the capture matched: the node
to which the capture is bound in the match of the whole pattern at the root
of the source, which is the only such node once the numbers of siblings the
quantifiers consumed are those the search reports. The subtree is a subtree
of the source, and the sub-pattern the capture is wrapped around, searched
alone at that node, matches it, whatever the rest of the pattern is. As a
tree, the marked result is the structural clone of that subtree, which is
structurally equal to it. -/
theorem marked_result_is_matched_subtree {N T : Type} [DecidableEq T]
    (nav : node_navigator N T) (m : matcher_node T) (root : N) (r : match_result N)
    (name : String) (value : value_matcher T) (first_child : matcher_node T)
    (hcapture : (name, value, first_child) ∈ m.captures)
    (hmatch : search_node nav m root = some r) :
    (∃ b, r.marked_result name = some b ∧
      bound_in_match nav m root r.runs name b ∧
      (∀ b2, bound_in_match nav m root r.runs name b2 → b2 = b) ∧
      nav.subtree_of b root ∧
      ∃ value2 first_child2, (name, value2, first_child2) ∈ m.captures ∧
        (search_node nav
          (matcher_node.one (some name) value2 first_child2 matcher_node.empty_t) b).isSome
          = true) ∧
    (∀ (X : Type) (result : match_result (binary_node X)) (mark : String),
      result.marked_tree binary_node.clone mark = result.marked_result mark) ∧
    (∀ (X : Type) (result : match_result (nary_node X)) (mark : String),
      result.marked_tree nary_node.clone_chain mark = result.marked_result mark) := by
  refine ⟨?_, ?_, ?_⟩
  · obtain ⟨hnames, hmarks⟩ := search_marks nav m [root] r hmatch
    have hsound := search_sound nav m [root] r hmatch
    have hkey : name ∈ r.marks.map Prod.fst := by
      rw [hnames]
      exact List.mem_map.2 ⟨(name, value, first_child), hcapture, rfl⟩
    obtain ⟨b, hlookup, hmem⟩ := lookup_of_mem_keys name r.marks hkey
    obtain ⟨⟨n, hn, hsub⟩, v, f, hcap, hacc, hsome⟩ := hmarks name b hmem
    have hroot : n = root := by simpa using hn
    subst hroot
    refine ⟨b, hlookup, ⟨r.marks, hsound, hlookup⟩, ?_, hsub, v, f, hcap, ?_⟩
    · rintro b2 ⟨marks, hm2, hl2⟩
      have heq := matches_with_unique nav m [n] marks r.marks r.runs hm2 hsound
      rw [heq] at hl2
      have hboth : some b2 = some b := hl2.symm.trans hlookup
      exact Option.some.inj hboth
    · rw [search_node_one_alone]
      simp [hacc, hsome]
  · intro X result mark
    cases h : result.marked_result mark with
    | none => simp [match_result.marked_tree, h]
    | some b => simp [match_result.marked_tree, h, binary_node.clone_eq]
  · intro X result mark
    cases h : result.marked_result mark with
    | none => simp [match_result.marked_tree, h]
    | some b => simp [match_result.marked_tree, h, nary_node.clone_chain_eq]

/-- C5, at concrete inputs. On the binary tree `100(200(300, 400), 500)` the
pattern `100(one(200)(any, 400), one())` of the spec's scenario, with the
capture `a` around `one(200)(any, 400)`, matches, and the marked result for
`a` is the subtree `200(300, 400)`, which compares equal to that literal. On
the tree `0(200, 200(300))` the pattern `0(one(200), one(200))` with the
capture `a` around the first `one(200)` matches, the marked result for `a`
is the leaf `200`, and the other node holding 200, `200(300)`, is not the
node the capture matched. -/
theorem marked_result_is_matched_subtree_witness :
    (∃ b, ((search_node (binary_navigator Int) sample_pattern sample_binary_tree.root).get
          (by decide)).marked_result "a" = some b
        ∧ (binary_navigator Int).subtree_of b sample_binary_tree.root) ∧
    ((search_node (binary_navigator Int) sample_pattern sample_binary_tree.root).get
        (by decide)).marked_result "a"
      = some (binary_node.node 200
          (binary_node.node 300 binary_node.null binary_node.null)
          (binary_node.node 400 binary_node.null binary_node.null)) ∧
    (binary_node.node 200
        (binary_node.node 300 binary_node.null binary_node.null)
        (binary_node.node 400 binary_node.null binary_node.null)).equals_struct
      (struct_node.node 200 [struct_node.leaf 300, struct_node.leaf 400]) = true ∧
    ((search_node (binary_navigator Int) twin_pattern twin_tree).get
        (by decide)).marked_tree binary_node.clone "a"
      = some (binary_node.node 200 binary_node.null binary_node.null) ∧
    ¬ bound_in_match (binary_navigator Int) twin_pattern twin_tree
        ((search_node (binary_navigator Int) twin_pattern twin_tree).get (by decide)).runs "a"
        (binary_node.node 200
          (binary_node.node 300 binary_node.null binary_node.null) binary_node.null) := by
  refine ⟨?_, by decide, by decide, by decide, ?_⟩
  · obtain ⟨b, hb, _, _, hsub, _⟩ :=
      (marked_result_is_matched_subtree (binary_navigator Int) sample_pattern
        sample_binary_tree.root
        ((search_node (binary_navigator Int) sample_pattern sample_binary_tree.root).get
          (by decide))
        "a" (value_matcher.literal 200)
        (matcher_node.star quantifier.DEFAULT value_matcher.wildcard
          (matcher_node.one none (value_matcher.literal 400)
            matcher_node.empty_t matcher_node.empty_t))
        (by simp [sample_pattern, matcher_node.captures])
        (by simp)).1
    exact ⟨b, hb, hsub⟩
  · intro hbound
    obtain ⟨b, hb, _, hunique, _⟩ :=
      (marked_result_is_matched_subtree (binary_navigator Int) twin_pattern twin_tree
        ((search_node (binary_navigator Int) twin_pattern twin_tree).get (by decide))
        "a" (value_matcher.literal 200) matcher_node.empty_t
        (by simp [twin_pattern, matcher_node.captures])
        (by simp)).1
    have hleaf : ((search_node (binary_navigator Int) twin_pattern twin_tree).get
        (by decide)).marked_result "a"
        = some (binary_node.node 200 binary_node.null binary_node.null) := by decide
    have hb2 : b = binary_node.node 200 binary_node.null binary_node.null :=
      Option.some.inj (hb.symm.trans hleaf)
    have hother := hunique _ hbound
    rw [hb2] at hother
    exact absurd hother (by decide)

/-- In the matcher engine, `one_matcher::search_node_impl` answers what the
search of the one-matcher alone answers. -/
theorem one_matcher.search_node_impl_engine {N T : Type} [DecidableEq T]
    (nav : node_navigator N T) (mark : Option String) (value : value_matcher T)
    (first_child : matcher_node T) (s : Option (match_result N)) (node : N) :
    (one_matcher.search_node_impl (engine_search_env nav value first_child) s node).1
      = (search_node nav
          (matcher_node.one mark value first_child matcher_node.empty_t) node).isSome := by
  rw [search_node_one_alone]
  unfold one_matcher.search_node_impl one_matcher.do_search_child engine_search_env
    node_navigator.accepts
  cases hv : nav.get_value node with
  | none => simp [hv]
  | some x =>
    by_cases hx : value.match_value x = true
    · cases hb : search nav first_child (nav.children node) with
      | none => simp [hv, hx, hb]
      | some below => simp [hv, hx, hb]
    · simp [hv, hx]

/-- C7, at concrete inputs: at the root of `100(200(300, 400), 500)` the
one-matcher `one(100)(one(200), one(500))` answers true, `one(100)(one(500))`
answers false because its child does not match the first child, and
`one(7)(one(200), one(500))` answers false on the value test, leaving the
state of the matcher as it was. -/
theorem one_matcher.search_node_impl_sample :
    (one_matcher.search_node_impl
      (engine_search_env (binary_navigator Int) (value_matcher.literal 100)
        (matcher_node.one none (value_matcher.literal 200) matcher_node.empty_t
          (matcher_node.one none (value_matcher.literal 500)
            matcher_node.empty_t matcher_node.empty_t)))
      none sample_binary_tree.root).1 = true ∧
    (one_matcher.search_node_impl
      (engine_search_env (binary_navigator Int) (value_matcher.literal 100)
        (matcher_node.one none (value_matcher.literal 500)
          matcher_node.empty_t matcher_node.empty_t))
      none sample_binary_tree.root).1 = false ∧
    one_matcher.search_node_impl
      (engine_search_env (binary_navigator Int) (value_matcher.literal 7)
        (matcher_node.one none (value_matcher.literal 200) matcher_node.empty_t
          (matcher_node.one none (value_matcher.literal 500)
            matcher_node.empty_t matcher_node.empty_t)))
      none sample_binary_tree.root = (false, none) := by
  decide

/-! ## `pattern::match` as a call -/

/-- C11. For every pattern and every tree, `match` returns a boolean and does not
end with the invalid-argument condition. When the call is not answered from
the memo, the boolean is true exactly when `match_node` of the reset matcher
tree accepts the root of the tree, and false otherwise; when it is answered
from the memo, the boolean is true. -/
theorem pattern.match_call_returns_bool {M N : Type} (ops : matcher_ops M N) (p : pattern M)
    (tree : basic_tree N) :
    (p.match_call ops tree).1 = outcome.returned ∧
    (∀ what, (p.match_call ops tree).1 ≠ outcome.invalid_argument what) ∧
    (p.memo_hit tree = false →
      (p.match_call ops tree).2.1 = (ops.match_node (ops.reset p.pattern_tree) tree.root).1) ∧
    (p.memo_hit tree = true → (p.match_call ops tree).2.1 = true) := by
  refine ⟨rfl, ?_, ?_, ?_⟩
  · intro what h
    simp [pattern.match_call] at h
  · intro hm
    simp only [pattern.match_call, pattern.match_tree, pattern.do_match, hm]
    by_cases hr : (ops.match_node (ops.reset p.pattern_tree) tree.root).1 = true
    · simp [hr]
    · simp [hr]
  · intro hm
    simp [pattern.match_call, pattern.match_tree, pattern.do_match, hm]

/-- C11, at concrete inputs: the pattern accepting roots that hold 100 returns
true on `100(200(300, 400), 500)` and false on the tree `7`; neither call is
answered from the memo and neither ends with an exception. -/
theorem pattern.match_call_sample :
    ((pattern.mk_pattern []).match_call (logging_ops 100) sample_binary_tree).1
      = outcome.returned ∧
    ((pattern.mk_pattern []).match_call (logging_ops 100) sample_binary_tree).2.1 = true ∧
    (pattern.mk_pattern ([] : List matcher_call)).memo_hit sample_binary_tree = false ∧
    ((pattern.mk_pattern []).match_call (logging_ops 100) other_binary_tree).1
      = outcome.returned ∧
    ((pattern.mk_pattern []).match_call (logging_ops 100) other_binary_tree).2.1 = false := by
  decide

/-! ## Size and emptiness -/

/-- The size of a binary node is 0 only for the null pointer. -/
theorem binary_node.calculate_size_eq_zero {T : Type} (n : binary_node T) :
    n.calculate_size = 0 ↔ n = binary_node.null := by
  cases n with
  | null => simp [binary_node.calculate_size]
  | node v l r =>
    simp only [binary_node.calculate_size]
    constructor
    · intro h
      omega
    · intro h
      cases h

/-- The loop of `calculate_size` only adds to the running size. -/
theorem nary_node.calculate_size_loop_ge {T : Type} :
    ∀ (n : nary_node T) (size : Nat), size ≤ nary_node.calculate_size_loop n size
  | nary_node.null, size => by simp [nary_node.calculate_size_loop]
  | nary_node.node _ c s, size => by
    simp only [nary_node.calculate_size_loop]
    have h := nary_node.calculate_size_loop_ge s (size + nary_node.calculate_size_loop c 1)
    omega

/-- The size of an n-ary node is 0 only for the null pointer. -/
theorem nary_node.calculate_size_eq_zero_nary {T : Type} (n : nary_node T) :
    n.calculate_size = 0 ↔ n = nary_node.null := by
  cases n with
  | null => simp [nary_node.calculate_size]
  | node v c s =>
    simp only [nary_node.calculate_size]
    have h := nary_node.calculate_size_loop_ge c 1
    constructor
    · intro h0
      omega
    · intro h0
      cases h0

/-- C13, amended, at concrete inputs: the tree `100(200(300, 400), 500)`, whose
cached size 5 is the recount, is not empty and has a root; the
default-constructed n-ary tree of the test is empty and equal to `n()`. -/
theorem basic_tree.empty_iff_no_root_sample :
    sample_binary_tree.size_value = sample_binary_tree.root.calculate_size ∧
    sample_binary_tree.empty = false ∧
    sample_binary_tree.root_address ≠ 0 ∧
    (basic_tree.default_tree 3000 { kind := node_kind.nary, value_type := 1 }
      (nary_node.null : nary_node String)).size = 0 ∧
    (basic_tree.default_tree 3000 { kind := node_kind.nary, value_type := 1 }
      (nary_node.null : nary_node String)).equals_empty_struct = true := by
  decide

/-! ## `tree_view` -/

/-- C20, as stated, fails: the view of `100(200(300, 400), 500)` at the position
of the node `200` has the cached size 0 and the cached arity 0, while the
subtree `200(300, 400)` rooted there has 3 nodes and branching factor 2. -/
theorem tree_view.at_inner_position_not_recount :
    sample_inner_position.raw_node_address ≠ 0 ∧
    (tree_view.at_position 5000 sample_binary_tree sample_inner_position).root
      = sample_inner_position.raw_node ∧
    (tree_view.at_position 5000 sample_binary_tree sample_inner_position).size_value = 0 ∧
    (tree_view.at_position 5000 sample_binary_tree sample_inner_position).root.calculate_size
      = 3 ∧
    (tree_view.at_position 5000 sample_binary_tree sample_inner_position).arity_value = 0 ∧
    (tree_view.at_position 5000 sample_binary_tree
      sample_inner_position).root.calculate_arity 2 = 2 := by
  decide

/-- C20, amended. For every tree view constructed from a tree and an iterator
position: when the position references the root of the tree, the cached size
and arity of the view are the cached size and arity of the tree, and so they
equal a recount from the root of the view whenever those of the tree equal a
recount from its root; when the position references no node, or a node other
than the root, the cached size and arity of the view are 0 and 0. -/
theorem tree_view.at_position_caches {N : Type} (view_address : Nat) (tree : basic_tree N)
    (position : raw_position N) :
    (position.raw_node_address = 0 →
      (tree_view.at_position view_address tree position).size_value = 0
        ∧ (tree_view.at_position view_address tree position).arity_value = 0) ∧
    (position.raw_node_address ≠ 0 → position.raw_node_address ≠ tree.root_address →
      (tree_view.at_position view_address tree position).size_value = 0
        ∧ (tree_view.at_position view_address tree position).arity_value = 0) ∧
    (position.raw_node_address ≠ 0 → position.raw_node_address = tree.root_address →
      (tree_view.at_position view_address tree position).size_value = tree.size_value
        ∧ (tree_view.at_position view_address tree position).arity_value = tree.arity_value
        ∧ ∀ (count_size count_arity : N → Nat),
            position.raw_node = tree.root →
            tree.size_value = count_size tree.root →
            tree.arity_value = count_arity tree.root →
            (tree_view.at_position view_address tree position).size_value
                = count_size (tree_view.at_position view_address tree position).root
              ∧ (tree_view.at_position view_address tree position).arity_value
                = count_arity (tree_view.at_position view_address tree position).root) := by
  refine ⟨?_, ?_, ?_⟩
  · intro h
    simp [tree_view.at_position, h]
  · intro h hne
    simp [tree_view.at_position, basic_tree.is_root, h, hne]
  · intro h heq
    have h2 : tree.root_address ≠ 0 := heq ▸ h
    have hs : (tree_view.at_position view_address tree position).size_value
        = tree.size_value := by
      simp [tree_view.at_position, basic_tree.is_root, heq, h2]
    have ha : (tree_view.at_position view_address tree position).arity_value
        = tree.arity_value := by
      simp [tree_view.at_position, basic_tree.is_root, heq, h2]
    refine ⟨hs, ha, ?_⟩
    intro count_size count_arity hroot hsize harity
    have hr : (tree_view.at_position view_address tree position).root = tree.root := hroot
    rw [hs, ha, hr]
    exact ⟨hsize, harity⟩

/-- C20, amended, at a concrete input: the view of `100(200(300, 400), 500)` at the
position of its root has the cached size 5 and the cached arity 2 of the
tree, which are the recounts from its root. -/
theorem tree_view.at_position_caches_witness :
    (tree_view.at_position 5000 sample_binary_tree
        { raw_node_address := 2000, raw_node := sample_binary_tree.root }).size_value = 5 ∧
    (tree_view.at_position 5000 sample_binary_tree
        { raw_node_address := 2000, raw_node := sample_binary_tree.root }).size_value
      = (tree_view.at_position 5000 sample_binary_tree
        { raw_node_address := 2000,
          raw_node := sample_binary_tree.root }).root.calculate_size ∧
    (tree_view.at_position 5000 sample_binary_tree
        { raw_node_address := 2000, raw_node := sample_binary_tree.root }).arity_value
      = (tree_view.at_position 5000 sample_binary_tree
        { raw_node_address := 2000,
          raw_node := sample_binary_tree.root }).root.calculate_arity 2 :=
  ⟨by decide,
    (((tree_view.at_position_caches 5000 sample_binary_tree
      { raw_node_address := 2000, raw_node := sample_binary_tree.root }).2.2
      (by decide) (by decide)).2.2 binary_node.calculate_size (binary_node.calculate_arity 2)
      rfl (by decide) (by decide)).1,
    (((tree_view.at_position_caches 5000 sample_binary_tree
      { raw_node_address := 2000, raw_node := sample_binary_tree.root }).2.2
      (by decide) (by decide)).2.2 binary_node.calculate_size (binary_node.calculate_arity 2)
      rfl (by decide) (by decide)).2⟩

/-! ## Iterators of a tree -/

/-- The iterator at rank `i` of an order, the end sentinel when the rank is past
the last node. -/
theorem tree_iterator.increment_some {X : Type} (tree : Nat) (order : List X) (i : Nat) :
    tree_iterator.increment { pointed_tree := tree, order := order, current := some i }
      = { pointed_tree := tree, order := order,
          current := if i + 1 < order.length then some (i + 1) else none } := rfl

/-- The forward loop from rank `i` visits the nodes from rank `i` on. -/
theorem tree_iterator.iterate_from {X : Type} [DecidableEq X] (tree : Nat) (order : List X) :
    ∀ (fuel i : Nat), i < order.length → order.length < fuel + i →
      iterate (tree_iterator.cursor X) fuel
          { pointed_tree := tree, order := order, current := some i }
          { pointed_tree := tree, order := order, current := none }
        = order.drop i
  | 0, i, hi, hf => by omega
  | fuel + 1, i, hi, hf => by
    have hget : order[i]? = some order[i] := List.getElem?_eq_getElem hi
    have hne : tree_iterator.equals
        { pointed_tree := tree, order := order, current := some i }
        { pointed_tree := tree, order := order, current := none } = false := by
      simp [tree_iterator.equals, tree_iterator.node, hget]
    simp only [iterate, tree_iterator.cursor, hne, tree_iterator.increment_some]
    rw [List.drop_eq_getElem_cons hi]
    by_cases hlast : i + 1 < order.length
    · have ih := tree_iterator.iterate_from tree order fuel (i + 1) hlast (by omega)
      simp only [tree_iterator.cursor] at ih
      simp [hlast, tree_iterator.node, hget, ih]
    · have hdrop : order.drop (i + 1) = [] := List.drop_eq_nil_of_le (by omega)
      cases fuel with
      | zero => simp [hlast, tree_iterator.node, hget, hdrop, iterate]
      | succ f =>
        simp [hlast, tree_iterator.node, hget, hdrop, iterate, tree_iterator.equals]
/-- The end sentinel of an order and the iterator obtained by incrementing it. -/
theorem tree_iterator.increment_end {X : Type} (tree : Nat) (order : List X) :
    tree_iterator.increment { pointed_tree := tree, order := order, current := none }
      = { pointed_tree := tree, order := order,
          current := if order.length = 0 then none else some 0 } := rfl

/-- The forward loop from the incremented end sentinel to the end sentinel visits
the whole order, front to back. -/
theorem tree_iterator.iterate_forward {X : Type} [DecidableEq X] (tree : Nat) (order : List X)
    (fuel : Nat) (hfuel : order.length < fuel) :
    iterate (tree_iterator.cursor X) fuel
        (tree_iterator.increment { pointed_tree := tree, order := order, current := none })
        { pointed_tree := tree, order := order, current := none }
      = order := by
  rw [tree_iterator.increment_end]
  by_cases h0 : order.length = 0
  · have hnil : order = [] := List.length_eq_zero.1 h0
    subst hnil
    cases fuel with
    | zero => omega
    | succ f => simp [iterate, tree_iterator.cursor, tree_iterator.equals]
  · simp only [h0, if_false]
    have h := tree_iterator.iterate_from tree order fuel 0 (by omega) (by omega)
    simpa using h

/-- The reverse loop from base rank `j` down to the first node visits the first
`j` nodes of the order, back to front. -/
theorem tree_iterator.iterate_reverse_from {X : Type} [DecidableEq X] (tree : Nat)
    (order : List X) (hnodup : order.Nodup) :
    ∀ (j fuel : Nat), j ≤ order.length → 0 < order.length → j < fuel →
      iterate (reverse_iterator.cursor (tree_iterator.cursor X)) fuel
          { current := { pointed_tree := tree, order := order,
                         current := if j < order.length then some j else none } }
          { current := { pointed_tree := tree, order := order, current := some 0 } }
        = (order.take j).reverse
  | 0, fuel, _, hpos, hf => by
    cases fuel with
    | zero => omega
    | succ f =>
      simp [iterate, reverse_iterator.cursor, tree_iterator.cursor, tree_iterator.equals, hpos]
  | j + 1, fuel, hj, hpos, hf => by
    cases fuel with
    | zero => omega
    | succ f =>
      have hjlt : j < order.length := by omega
      have h0 : order[0]? = some order[0] := List.getElem?_eq_getElem hpos
      have hgj : order[j]? = some order[j] := List.getElem?_eq_getElem hjlt
      have hne : tree_iterator.equals
          { pointed_tree := tree, order := order,
            current := if j + 1 < order.length then some (j + 1) else none }
          { pointed_tree := tree, order := order, current := some 0 } = false := by
        by_cases hl : j + 1 < order.length
        · have hg : order[j + 1]? = some order[j + 1] := List.getElem?_eq_getElem hl
          have hdiff : order[j + 1] ≠ order[0] := by
            intro heq
            have : j + 1 = 0 := hnodup.getElem_inj_iff.1 heq
            omega
          simp [tree_iterator.equals, tree_iterator.node, hl, hg, h0, hdiff]
        · simp [tree_iterator.equals, tree_iterator.node, hl, h0]
      have hdec : tree_iterator.decrement
          { pointed_tree := tree, order := order,
            current := if j + 1 < order.length then some (j + 1) else none }
          = { pointed_tree := tree, order := order,
              current := if j < order.length then some j else none } := by
        by_cases hl : j + 1 < order.length
        · simp [tree_iterator.decrement, hl, hjlt]
        · have hlen : order.length - 1 = j := by omega
          have hnz : order.length ≠ 0 := by omega
          simp [tree_iterator.decrement, hl, hjlt, hlen, hnz]
      have ih := tree_iterator.iterate_reverse_from tree order hnodup j f (by omega) hpos
        (by omega)
      simp only [iterate, reverse_iterator.cursor, tree_iterator.cursor, hne, hdec] at ih ⊢
      rw [ih]
      have hnode : tree_iterator.node
          { pointed_tree := tree, order := order,
            current := if j < order.length then some j else none } = some order[j] := by
        simp only [hjlt, if_true, tree_iterator.node]
        exact hgj
      rw [hnode, List.take_succ, hgj, Option.toList, List.reverse_append]
      simp only [Bool.false_eq_true, if_false, Option.toList, List.reverse_cons,
        List.reverse_nil, List.nil_append]

/-- The reverse loop from the reverse iterator of the end sentinel to the reverse
iterator of the incremented end sentinel visits the whole order, back to
front, when no node occurs twice in the order. -/
theorem tree_iterator.iterate_reverse {X : Type} [DecidableEq X] (tree : Nat) (order : List X)
    (hnodup : order.Nodup) (fuel : Nat) (hfuel : order.length < fuel) :
    iterate (reverse_iterator.cursor (tree_iterator.cursor X)) fuel
        { current := { pointed_tree := tree, order := order, current := none } }
        { current := tree_iterator.increment
            { pointed_tree := tree, order := order, current := none } }
      = order.reverse := by
  rw [tree_iterator.increment_end]
  by_cases h0 : order.length = 0
  · have hnil : order = [] := List.length_eq_zero.1 h0
    subst hnil
    cases fuel with
    | zero => omega
    | succ f =>
      simp [iterate, reverse_iterator.cursor, tree_iterator.cursor, tree_iterator.equals]
  · have h := tree_iterator.iterate_reverse_from tree order hnodup order.length fuel
      (le_refl _) (by omega) hfuel
    simpa [h0] using h

/-! ## Breadth-first traversal -/

/-- The levels under a queue, one level at a time. -/
theorem levels_upto_succ {N : Type} (children : N → List N) (depth : Nat) (queue : List N) :
    levels_upto children (depth + 1) queue
      = queue ++ levels_upto children depth (queue.flatMap children) := by
  simp only [levels_upto, List.range_succ_eq_map, List.flatMap_cons, List.flatMap_map, level_of]

/-- Visiting a whole prefix of the queue puts the children of its nodes at the
back of the queue, in order. -/
theorem breadth_first_queue_append {N : Type} (children : N → List N) :
    ∀ (front back : List N) (fuel : Nat),
      breadth_first_queue children (fuel + front.length) (front ++ back)
        = front ++ breadth_first_queue children fuel (back ++ front.flatMap children)
  | [], back, fuel => by simp
  | n :: front, back, fuel => by
    have ih := breadth_first_queue_append children front (back ++ children n) fuel
    simp only [List.length_cons, List.cons_append, List.flatMap_cons]
    rw [← Nat.add_assoc]
    simp only [breadth_first_queue]
    rw [List.append_assoc, ih, List.append_assoc]

/-- The measures of the children of the nodes of a queue, and one for each node,
fit in the measure of the queue. -/
theorem queue_view.size_children_all {N : Type} (view : queue_view N) (hview : view.finite) :
    ∀ (queue : List N), (∀ n ∈ queue, view.present n) →
      ((queue.flatMap view.children).map view.size).sum + queue.length
        ≤ (queue.map view.size).sum
  | [], _ => by simp
  | n :: queue, h => by
    have ih := queue_view.size_children_all view hview queue (fun m hm => h m (List.mem_cons_of_mem n hm))
    have hn := hview.size_children n (h n (List.mem_cons_self n queue))
    simp only [List.flatMap_cons, List.map_append, List.sum_append, List.length_cons,
      List.map_cons, List.sum_cons]
    omega

/-- The children of present nodes are present. -/
theorem queue_view.children_all_present {N : Type} (view : queue_view N)
    (hview : view.finite) (queue : List N)
    (h : ∀ n ∈ queue, view.present n) : ∀ c ∈ queue.flatMap view.children, view.present c := by
  intro c hc
  obtain ⟨n, hn, hcn⟩ := List.mem_flatMap.1 hc
  exact hview.children_present n (h n hn) c hcn

/-- With enough fuel, the traversal with a queue visits the nodes level by
level: the nodes of the queue, then their children, and so on. -/
theorem breadth_first_queue_levels {N : Type} (view : queue_view N) (hview : view.finite) :
    ∀ (depth fuel : Nat) (queue : List N), (∀ n ∈ queue, view.present n) →
      (queue.map view.size).sum ≤ fuel → (queue.map view.size).sum ≤ depth →
      breadth_first_queue view.children fuel queue = levels_upto view.children depth queue
  | 0, fuel, queue, hp, _, hd => by
    have hb := queue_view.size_children_all view hview queue hp
    have hlen : queue.length = 0 := by omega
    have hnil : queue = [] := List.length_eq_zero.1 hlen
    subst hnil
    cases fuel <;> simp [breadth_first_queue, levels_upto]
  | depth + 1, fuel, queue, hp, hf, hd => by
    have hb := queue_view.size_children_all view hview queue hp
    have hsplit : fuel = (fuel - queue.length) + queue.length := by omega
    rw [levels_upto_succ, hsplit]
    have happ := breadth_first_queue_append view.children queue [] (fuel - queue.length)
    simp only [List.append_nil, List.nil_append] at happ
    rw [happ]
    congr 1
    apply breadth_first_queue_levels view hview depth _ _
      (queue_view.children_all_present view hview queue hp)
    · omega
    · by_cases hq : queue.length = 0
      · have hnil : queue = [] := List.length_eq_zero.1 hq
        subst hnil
        simp
      · omega

/-- With enough fuel, the traversal with a queue visits every node under the
nodes of the queue exactly once. -/
theorem breadth_first_queue_perm {N : Type} (view : queue_view N) (hview : view.finite) :
    ∀ (fuel : Nat) (queue : List N), (∀ n ∈ queue, view.present n) →
      (queue.map view.size).sum ≤ fuel →
      (breadth_first_queue view.children fuel queue).Perm (queue.flatMap view.subtrees)
  | 0, queue, hp, hf => by
    have hb := queue_view.size_children_all view hview queue hp
    have hlen : queue.length = 0 := by omega
    have hnil : queue = [] := List.length_eq_zero.1 hlen
    subst hnil
    simp [breadth_first_queue]
  | fuel + 1, [], _, _ => by simp [breadth_first_queue]
  | fuel + 1, n :: queue, hp, hf => by
    have hn := hp n (List.mem_cons_self n queue)
    have hq : ∀ m ∈ queue, view.present m := fun m hm => hp m (List.mem_cons_of_mem n hm)
    have hs := hview.size_children n hn
    have hp2 : ∀ m ∈ queue ++ view.children n, view.present m := by
      intro m hm
      rcases List.mem_append.1 hm with hm | hm
      · exact hq m hm
      · exact hview.children_present n hn m hm
    have hf2 : ((queue ++ view.children n).map view.size).sum ≤ fuel := by
      simp only [List.map_append, List.sum_append]
      simp only [List.map_cons, List.sum_cons] at hf
      omega
    have ih := breadth_first_queue_perm view hview fuel (queue ++ view.children n) hp2 hf2
    simp only [breadth_first_queue, List.flatMap_cons, hview.subtrees_eq n hn, List.cons_append]
    apply List.Perm.cons
    refine ih.trans ?_
    rw [List.flatMap_append]
    exact List.perm_append_comm
/-! ## Traversal of binary trees -/

/-- The size of a binary node is one more than the sizes of its children. -/
theorem binary_node.calculate_size_node {X : Type} (v : X) (l r : binary_node X) :
    (binary_node.node v l r).calculate_size = 1 + l.calculate_size + r.calculate_size := by
  cases l <;> cases r <;> simp [binary_node.calculate_size]

/-- The nodes under the children of a binary node. -/
theorem binary_node.children_subtrees {X : Type} (v : X) (l r : binary_node X) :
    (binary_node.node v l r).children.flatMap binary_node.subtrees
      = l.subtrees ++ r.subtrees := by
  cases l <;> cases r <;> simp [binary_node.children, binary_node.subtrees]

/-- The sizes of the children of a binary node. -/
theorem binary_node.children_size {X : Type} (v : X) (l r : binary_node X) :
    ((binary_node.node v l r).children.map binary_node.calculate_size).sum
      = l.calculate_size + r.calculate_size := by
  cases l <;> cases r <;> simp [binary_node.children, binary_node.calculate_size]

/-- The children of a binary node are nodes. -/
theorem binary_node.children_ne_null {X : Type} (n c : binary_node X)
    (h : c ∈ n.children) : c ≠ binary_node.null := by
  intro hnull
  subst hnull
  cases n with
  | null => simp [binary_node.children] at h
  | node v l r => cases l <;> cases r <;> simp [binary_node.children] at h

/-- Binary trees are finite trees. -/
theorem binary_node.queue_view_finite (X : Type) : (binary_node.queue_view X).finite where
  children_present n _ c hc := binary_node.children_ne_null n c hc
  size_children n hn := by
    cases n with
    | null => exact absurd rfl hn
    | node v l r =>
      show ((binary_node.node v l r).children.map binary_node.calculate_size).sum + 1
        ≤ (binary_node.node v l r).calculate_size
      rw [binary_node.children_size, binary_node.calculate_size_node]
      omega
  subtrees_eq n hn := by
    cases n with
    | null => exact absurd rfl hn
    | node v l r =>
      show (binary_node.node v l r).subtrees
        = binary_node.node v l r
          :: (binary_node.node v l r).children.flatMap binary_node.subtrees
      rw [binary_node.children_subtrees]
      rfl

/-- Pre-order lists the values of the nodes under the root. -/
theorem binary_node.pre_order_eq_subtrees {X : Type} :
    ∀ n : binary_node X, n.pre_order = n.subtrees.filterMap binary_node.value_opt
  | binary_node.null => rfl
  | binary_node.node v l r => by
    simp [binary_node.pre_order, binary_node.subtrees, binary_node.value_opt,
      List.filterMap_append, binary_node.pre_order_eq_subtrees l,
      binary_node.pre_order_eq_subtrees r]

/-- Pre-order visits as many nodes as `calculate_size` counts. -/
theorem binary_node.pre_order_length {X : Type} :
    ∀ n : binary_node X, n.pre_order.length = n.calculate_size
  | binary_node.null => rfl
  | binary_node.node v l r => by
    rw [binary_node.calculate_size_node]
    simp [binary_node.pre_order, binary_node.pre_order_length l,
      binary_node.pre_order_length r]
    omega

/-- Post-order visits the nodes that pre-order visits. -/
theorem binary_node.post_order_perm {X : Type} :
    ∀ n : binary_node X, n.post_order.Perm n.pre_order
  | binary_node.null => List.Perm.refl _
  | binary_node.node v l r => by
    simp only [binary_node.post_order, binary_node.pre_order]
    refine (List.perm_append_comm).trans ?_
    simp only [List.singleton_append]
    exact List.Perm.cons v
      ((binary_node.post_order_perm l).append (binary_node.post_order_perm r))

/-- In-order visits the nodes that pre-order visits. -/
theorem binary_node.in_order_perm {X : Type} :
    ∀ n : binary_node X, n.in_order.Perm n.pre_order
  | binary_node.null => List.Perm.refl _
  | binary_node.node v l r => by
    simp only [binary_node.in_order, binary_node.pre_order]
    refine (List.perm_middle).trans ?_
    exact List.Perm.cons v
      ((binary_node.in_order_perm l).append (binary_node.in_order_perm r))

/-- Breadth-first visits the nodes that pre-order visits. -/
theorem binary_node.breadth_first_perm {X : Type} (n : binary_node X) :
    n.breadth_first.Perm n.pre_order := by
  rw [binary_node.pre_order_eq_subtrees]
  unfold binary_node.breadth_first
  apply List.Perm.filterMap
  have h := breadth_first_queue_perm (binary_node.queue_view X)
    (binary_node.queue_view_finite X) n.calculate_size n.as_queue
  cases n with
  | null => simp [binary_node.as_queue, binary_node.calculate_size, breadth_first_queue,
      binary_node.subtrees]
  | node v l r =>
    have h2 := h (by simp [binary_node.as_queue, binary_node.queue_view])
      (by simp [binary_node.as_queue, binary_node.queue_view])
    simpa [binary_node.as_queue, binary_node.queue_view] using h2

/-- Every policy but siblings visits the nodes that pre-order visits. -/
theorem binary_node.visits_perm {X : Type} (p : policy) (hp : p ≠ policy.siblings)
    (n : binary_node X) : (n.visits p).Perm n.pre_order := by
  cases p with
  | pre_order => exact List.Perm.refl _
  | post_order => exact binary_node.post_order_perm n
  | in_order => exact binary_node.in_order_perm n
  | breadth_first => exact binary_node.breadth_first_perm n
  | siblings => exact absurd rfl hp

/-- The siblings policy visits some of the nodes that pre-order visits, in the
order of pre-order. -/
theorem binary_node.siblings_sublist {X : Type} (n : binary_node X) :
    (n.visits policy.siblings).Sublist n.pre_order := by
  have hroot : ∀ m : binary_node X,
      ((match m with
        | binary_node.null => []
        | binary_node.node _ _ _ => [m]).filterMap binary_node.value_opt).Sublist
        m.pre_order := by
    intro m
    cases m with
    | null => exact List.Sublist.refl _
    | node v l r => simp [binary_node.value_opt, binary_node.pre_order]
  cases n with
  | null => exact List.Sublist.refl _
  | node v l r =>
    simp only [binary_node.visits, binary_node.children, List.filterMap_append,
      binary_node.pre_order]
    exact List.Sublist.cons _ ((hroot l).append (hroot r))

/-- Giving the nodes their identities keeps the size. -/
theorem binary_node.with_paths_size {T : Type} :
    ∀ (n : binary_node T) (path : node_path),
      (n.with_paths path).calculate_size = n.calculate_size
  | binary_node.null, _ => rfl
  | binary_node.node v l r, path => by
    simp only [binary_node.with_paths, binary_node.calculate_size_node,
      binary_node.with_paths_size l, binary_node.with_paths_size r]

/-- The identity of every node under a pointer extends the path of the
pointer. -/
theorem binary_node.with_paths_extend {T : Type} :
    ∀ (n : binary_node T) (path : node_path) (x : node_path × T),
      x ∈ (n.with_paths path).pre_order → ∃ rest, x.1 = path ++ rest
  | binary_node.null, _, x, h => by simp [binary_node.with_paths, binary_node.pre_order] at h
  | binary_node.node v l r, path, x, h => by
    simp only [binary_node.with_paths, binary_node.pre_order, List.mem_cons,
      List.mem_append] at h
    rcases h with h | h | h
    · exact ⟨[], by simp [h]⟩
    · obtain ⟨rest, hr⟩ := binary_node.with_paths_extend l (path ++ [0]) x h
      exact ⟨0 :: rest, by simp [hr]⟩
    · obtain ⟨rest, hr⟩ := binary_node.with_paths_extend r (path ++ [1]) x h
      exact ⟨1 :: rest, by simp [hr]⟩

/-- No two nodes of a binary tree have the same identity. -/
theorem binary_node.with_paths_nodup {T : Type} :
    ∀ (n : binary_node T) (path : node_path),
      ((n.with_paths path).pre_order.map Prod.fst).Nodup
  | binary_node.null, _ => by simp [binary_node.with_paths, binary_node.pre_order]
  | binary_node.node v l r, path => by
    have hl := binary_node.with_paths_nodup l (path ++ [0])
    have hr := binary_node.with_paths_nodup r (path ++ [1])
    have el := binary_node.with_paths_extend l (path ++ [0])
    have er := binary_node.with_paths_extend r (path ++ [1])
    simp only [binary_node.with_paths, binary_node.pre_order, List.map_cons, List.map_append,
      List.nodup_cons, List.mem_append, List.mem_map, not_or, not_exists, not_and]
    refine ⟨⟨?_, ?_⟩, ?_⟩
    · intro x hx heq
      obtain ⟨rest, hrest⟩ := el x hx
      rw [hrest, List.append_assoc] at heq
      have := congrArg List.length heq
      simp at this
    · intro x hx heq
      obtain ⟨rest, hrest⟩ := er x hx
      rw [hrest, List.append_assoc] at heq
      have := congrArg List.length heq
      simp at this
    · rw [List.nodup_append]
      refine ⟨hl, hr, ?_⟩
      intro p hpl hpr
      obtain ⟨x, hx, rfl⟩ := List.mem_map.1 hpl
      obtain ⟨y, hy, hxy⟩ := List.mem_map.1 hpr
      obtain ⟨rx, hrx⟩ := el x hx
      obtain ⟨ry, hry⟩ := er y hy
      rw [hrx, hry, List.append_assoc, List.append_assoc] at hxy
      have := List.append_cancel_left hxy
      simp at this

/-- Under every policy but siblings the iteration of a binary tree visits as many
nodes as `calculate_size` counts, and no node twice. -/
theorem binary_node.visits_of_count {T : Type} (p : policy) (hp : p ≠ policy.siblings)
    (root : binary_node T) :
    (root.visits_of p).length = root.calculate_size ∧
      ((root.visits_of p).map Prod.fst).Nodup ∧ (root.visits_of p).Nodup := by
  have hperm := binary_node.visits_perm p hp (root.with_paths [])
  have hnodup : ((root.visits_of p).map Prod.fst).Nodup :=
    ((hperm.map Prod.fst).nodup_iff).2 (binary_node.with_paths_nodup root [])
  refine ⟨?_, hnodup, List.Nodup.of_map Prod.fst hnodup⟩
  show ((root.with_paths []).visits p).length = root.calculate_size
  rw [hperm.length_eq, binary_node.pre_order_length, binary_node.with_paths_size]

/-- Under every policy the iteration of a binary tree visits no node twice and
no more nodes than `calculate_size` counts. -/
theorem binary_node.visits_of_bounded {T : Type} (p : policy) (root : binary_node T) :
    ((root.visits_of p).map Prod.fst).Nodup ∧ (root.visits_of p).Nodup ∧
      (root.visits_of p).length ≤ root.calculate_size := by
  by_cases hp : p = policy.siblings
  · subst hp
    have hsub := binary_node.siblings_sublist (root.with_paths [])
    have hnodup : ((root.visits_of policy.siblings).map Prod.fst).Nodup :=
      (binary_node.with_paths_nodup root []).sublist (hsub.map Prod.fst)
    refine ⟨hnodup, List.Nodup.of_map Prod.fst hnodup, ?_⟩
    have hlen := hsub.length_le
    rw [binary_node.pre_order_length, binary_node.with_paths_size] at hlen
    exact hlen
  · have hc := binary_node.visits_of_count p hp root
    exact ⟨hc.2.1, hc.2.2, by omega⟩

/-- The loop of `calculate_size` adds the sizes it counts to the running size. -/
theorem nary_node.calculate_size_loop_add {X : Type} :
    ∀ (c : nary_node X) (size : Nat),
      nary_node.calculate_size_loop c size = size + nary_node.calculate_size_loop c 0
  | nary_node.null, size => by simp [nary_node.calculate_size_loop]
  | nary_node.node _ c s, size => by
    simp only [nary_node.calculate_size_loop]
    rw [nary_node.calculate_size_loop_add s (size + nary_node.calculate_size_loop c 1),
      nary_node.calculate_size_loop_add s (0 + nary_node.calculate_size_loop c 1)]
    omega

/-- The sizes of the nodes along a chain of siblings. -/
theorem nary_node.siblings_size {X : Type} :
    ∀ c : nary_node X,
      (c.siblings.map nary_node.calculate_size).sum = nary_node.calculate_size_loop c 0
  | nary_node.null => rfl
  | nary_node.node _ c s => by
    simp only [nary_node.siblings, List.map_cons, List.sum_cons, nary_node.calculate_size,
      nary_node.calculate_size_loop, nary_node.siblings_size s]
    rw [nary_node.calculate_size_loop_add s (0 + nary_node.calculate_size_loop c 1)]
    omega

/-- The size of an n-ary node is one more than the sizes of its children. -/
theorem nary_node.calculate_size_node_nary {X : Type} (v : X) (c s : nary_node X) :
    (nary_node.node v c s).calculate_size
      = 1 + ((nary_node.node v c s).children.map nary_node.calculate_size).sum := by
  simp only [nary_node.calculate_size, nary_node.children, nary_node.siblings_size]
  exact nary_node.calculate_size_loop_add c 1

/-- The nodes along a chain of siblings are taken each on its own. -/
theorem nary_node.siblings_detached {X : Type} :
    ∀ (c x : nary_node X), x ∈ c.siblings → x.detached
  | nary_node.null, x, h => by simp [nary_node.siblings] at h
  | nary_node.node v c s, x, h => by
    simp only [nary_node.siblings, List.mem_cons] at h
    rcases h with h | h
    · subst h
      rfl
    · exact nary_node.siblings_detached s x h

/-- The nodes under the nodes of a chain of siblings. -/
theorem nary_node.siblings_subtrees {X : Type} :
    ∀ c : nary_node X, c.siblings.flatMap nary_node.subtrees = c.forest_subtrees
  | nary_node.null => rfl
  | nary_node.node v c s => by
    simp [nary_node.siblings, nary_node.subtrees, nary_node.forest_subtrees,
      nary_node.siblings_subtrees s]

/-- N-ary trees are finite trees. -/
theorem nary_node.queue_view_finite_nary (X : Type) : (nary_node.queue_view X).finite where
  children_present n _ c hc := by
    cases n with
    | null => simp [nary_node.queue_view, nary_node.children] at hc
    | node v c0 s => exact nary_node.siblings_detached c0 c hc
  size_children n hn := by
    cases n with
    | null => exact absurd hn (by simp [nary_node.queue_view, nary_node.detached])
    | node v c s =>
      show ((nary_node.node v c s).children.map nary_node.calculate_size).sum + 1
        ≤ (nary_node.node v c s).calculate_size
      rw [nary_node.calculate_size_node_nary]
      omega
  subtrees_eq n hn := by
    cases n with
    | null => exact absurd hn (by simp [nary_node.queue_view, nary_node.detached])
    | node v c s =>
      have hs : s = nary_node.null := hn
      subst hs
      show (nary_node.node v c nary_node.null).subtrees
        = nary_node.node v c nary_node.null
          :: (nary_node.node v c nary_node.null).children.flatMap nary_node.subtrees
      simp only [nary_node.children, nary_node.siblings_subtrees]
      rfl

/-- Pre-order along a chain of siblings lists the values of the nodes of the
chain and under them. -/
theorem nary_node.forest_pre_order_eq_subtrees {X : Type} :
    ∀ c : nary_node X, c.forest_pre_order = c.forest_subtrees.filterMap nary_node.value_opt
  | nary_node.null => rfl
  | nary_node.node v c s => by
    simp [nary_node.forest_pre_order, nary_node.forest_subtrees, nary_node.value_opt,
      List.filterMap_append, nary_node.forest_pre_order_eq_subtrees c,
      nary_node.forest_pre_order_eq_subtrees s]

/-- Pre-order lists the values of the nodes under the root. -/
theorem nary_node.pre_order_eq_subtrees_nary {X : Type} (n : nary_node X) :
    n.pre_order = n.subtrees.filterMap nary_node.value_opt := by
  cases n with
  | null => rfl
  | node v c s =>
    simp [nary_node.pre_order, nary_node.subtrees, nary_node.value_opt,
      nary_node.forest_pre_order_eq_subtrees c]

/-- Pre-order along a chain of siblings visits as many nodes as the loop of
`calculate_size` counts. -/
theorem nary_node.forest_pre_order_length {X : Type} :
    ∀ c : nary_node X, c.forest_pre_order.length = nary_node.calculate_size_loop c 0
  | nary_node.null => rfl
  | nary_node.node v c s => by
    simp only [nary_node.forest_pre_order, List.length_cons, List.length_append,
      nary_node.forest_pre_order_length c, nary_node.forest_pre_order_length s,
      nary_node.calculate_size_loop]
    rw [nary_node.calculate_size_loop_add s (0 + nary_node.calculate_size_loop c 1),
      nary_node.calculate_size_loop_add c 1]
    omega

/-- Pre-order visits as many nodes as `calculate_size` counts. -/
theorem nary_node.pre_order_length_nary {X : Type} (n : nary_node X) :
    n.pre_order.length = n.calculate_size := by
  cases n with
  | null => rfl
  | node v c s =>
    simp only [nary_node.pre_order, List.length_cons, nary_node.forest_pre_order_length,
      nary_node.calculate_size]
    rw [nary_node.calculate_size_loop_add c 1]
    omega

/-- Post-order along a chain of siblings visits the nodes that pre-order
visits. -/
theorem nary_node.forest_post_order_perm {X : Type} :
    ∀ c : nary_node X, c.forest_post_order.Perm c.forest_pre_order
  | nary_node.null => List.Perm.refl _
  | nary_node.node v c s => by
    simp only [nary_node.forest_post_order, nary_node.forest_pre_order]
    refine (List.perm_middle).trans ?_
    exact List.Perm.cons v
      ((nary_node.forest_post_order_perm c).append (nary_node.forest_post_order_perm s))

/-- Post-order visits the nodes that pre-order visits. -/
theorem nary_node.post_order_perm_nary {X : Type} (n : nary_node X) :
    n.post_order.Perm n.pre_order := by
  cases n with
  | null => exact List.Perm.refl _
  | node v c s =>
    simp only [nary_node.post_order, nary_node.pre_order]
    refine (List.perm_append_comm).trans ?_
    exact List.Perm.cons v (nary_node.forest_post_order_perm c)

/-- Breadth-first visits the nodes that pre-order visits. -/
theorem nary_node.breadth_first_perm_nary {X : Type} (n : nary_node X) :
    n.breadth_first.Perm n.pre_order := by
  rw [nary_node.pre_order_eq_subtrees_nary]
  unfold nary_node.breadth_first
  apply List.Perm.filterMap
  have h := breadth_first_queue_perm (nary_node.queue_view X)
    (nary_node.queue_view_finite_nary X) n.calculate_size n.as_queue
  cases n with
  | null => simp [nary_node.as_queue, nary_node.calculate_size, breadth_first_queue,
      nary_node.subtrees]
  | node v c s =>
    have h2 := h (by simp [nary_node.as_queue, nary_node.queue_view, nary_node.detached])
      (by simp [nary_node.as_queue, nary_node.queue_view, nary_node.calculate_size])
    simpa [nary_node.as_queue, nary_node.queue_view, nary_node.subtrees] using h2

/-- Every policy for n-ary trees but siblings visits the nodes that pre-order
visits. -/
theorem nary_node.visits_perm_nary {X : Type} (p : policy) (hp : p ≠ policy.in_order)
    (hs : p ≠ policy.siblings) (n : nary_node X) : (n.visits p).Perm n.pre_order := by
  cases p with
  | siblings => exact absurd rfl hs
  | pre_order => exact List.Perm.refl _
  | post_order => exact nary_node.post_order_perm_nary n
  | in_order => exact absurd rfl hp
  | breadth_first => exact nary_node.breadth_first_perm_nary n

/-- Giving the nodes their identities keeps what the loop of `calculate_size`
counts. -/
theorem nary_node.forest_with_paths_size {T : Type} :
    ∀ (c : nary_node T) (above : node_path) (index size : Nat),
      nary_node.calculate_size_loop (c.forest_with_paths above index) size
        = nary_node.calculate_size_loop c size
  | nary_node.null, _, _, _ => rfl
  | nary_node.node v c s, above, index, size => by
    simp only [nary_node.forest_with_paths, nary_node.calculate_size_loop,
      nary_node.forest_with_paths_size c, nary_node.forest_with_paths_size s]

/-- Giving the nodes their identities keeps the size. -/
theorem nary_node.with_paths_size_nary {T : Type} (n : nary_node T) :
    n.with_paths.calculate_size = n.calculate_size := by
  cases n with
  | null => rfl
  | node v c s =>
    simp only [nary_node.with_paths, nary_node.calculate_size,
      nary_node.forest_with_paths_size]

/-- The identity of every node of a chain of siblings, and under it, extends
the path of the parent by a position that is not before the first node of the
chain. -/
theorem nary_node.forest_with_paths_extend {T : Type} :
    ∀ (c : nary_node T) (above : node_path) (index : Nat) (x : node_path × T),
      x ∈ (c.forest_with_paths above index).forest_pre_order →
      ∃ i rest, index ≤ i ∧ x.1 = above ++ i :: rest
  | nary_node.null, _, _, x, h => by
    simp [nary_node.forest_with_paths, nary_node.forest_pre_order] at h
  | nary_node.node v c s, above, index, x, h => by
    simp only [nary_node.forest_with_paths, nary_node.forest_pre_order, List.mem_cons,
      List.mem_append] at h
    rcases h with h | h | h
    · exact ⟨index, [], le_refl _, by simp [h]⟩
    · obtain ⟨i, rest, _, hr⟩ :=
        nary_node.forest_with_paths_extend c (above ++ [index]) 0 x h
      exact ⟨index, i :: rest, le_refl _, by simp [hr]⟩
    · obtain ⟨i, rest, hi, hr⟩ := nary_node.forest_with_paths_extend s above (index + 1) x h
      exact ⟨i, rest, by omega, hr⟩

/-- No two nodes of a chain of siblings, or under it, have the same identity. -/
theorem nary_node.forest_with_paths_nodup {T : Type} :
    ∀ (c : nary_node T) (above : node_path) (index : Nat),
      ((c.forest_with_paths above index).forest_pre_order.map Prod.fst).Nodup
  | nary_node.null, _, _ => by simp [nary_node.forest_with_paths, nary_node.forest_pre_order]
  | nary_node.node v c s, above, index => by
    have hc := nary_node.forest_with_paths_nodup c (above ++ [index]) 0
    have hs := nary_node.forest_with_paths_nodup s above (index + 1)
    have ec := nary_node.forest_with_paths_extend c (above ++ [index]) 0
    have es := nary_node.forest_with_paths_extend s above (index + 1)
    simp only [nary_node.forest_with_paths, nary_node.forest_pre_order, List.map_cons,
      List.map_append, List.nodup_cons, List.mem_append, List.mem_map, not_or, not_exists,
      not_and]
    refine ⟨⟨?_, ?_⟩, ?_⟩
    · intro x hx heq
      obtain ⟨i, rest, _, hrest⟩ := ec x hx
      rw [hrest, List.append_assoc] at heq
      have := congrArg List.length heq
      simp at this
    · intro x hx heq
      obtain ⟨i, rest, hi, hrest⟩ := es x hx
      rw [hrest] at heq
      have := List.append_cancel_left heq
      simp only [List.cons.injEq] at this
      omega
    · rw [List.nodup_append]
      refine ⟨hc, hs, ?_⟩
      intro p hpc hps
      obtain ⟨x, hx, rfl⟩ := List.mem_map.1 hpc
      obtain ⟨y, hy, hxy⟩ := List.mem_map.1 hps
      obtain ⟨i, rx, _, hrx⟩ := ec x hx
      obtain ⟨j, ry, hj, hry⟩ := es y hy
      rw [hrx, hry, List.append_assoc] at hxy
      have := List.append_cancel_left hxy
      simp only [List.singleton_append, List.cons.injEq] at this
      omega

/-- No two nodes of an n-ary tree have the same identity. -/
theorem nary_node.with_paths_nodup_nary {T : Type} (n : nary_node T) :
    (n.with_paths.pre_order.map Prod.fst).Nodup := by
  cases n with
  | null => simp [nary_node.with_paths, nary_node.pre_order]
  | node v c s =>
    have hc := nary_node.forest_with_paths_nodup c [] 0
    have ec := nary_node.forest_with_paths_extend c [] 0
    simp only [nary_node.with_paths, nary_node.pre_order, List.map_cons, List.nodup_cons,
      List.mem_map, not_exists, not_and]
    refine ⟨?_, hc⟩
    intro x hx heq
    obtain ⟨i, rest, _, hrest⟩ := ec x hx
    rw [hrest] at heq
    simp at heq

/-- Under every policy for n-ary trees but siblings the iteration visits as many nodes as
`calculate_size` counts, and no node twice. -/
theorem nary_node.visits_of_count_nary {T : Type} (p : policy) (hp : p ≠ policy.in_order)
    (hs : p ≠ policy.siblings) (root : nary_node T) :
    (root.visits_of p).length = root.calculate_size ∧
      ((root.visits_of p).map Prod.fst).Nodup ∧ (root.visits_of p).Nodup := by
  have hperm := nary_node.visits_perm_nary p hp hs root.with_paths
  have hnodup : ((root.visits_of p).map Prod.fst).Nodup :=
    ((hperm.map Prod.fst).nodup_iff).2 (nary_node.with_paths_nodup_nary root)
  refine ⟨?_, hnodup, List.Nodup.of_map Prod.fst hnodup⟩
  show (root.with_paths.visits p).length = root.calculate_size
  rw [hperm.length_eq, nary_node.pre_order_length_nary, nary_node.with_paths_size_nary]

/-- The values along a chain of siblings are some of the values that pre-order
visits along the chain and under it, in the order of pre-order. -/
theorem nary_node.siblings_values_sublist {X : Type} :
    ∀ c : nary_node X,
      (c.siblings.filterMap nary_node.value_opt).Sublist c.forest_pre_order
  | nary_node.null => List.Sublist.refl _
  | nary_node.node v c s => by
    simp only [nary_node.siblings, List.filterMap_cons, nary_node.value_opt,
      nary_node.forest_pre_order]
    exact List.Sublist.cons₂ v
      ((nary_node.siblings_values_sublist s).trans (List.sublist_append_right _ _))

/-- The siblings policy visits some of the nodes that pre-order visits, in the
order of pre-order. -/
theorem nary_node.siblings_sublist_nary {X : Type} (n : nary_node X) :
    (n.visits policy.siblings).Sublist n.pre_order := by
  cases n with
  | null => exact List.Sublist.refl _
  | node v c s =>
    simp only [nary_node.visits, nary_node.children, nary_node.pre_order]
    exact List.Sublist.cons _ (nary_node.siblings_values_sublist c)

/-- Under every policy the iteration of an n-ary tree visits no node twice and
no more nodes than `calculate_size` counts. -/
theorem nary_node.visits_of_bounded_nary {T : Type} (p : policy) (root : nary_node T) :
    ((root.visits_of p).map Prod.fst).Nodup ∧ (root.visits_of p).Nodup ∧
      (root.visits_of p).length ≤ root.calculate_size := by
  by_cases hs : p = policy.siblings
  · subst hs
    have hsub := nary_node.siblings_sublist_nary root.with_paths
    have hnodup : ((root.visits_of policy.siblings).map Prod.fst).Nodup :=
      (nary_node.with_paths_nodup_nary root).sublist (hsub.map Prod.fst)
    refine ⟨hnodup, List.Nodup.of_map Prod.fst hnodup, ?_⟩
    have hlen := hsub.length_le
    rw [nary_node.pre_order_length_nary, nary_node.with_paths_size_nary] at hlen
    exact hlen
  · by_cases hp : p = policy.in_order
    · subst hp
      simp [nary_node.visits_of, nary_node.visits]
    · have hc := nary_node.visits_of_count_nary p hp hs root
      exact ⟨hc.2.1, hc.2.2, by omega⟩

/-- The loop from `begin()` to `end()` visits the nodes in the order of the
policy. -/
theorem basic_tree.forward_visits_eq {N T : Type} [DecidableEq T]
    (visits : N → List (node_path × T)) (t : basic_tree N) (fuel : Nat)
    (hfuel : (visits t.root).length < fuel) :
    t.forward_visits (tree_iterator.ops visits) fuel = visits t.root :=
  tree_iterator.iterate_forward t.address (visits t.root) fuel hfuel

/-- The loop from `rbegin()` to `rend()` visits the nodes in the reverse of the
order of the policy. -/
theorem basic_tree.reverse_visits_eq {N T : Type} [DecidableEq T]
    (visits : N → List (node_path × T)) (t : basic_tree N) (fuel : Nat)
    (hnodup : (visits t.root).Nodup) (hfuel : (visits t.root).length < fuel) :
    t.reverse_visits (tree_iterator.ops visits) fuel = (visits t.root).reverse :=
  tree_iterator.iterate_reverse t.address (visits t.root) hnodup fuel hfuel

/-- C15. For every tree and every traversal policy (pre-order, post-order,
in-order, breadth-first and siblings), the sequence of values produced by
iterating from `rbegin(policy)` to `rend(policy)` is the reverse of the
sequence produced by iterating from `begin(policy)` to `end(policy)`, and so
is the sequence of the nodes visited (both loops with fuel for more steps
than the tree has nodes). -/
theorem basic_tree.reverse_symmetry (T : Type) [DecidableEq T] :
    (∀ (p : policy) (t : basic_tree (binary_node T)) (fuel : Nat),
      t.root.calculate_size < fuel →
      t.reverse_visits (binary_iterator_ops T p) fuel
          = (t.forward_visits (binary_iterator_ops T p) fuel).reverse ∧
        (t.reverse_visits (binary_iterator_ops T p) fuel).map Prod.snd
          = ((t.forward_visits (binary_iterator_ops T p) fuel).map Prod.snd).reverse) ∧
    (∀ (p : policy) (t : basic_tree (nary_node T)) (fuel : Nat),
      t.root.calculate_size < fuel →
      t.reverse_visits (nary_iterator_ops T p) fuel
          = (t.forward_visits (nary_iterator_ops T p) fuel).reverse ∧
        (t.reverse_visits (nary_iterator_ops T p) fuel).map Prod.snd
          = ((t.forward_visits (nary_iterator_ops T p) fuel).map Prod.snd).reverse) ∧
    ((sample_binary_tree.reverse_visits (binary_iterator_ops Int policy.siblings) 6).map
        Prod.snd = [500, 200] ∧
      (sample_binary_tree.reverse_visits (binary_iterator_ops Int policy.pre_order) 6).map
        Prod.snd = [500, 400, 300, 200, 100]) := by
  refine ⟨?_, ?_, by decide⟩
  · intro p t fuel hfuel
    have hc := binary_node.visits_of_bounded p t.root
    have hr := basic_tree.reverse_visits_eq (binary_node.visits_of p) t fuel hc.2.1
      (by omega)
    have hf := basic_tree.forward_visits_eq (binary_node.visits_of p) t fuel (by omega)
    have h : t.reverse_visits (binary_iterator_ops T p) fuel
        = (t.forward_visits (binary_iterator_ops T p) fuel).reverse := by
      unfold binary_iterator_ops
      rw [hr, hf]
    exact ⟨h, by rw [h, List.map_reverse]⟩
  · intro p t fuel hfuel
    have hc := nary_node.visits_of_bounded_nary p t.root
    have hr := basic_tree.reverse_visits_eq (nary_node.visits_of p) t fuel hc.2.1
      (by omega)
    have hf := basic_tree.forward_visits_eq (nary_node.visits_of p) t fuel (by omega)
    have h : t.reverse_visits (nary_iterator_ops T p) fuel
        = (t.forward_visits (nary_iterator_ops T p) fuel).reverse := by
      unfold nary_iterator_ops
      rw [hr, hf]
    exact ⟨h, by rw [h, List.map_reverse]⟩

/-! ## Post-order, in-order and breadth-first -/

/-- Post-order of a binary node: the post-orders of its children, left to right,
then the node. -/
theorem binary_node.post_order_children {X : Type} (v : X) (l r : binary_node X) :
    (binary_node.node v l r).post_order
      = (binary_node.node v l r).children.flatMap binary_node.post_order ++ [v] := by
  cases l <;> cases r <;> simp [binary_node.children, binary_node.post_order]

/-- In post-order the nodes under every node of a binary tree are visited as one
block. -/
theorem binary_node.post_order_block {X : Type} :
    ∀ (root s : binary_node X), s ∈ root.subtrees →
      ∃ front back, root.post_order = front ++ s.post_order ++ back
  | binary_node.null, s, h => by simp [binary_node.subtrees] at h
  | binary_node.node v l r, s, h => by
    simp only [binary_node.subtrees, List.mem_cons, List.mem_append] at h
    rcases h with h | h | h
    · exact ⟨[], [], by simp [h]⟩
    · obtain ⟨front, back, hb⟩ := binary_node.post_order_block l s h
      exact ⟨front, back ++ r.post_order ++ [v], by simp [binary_node.post_order, hb]⟩
    · obtain ⟨front, back, hb⟩ := binary_node.post_order_block r s h
      exact ⟨l.post_order ++ front, back ++ [v], by simp [binary_node.post_order, hb]⟩

/-- Post-order along a chain of siblings: the post-orders of the nodes of the
chain, one after the other. -/
theorem nary_node.forest_post_order_siblings {X : Type} :
    ∀ c : nary_node X, c.forest_post_order = c.siblings.flatMap nary_node.post_order
  | nary_node.null => rfl
  | nary_node.node v c s => by
    simp [nary_node.forest_post_order, nary_node.siblings, nary_node.post_order,
      nary_node.forest_post_order_siblings s]

/-- Post-order of an n-ary node: the post-orders of its children, left to right,
then the node. -/
theorem nary_node.post_order_children_nary {X : Type} (v : X) (c s : nary_node X) :
    (nary_node.node v c s).post_order
      = (nary_node.node v c s).children.flatMap nary_node.post_order ++ [v] := by
  simp [nary_node.post_order, nary_node.children, nary_node.forest_post_order_siblings]

/-- In post-order along a chain of siblings the nodes under every node are
visited as one block. -/
theorem nary_node.forest_post_order_block {X : Type} :
    ∀ (c s : nary_node X), s ∈ c.forest_subtrees →
      ∃ front back, c.forest_post_order = front ++ s.post_order ++ back
  | nary_node.null, s, h => by simp [nary_node.forest_subtrees] at h
  | nary_node.node v c n, s, h => by
    simp only [nary_node.forest_subtrees, List.mem_cons, List.mem_append] at h
    rcases h with h | h | h
    · exact ⟨[], n.forest_post_order,
        by simp [h, nary_node.forest_post_order, nary_node.post_order]⟩
    · obtain ⟨front, back, hb⟩ := nary_node.forest_post_order_block c s h
      exact ⟨front, back ++ v :: n.forest_post_order,
        by simp [nary_node.forest_post_order, hb]⟩
    · obtain ⟨front, back, hb⟩ := nary_node.forest_post_order_block n s h
      exact ⟨c.forest_post_order ++ v :: front, back,
        by simp [nary_node.forest_post_order, hb]⟩

/-- In post-order the nodes under every node of an n-ary tree are visited as one
block. -/
theorem nary_node.post_order_block_nary {X : Type} (root s : nary_node X)
    (h : s ∈ root.subtrees) :
    ∃ front back, root.post_order = front ++ s.post_order ++ back := by
  cases root with
  | null => simp [nary_node.subtrees] at h
  | node v c n =>
    simp only [nary_node.subtrees, List.mem_cons] at h
    rcases h with h | h
    · exact ⟨[], [], by simp [h, nary_node.post_order]⟩
    · obtain ⟨front, back, hb⟩ := nary_node.forest_post_order_block c s h
      exact ⟨front, back ++ [v], by simp [nary_node.post_order, hb]⟩

/-- In in-order the nodes under every node of a binary tree are visited as one
block. -/
theorem binary_node.in_order_block {X : Type} :
    ∀ (root s : binary_node X), s ∈ root.subtrees →
      ∃ front back, root.in_order = front ++ s.in_order ++ back
  | binary_node.null, s, h => by simp [binary_node.subtrees] at h
  | binary_node.node v l r, s, h => by
    simp only [binary_node.subtrees, List.mem_cons, List.mem_append] at h
    rcases h with h | h | h
    · exact ⟨[], [], by simp [h]⟩
    · obtain ⟨front, back, hb⟩ := binary_node.in_order_block l s h
      exact ⟨front, back ++ v :: r.in_order, by simp [binary_node.in_order, hb]⟩
    · obtain ⟨front, back, hb⟩ := binary_node.in_order_block r s h
      exact ⟨l.in_order ++ v :: front, back, by simp [binary_node.in_order, hb]⟩

/-- C16. For every tree, iteration under the post-order policy visits every node
after all nodes of its children's subtrees, children taken left to right:
the nodes under every node of the tree are visited as one block, made of the
blocks of its children from left to right followed by the node itself. On
the binary tree of the test the sequence is -20, -40, -30, -10, 400, 200,
100, and on the n-ary tree `A(B, C(D))` it is B, D, C, A. -/
theorem post_order_children_before_parent (X : Type) :
    (∀ (v : X) (l r : binary_node X),
      (binary_node.node v l r).visits policy.post_order
        = (binary_node.node v l r).children.flatMap (binary_node.visits policy.post_order)
          ++ [v]) ∧
    (∀ (root s : binary_node X), s ∈ root.subtrees →
      ∃ front back, root.visits policy.post_order
        = front ++ s.visits policy.post_order ++ back) ∧
    (∀ (v : X) (c s : nary_node X),
      (nary_node.node v c s).visits policy.post_order
        = (nary_node.node v c s).children.flatMap (nary_node.visits policy.post_order)
          ++ [v]) ∧
    (∀ (root s : nary_node X), s ∈ root.subtrees →
      ∃ front back, root.visits policy.post_order
        = front ++ s.visits policy.post_order ++ back) ∧
    (readme_tree.forward_visits (binary_iterator_ops Int policy.post_order) 8).map Prod.snd
      = [-20, -40, -30, -10, 400, 200, 100] ∧
    (letters_tree.forward_visits (nary_iterator_ops String policy.post_order) 5).map Prod.snd
      = ["B", "D", "C", "A"] := by
  refine ⟨?_, ?_, ?_, ?_, by decide, by decide⟩
  · intro v l r
    exact binary_node.post_order_children v l r
  · intro root s h
    exact binary_node.post_order_block root s h
  · intro v c s
    exact nary_node.post_order_children_nary v c s
  · intro root s h
    exact nary_node.post_order_block_nary root s h

/-- C17. For every binary tree, iteration under the in-order policy visits, for
each node, all nodes of its left subtree, then the node, then all nodes of
its right subtree: the nodes under every node of the tree are visited as one
block, made of the block of its left child, the node and the block of its
right child. On the binary tree of the test the sequence is 100, -20, -10,
-40, -30, 200, 400. -/
theorem in_order_left_self_right (X : Type) :
    (∀ (v : X) (l r : binary_node X),
      (binary_node.node v l r).visits policy.in_order
        = l.visits policy.in_order ++ [v] ++ r.visits policy.in_order) ∧
    (∀ (root s : binary_node X), s ∈ root.subtrees →
      ∃ front back, root.visits policy.in_order
        = front ++ s.visits policy.in_order ++ back) ∧
    (readme_tree.forward_visits (binary_iterator_ops Int policy.in_order) 8).map Prod.snd
      = [100, -20, -10, -40, -30, 200, 400] := by
  refine ⟨?_, ?_, by decide⟩
  · intro v l r
    simp [binary_node.visits, binary_node.in_order]
  · intro root s h
    exact binary_node.in_order_block root s h

/-- C18. For every tree, and every view of a whole tree, iteration under the
breadth-first policy visits the nodes in level order: the nodes of depth 0,
then those of depth 1, and so on, each level from left to right. On the
binary tree of the test, iterated through a view of the whole tree, the
sequence is 100, 200, -10, 400, -20, -30, -40, and on the n-ary tree
`A(B, C(D))` it is A, B, C, D. -/
theorem breadth_first_level_order (X : Type) [DecidableEq X] :
    (∀ (root : binary_node X) (depth : Nat), root.calculate_size ≤ depth →
      root.visits policy.breadth_first
        = (levels_upto binary_node.children depth root.as_queue).filterMap
            binary_node.value_opt) ∧
    (∀ (root : nary_node X) (depth : Nat), root.calculate_size ≤ depth →
      root.visits policy.breadth_first
        = (levels_upto nary_node.children depth root.as_queue).filterMap
            nary_node.value_opt) ∧
    (∀ (p : policy) (view_address fuel : Nat) (t : basic_tree (binary_node X)),
      t.root.calculate_size < fuel →
      (tree_view.of_tree view_address t).forward_visits (binary_iterator_ops X p) fuel
        = t.forward_visits (binary_iterator_ops X p) fuel) ∧
    (∀ (p : policy) (view_address fuel : Nat) (t : basic_tree (nary_node X)),
      p ≠ policy.in_order → t.root.calculate_size < fuel →
      (tree_view.of_tree view_address t).forward_visits (nary_iterator_ops X p) fuel
        = t.forward_visits (nary_iterator_ops X p) fuel) ∧
    ((tree_view.of_tree 5000 readme_tree).forward_visits
        (binary_iterator_ops Int policy.breadth_first) 8).map Prod.snd
      = [100, 200, -10, 400, -20, -30, -40] ∧
    (letters_tree.forward_visits
        (nary_iterator_ops String policy.breadth_first) 5).map Prod.snd
      = ["A", "B", "C", "D"] := by
  refine ⟨?_, ?_, ?_, ?_, by decide, by decide⟩
  · intro root depth hdepth
    show root.breadth_first = _
    unfold binary_node.breadth_first
    congr 1
    have h := breadth_first_queue_levels (binary_node.queue_view X)
      (binary_node.queue_view_finite X) depth root.calculate_size root.as_queue
    cases root with
    | null =>
      exact h (by simp [binary_node.as_queue]) (by simp [binary_node.as_queue])
        (by simp [binary_node.as_queue])
    | node v l r =>
      exact h (by simp [binary_node.as_queue, binary_node.queue_view])
        (by simp [binary_node.as_queue, binary_node.queue_view])
        (by simpa [binary_node.as_queue, binary_node.queue_view] using hdepth)
  · intro root depth hdepth
    show root.breadth_first = _
    unfold nary_node.breadth_first
    congr 1
    have h := breadth_first_queue_levels (nary_node.queue_view X)
      (nary_node.queue_view_finite_nary X) depth root.calculate_size root.as_queue
    cases root with
    | null =>
      exact h (by simp [nary_node.as_queue]) (by simp [nary_node.as_queue])
        (by simp [nary_node.as_queue])
    | node v c s =>
      exact h (by simp [nary_node.as_queue, nary_node.queue_view, nary_node.detached])
        (by simp [nary_node.as_queue, nary_node.queue_view, nary_node.calculate_size])
        (by simpa [nary_node.as_queue, nary_node.queue_view, nary_node.calculate_size]
          using hdepth)
  · intro p view_address fuel t hfuel
    have hc := (binary_node.visits_of_bounded p t.root).2.2
    have hview : (tree_view.of_tree view_address t).root = t.root := rfl
    unfold binary_iterator_ops
    rw [basic_tree.forward_visits_eq (binary_node.visits_of p) t fuel (by omega),
      basic_tree.forward_visits_eq (binary_node.visits_of p) (tree_view.of_tree view_address t)
        fuel (by rw [hview]; omega)]
    rfl
  · intro p view_address fuel t _ hfuel
    have hc := (nary_node.visits_of_bounded_nary p t.root).2.2
    have hview : (tree_view.of_tree view_address t).root = t.root := rfl
    unfold nary_iterator_ops
    rw [basic_tree.forward_visits_eq (nary_node.visits_of p) t fuel (by omega),
      basic_tree.forward_visits_eq (nary_node.visits_of p) (tree_view.of_tree view_address t)
        fuel (by rw [hview]; omega)]
    rfl

/-! ## Capture names -/

/-- The pattern of the specialisation #2 fits exactly the capture matchers with
the name that is looked for. -/
theorem cpp_type.matches_capture_iff (name element : cpp_type) :
    element.matches_capture name = true ↔ is_capture_named name element := by
  unfold is_capture_named capture_matcher
  constructor
  · intro h
    cases element with
    | atom _ => simp [cpp_type.matches_capture] at h
    | capture_node _ _ _ => simp [cpp_type.matches_capture] at h
    | matcher _ _ _ _ => simp [cpp_type.matches_capture] at h
    | lvalue_reference referred =>
      cases referred with
      | atom _ => simp [cpp_type.matches_capture] at h
      | capture_node _ _ _ => simp [cpp_type.matches_capture] at h
      | lvalue_reference _ => simp [cpp_type.matches_capture] at h
      | matcher derived value_matcher first_child next_sibling =>
        cases derived with
        | atom _ => simp [cpp_type.matches_capture] at h
        | matcher _ _ _ _ => simp [cpp_type.matches_capture] at h
        | lvalue_reference _ => simp [cpp_type.matches_capture] at h
        | capture_node n fc ns =>
          simp only [cpp_type.matches_capture, Bool.and_eq_true, decide_eq_true_eq] at h
          obtain ⟨⟨⟨h1, h2⟩, h3⟩, h4⟩ := h
          exact ⟨fc, ns, by rw [h1, h2, h3, h4]⟩
  · rintro ⟨fc, ns, rfl⟩
    simp [cpp_type.matches_capture]

/-- The value of `index_of_capture` on a tuple that holds no capture with the
name: one more than the number of its elements. -/
theorem index_of_capture_none (name : cpp_type) :
    ∀ tuple : List cpp_type, (∀ u ∈ tuple, u.matches_capture name = false) →
      index_of_capture name tuple = tuple.length + 1
  | [], _ => rfl
  | u :: types, h => by
    have hu : u.matches_capture name = false := h u (List.mem_cons_self _ _)
    have ih := index_of_capture_none name types
      (fun w hw => h w (List.mem_cons_of_mem _ hw))
    simp [index_of_capture, hu, ih]
    omega

/-- The value of `index_of_capture` on a tuple that holds a capture with the
name: the position of the first one. -/
theorem index_of_capture_first (name : cpp_type) :
    ∀ tuple : List cpp_type, (∃ u ∈ tuple, u.matches_capture name = true) →
      index_of_capture name tuple < tuple.length ∧
      (∃ u, tuple[index_of_capture name tuple]? = some u ∧ u.matches_capture name = true) ∧
      ∀ j, j < index_of_capture name tuple →
        ∀ u, tuple[j]? = some u → u.matches_capture name = false
  | [], h => by simp at h
  | u :: types, h => by
    by_cases hu : u.matches_capture name = true
    · simp [index_of_capture, hu]
    · have hu2 : u.matches_capture name = false := by simpa using hu
      have hrest : ∃ w ∈ types, w.matches_capture name = true := by
        obtain ⟨w, hw, hm⟩ := h
        rcases List.mem_cons.1 hw with rfl | hw
        · exact absurd hm hu
        · exact ⟨w, hw, hm⟩
      obtain ⟨h1, h2, h3⟩ := index_of_capture_first name types hrest
      have hidx : index_of_capture name (u :: types) = index_of_capture name types + 1 := by
        simp [index_of_capture, hu2]
        omega
      rw [hidx]
      refine ⟨by simpa using h1, by simpa using h2, ?_⟩
      intro j hj w hw
      cases j with
      | zero =>
        simp at hw
        rw [← hw]
        exact hu2
      | succ j =>
        simp at hw
        exact h3 j (by omega) w hw

/-- C21. For every capture name and every captures tuple, `is_valid_name<Name, Tuple>`
is true if and only if the tuple contains a (reference to a) capture matcher
with that name; a name that no capture of the tuple carries is rejected. -/
theorem is_valid_name_iff_captured (name : cpp_type) (tuple : List cpp_type) :
    (is_valid_name name tuple = true ↔ ∃ u ∈ tuple, is_capture_named name u) ∧
    ((∀ u ∈ tuple, ¬ is_capture_named name u) → is_valid_name name tuple = false) := by
  have hiff : is_valid_name name tuple = true ↔ ∃ u ∈ tuple, is_capture_named name u := by
    constructor
    · intro h
      by_contra hnone
      have hall : ∀ u ∈ tuple, u.matches_capture name = false := by
        intro u hu
        by_contra hm
        exact hnone ⟨u, hu, (cpp_type.matches_capture_iff name u).1 (by simpa using hm)⟩
      have := index_of_capture_none name tuple hall
      simp [is_valid_name, this] at h
    · rintro ⟨u, hu, hc⟩
      have := (index_of_capture_first name tuple
        ⟨u, hu, (cpp_type.matches_capture_iff name u).2 hc⟩).1
      simpa [is_valid_name] using this
  refine ⟨hiff, ?_⟩
  intro hnone
  cases hv : is_valid_name name tuple with
  | false => rfl
  | true =>
    obtain ⟨u, hu, hc⟩ := hiff.1 hv
    exact absurd hc (hnone u hu)

/-- C26. For every capture name and every captures tuple that contains a capture
matcher with that name, `index_of_capture<Name, Tuple>` is smaller than the
size of the tuple, the element at that position is a capture matcher with
the name, and no element before it is one: it is the zero-based position of
the first capture matcher with that name. -/
theorem index_of_capture_found (name : cpp_type) (tuple : List cpp_type)
    (h : ∃ u ∈ tuple, is_capture_named name u) :
    index_of_capture name tuple < tuple.length ∧
    (∃ u, tuple[index_of_capture name tuple]? = some u ∧ is_capture_named name u) ∧
    ∀ j, j < index_of_capture name tuple →
      ∀ u, tuple[j]? = some u → ¬ is_capture_named name u := by
  obtain ⟨w, hw, hc⟩ := h
  obtain ⟨h1, ⟨u, hu, hm⟩, h3⟩ := index_of_capture_first name tuple
    ⟨w, hw, (cpp_type.matches_capture_iff name w).2 hc⟩
  refine ⟨h1, ⟨u, hu, (cpp_type.matches_capture_iff name u).1 hm⟩, ?_⟩
  intro j hj v hv hnamed
  have := h3 j hj v hv
  rw [(cpp_type.matches_capture_iff name v).2 hnamed] at this
  exact Bool.noConfusion this

/-- C26, at a concrete input: in a tuple of four elements whose third and fourth
are captures named `atom 11`, the index of that name is 2. -/
theorem index_of_capture_found_witness :
    index_of_capture (cpp_type.atom 11) sample_captures = 2 ∧
    index_of_capture (cpp_type.atom 11) sample_captures < sample_captures.length ∧
    (∃ u, sample_captures[index_of_capture (cpp_type.atom 11) sample_captures]? = some u
      ∧ is_capture_named (cpp_type.atom 11) u) ∧
    ∀ j, j < index_of_capture (cpp_type.atom 11) sample_captures →
      ∀ u, sample_captures[j]? = some u → ¬ is_capture_named (cpp_type.atom 11) u :=
  ⟨by decide,
    index_of_capture_found (cpp_type.atom 11) sample_captures
      ⟨capture_matcher (cpp_type.atom 11) (cpp_type.atom 0) (cpp_type.atom 0),
        by decide, cpp_type.atom 0, cpp_type.atom 0, rfl⟩⟩

/-- C27, as the code computes it: for every capture name and every captures tuple
of `n` elements none of which is a capture matcher with that name,
`index_of_capture<Name, Tuple>` is `n + 1`, not `n`: each discarded element
contributes 1 and the empty tuple, for which only the primary template is
left, contributes 1 as well. On the four unrelated types of the documented
example the value is 5, where the comment says 4, and on the empty tuple it
is 1, where the comment says 0; the name is rejected all the same. -/
theorem index_of_capture_absent (name : cpp_type) (tuple : List cpp_type) :
    ((∀ u ∈ tuple, ¬ is_capture_named name u) →
      index_of_capture name tuple = tuple.length + 1) ∧
    index_of_capture (cpp_type.atom 5) documented_tuple = 5 ∧
    documented_tuple.length = 4 ∧
    index_of_capture (cpp_type.atom 5) [] = 1 ∧
    is_valid_name (cpp_type.atom 5) documented_tuple = false := by
  refine ⟨?_, by decide, by decide, by decide, by decide⟩
  intro hnone
  apply index_of_capture_none
  intro u hu
  by_contra hm
  exact hnone u hu ((cpp_type.matches_capture_iff name u).1 (by simpa using hm))

/-! ## `keep_calling` -/

/-- The chain of the state that follows `prev`, `some n` in the loop. -/
theorem keep_calling_chain_shift {N : Type} (call : Option N → Option N)
    (prev : Option N) (n : N) (i : Nat) :
    keep_calling_chain call (some n) (call (some n)) i
      = keep_calling_chain call prev (some n) (i + 1) := by
  cases i with
  | zero => rfl
  | succ i => exact (Function.iterate_succ_apply call i (some n))

/-- The chain of the first state of the loop is the chain of the start node. -/
theorem keep_calling_chain_start {N : Type} (call : Option N → Option N)
    (from_node : Option N) (i : Nat) :
    keep_calling_chain call from_node (call from_node) i = call^[i] from_node := by
  cases i with
  | zero => rfl
  | succ i => exact (Function.iterate_succ_apply call i from_node).symm

/-- The loop of the four-argument `keep_calling` returns `result` of the first
pair of the chain on which `test` succeeds. -/
theorem keep_calling_test_loop_found {N : Type} (call : Option N → Option N)
    (test : Option N → Option N → Bool) (result : Option N → Option N → Option N) :
    ∀ (j fuel : Nat) (prev next : Option N),
      (∀ i, i < j → keep_calling_chain call prev next (i + 1) ≠ none ∧
        test (keep_calling_chain call prev next i)
          (keep_calling_chain call prev next (i + 1)) = false) →
      keep_calling_chain call prev next (j + 1) ≠ none →
      test (keep_calling_chain call prev next j)
        (keep_calling_chain call prev next (j + 1)) = true →
      j < fuel →
      keep_calling_test_loop call test result fuel prev next
        = some (result (keep_calling_chain call prev next j)
            (keep_calling_chain call prev next (j + 1)))
  | 0, fuel, prev, next, _, hnext, htest, hfuel => by
    obtain ⟨f, rfl⟩ : ∃ f, fuel = f + 1 := ⟨fuel - 1, by omega⟩
    cases next with
    | none => exact absurd rfl hnext
    | some n =>
      have ht : test prev (some n) = true := htest
      simp [keep_calling_test_loop, ht, keep_calling_chain]
  | j + 1, fuel, prev, next, hbefore, hnext, htest, hfuel => by
    obtain ⟨f, rfl⟩ : ∃ f, fuel = f + 1 := ⟨fuel - 1, by omega⟩
    cases next with
    | none => exact absurd rfl (hbefore 0 (by omega)).1
    | some n =>
      have ht : test prev (some n) = false := (hbefore 0 (by omega)).2
      have ih := keep_calling_test_loop_found call test result j f (some n) (call (some n))
        (fun i hi => by
          rw [keep_calling_chain_shift call prev n i,
            keep_calling_chain_shift call prev n (i + 1)]
          exact hbefore (i + 1) (by omega))
        (by rw [keep_calling_chain_shift call prev n (j + 1)]; exact hnext)
        (by
          rw [keep_calling_chain_shift call prev n j,
            keep_calling_chain_shift call prev n (j + 1)]
          exact htest)
        (by omega)
      rw [keep_calling_chain_shift call prev n j,
        keep_calling_chain_shift call prev n (j + 1)] at ih
      simp only [keep_calling_test_loop, ht, Bool.false_eq_true, if_false]
      exact ih

/-- When `test` succeeds on no pair of the chain, the loop of the four-argument
`keep_calling` returns the last node of the chain before `nullptr`. -/
theorem keep_calling_test_loop_last {N : Type} (call : Option N → Option N)
    (test : Option N → Option N → Bool) (result : Option N → Option N → Option N) :
    ∀ (j fuel : Nat) (prev next : Option N),
      (∀ i, i < j → keep_calling_chain call prev next (i + 1) ≠ none ∧
        test (keep_calling_chain call prev next i)
          (keep_calling_chain call prev next (i + 1)) = false) →
      keep_calling_chain call prev next (j + 1) = none →
      j < fuel →
      keep_calling_test_loop call test result fuel prev next
        = some (keep_calling_chain call prev next j)
  | 0, fuel, prev, next, _, hnext, hfuel => by
    obtain ⟨f, rfl⟩ : ∃ f, fuel = f + 1 := ⟨fuel - 1, by omega⟩
    have hn : next = none := hnext
    subst hn
    simp [keep_calling_test_loop, keep_calling_chain]
  | j + 1, fuel, prev, next, hbefore, hnext, hfuel => by
    obtain ⟨f, rfl⟩ : ∃ f, fuel = f + 1 := ⟨fuel - 1, by omega⟩
    cases next with
    | none => exact absurd rfl (hbefore 0 (by omega)).1
    | some n =>
      have ht : test prev (some n) = false := (hbefore 0 (by omega)).2
      have ih := keep_calling_test_loop_last call test result j f (some n) (call (some n))
        (fun i hi => by
          rw [keep_calling_chain_shift call prev n i,
            keep_calling_chain_shift call prev n (i + 1)]
          exact hbefore (i + 1) (by omega))
        (by rw [keep_calling_chain_shift call prev n (j + 1)]; exact hnext)
        (by omega)
      rw [keep_calling_chain_shift call prev n j] at ih
      simp only [keep_calling_test_loop, ht, Bool.false_eq_true, if_false]
      exact ih

/-- The loop of the two-argument `keep_calling` is the loop of the four-argument
one with a test that never succeeds. -/
theorem keep_calling_loop_eq_test_loop {N : Type} (call : Option N → Option N)
    (result : Option N → Option N → Option N) :
    ∀ (fuel : Nat) (prev next : Option N),
      keep_calling_loop call fuel prev next
        = keep_calling_test_loop call (fun _ _ => false) result fuel prev next
  | 0, _, _ => rfl
  | _ + 1, _, none => rfl
  | fuel + 1, _, some n => by
    simp only [keep_calling_loop, keep_calling_test_loop, Bool.false_eq_true, if_false]
    exact keep_calling_loop_eq_test_loop call result fuel (some n) (call (some n))

/-- C28, as the code computes it at `from == nullptr`: the comment of the
function says that the case `from == nullptr` is correctly managed, but the
code calls `call(from)` without testing `from`, so with a successor function
that answers `nullptr` with a node (the node 7, which has no successor) the
two-argument `keep_calling` started at `nullptr` returns that node and not
`nullptr`. -/
theorem keep_calling_from_null_restarts :
    restarting_call^[0] none = none ∧
    keep_calling restarting_call 3 none = some (some 7) := by
  decide

/-- The part of the contract of the two-argument `keep_calling` that the code
keeps. For every start node `from` and every successor function `call`
whose chain `call(from)`, `call(call(from))`, ... reaches `nullptr` after
finitely many steps (first at step `j + 1`), the two-argument `keep_calling`
terminates (fuel for more than `j` evaluations of the loop condition is
enough) and returns the node `r` at step `j` of the chain, the last one
before that `nullptr`: `call(r)` is `nullptr`, every node of the chain up to
`r` is non-null when `from` is, and `r` is `from` itself when `call(from)` is
`nullptr`. When `from` is `nullptr` the code calls `call(from)` all the same
and returns `nullptr` exactly when `call(nullptr)` is `nullptr`. -/
theorem keep_calling_returns_last {N : Type} (call : Option N → Option N)
    (from_node : Option N) (j fuel : Nat)
    (hchain : ∀ i, i < j → call^[i + 1] from_node ≠ none)
    (hend : call^[j + 1] from_node = none) (hfuel : j < fuel) :
    keep_calling call fuel from_node = some (call^[j] from_node) ∧
    call (call^[j] from_node) = none ∧
    (from_node ≠ none → ∀ i, i ≤ j → call^[i] from_node ≠ none) ∧
    (call from_node = none → keep_calling call fuel from_node = some from_node) ∧
    (from_node = none →
      (keep_calling call fuel from_node = some none ↔ call none = none)) := by
  have hret : keep_calling call fuel from_node = some (call^[j] from_node) := by
    unfold keep_calling
    rw [keep_calling_loop_eq_test_loop call (fun a _ => a),
      keep_calling_test_loop_last call (fun _ _ => false) (fun a _ => a) j fuel from_node
        (call from_node)
        (fun i hi => by
          rw [keep_calling_chain_start call from_node (i + 1)]
          exact ⟨hchain i hi, rfl⟩)
        (by rw [keep_calling_chain_start call from_node (j + 1)]; exact hend)
        hfuel,
      keep_calling_chain_start call from_node j]
  have hzero : call from_node = none → j = 0 := by
    intro hnull
    by_contra hj
    exact hchain 0 (by omega) hnull
  refine ⟨hret, ?_, ?_, ?_, ?_⟩
  · rw [← Function.iterate_succ_apply' call j from_node]
    exact hend
  · intro hfrom i hi
    cases i with
    | zero => exact hfrom
    | succ i => exact hchain i (by omega)
  · intro hnull
    have hj := hzero hnull
    subst hj
    exact hret
  · intro hfrom
    subst hfrom
    constructor
    · intro h
      rw [hret] at h
      have hj : call^[j] none = none := Option.some.inj h
      cases j with
      | zero => exact hend
      | succ j => exact absurd hj (hchain j (by omega))
    · intro hnull
      have hj := hzero hnull
      subst hj
      exact hret

/-- Along the parent links 3, 2, 1 the two-argument `keep_calling` started at the
node 3 returns the node 1, which has no parent. -/
theorem keep_calling_returns_last_witness :
    (∀ i, i < 2 → sample_parent^[i + 1] (some 3) ≠ none) ∧
    sample_parent^[2 + 1] (some 3) = none ∧
    keep_calling sample_parent 5 (some 3) = some (some 1) ∧
    sample_parent (some 1) = none :=
  ⟨by decide, by decide,
    (keep_calling_returns_last sample_parent (some 3) 2 5 (by decide) (by decide)
      (by decide)).1,
    (keep_calling_returns_last sample_parent (some 3) 2 5 (by decide) (by decide)
      (by decide)).2.1⟩

/-- C29, as the code computes it: for every start node, successor function, test
and result function, the four-argument `keep_calling` returns
`result(prev, next)` for the first consecutive pair of the chain on which
`test` succeeds; but when `test` succeeds on no pair of a chain that reaches
`nullptr`, the final `return prev` gives the last node of the chain before
`nullptr` (what the two-argument `keep_calling` returns), which is non-null
whenever the start node is, and not `nullptr` as the comment on that line
says. Along the parent links 3, 2, 1 with a test that always fails, the call
started at the node 3 returns the node 1. -/
theorem keep_calling_test_returns_prev :
    (∀ (N : Type) (call : Option N → Option N) (test : Option N → Option N → Bool)
        (result : Option N → Option N → Option N) (from_node : Option N) (j fuel : Nat),
      (∀ i, i < j → call^[i + 1] from_node ≠ none ∧
        test (call^[i] from_node) (call^[i + 1] from_node) = false) →
      call^[j + 1] from_node ≠ none →
      test (call^[j] from_node) (call^[j + 1] from_node) = true →
      j < fuel →
      keep_calling_test call test result fuel from_node
        = some (result (call^[j] from_node) (call^[j + 1] from_node))) ∧
    (∀ (N : Type) (call : Option N → Option N) (test : Option N → Option N → Bool)
        (result : Option N → Option N → Option N) (from_node : Option N) (j fuel : Nat),
      (∀ i, i < j → call^[i + 1] from_node ≠ none ∧
        test (call^[i] from_node) (call^[i + 1] from_node) = false) →
      call^[j + 1] from_node = none →
      j < fuel →
      keep_calling_test call test result fuel from_node = some (call^[j] from_node) ∧
        keep_calling_test call test result fuel from_node = keep_calling call fuel from_node ∧
        (from_node ≠ none → call^[j] from_node ≠ none)) ∧
    keep_calling_test sample_parent (fun _ _ => false) (fun _ next => next) 5 (some 3)
      = some (some 1) ∧
    keep_calling_test sample_parent (fun _ _ => false) (fun _ next => next) 5 (some 1)
      = some (some 1) := by
  refine ⟨?_, ?_, by decide, by decide⟩
  · intro N call test result from_node j fuel hbefore hnext htest hfuel
    unfold keep_calling_test
    rw [keep_calling_test_loop_found call test result j fuel from_node (call from_node)
        (fun i hi => by
          rw [keep_calling_chain_start call from_node (i + 1),
            keep_calling_chain_start call from_node i]
          exact hbefore i hi)
        (by rw [keep_calling_chain_start call from_node (j + 1)]; exact hnext)
        (by
          rw [keep_calling_chain_start call from_node (j + 1),
            keep_calling_chain_start call from_node j]
          exact htest)
        hfuel,
      keep_calling_chain_start call from_node (j + 1),
      keep_calling_chain_start call from_node j]
  · intro N call test result from_node j fuel hbefore hend hfuel
    have hret : keep_calling_test call test result fuel from_node
        = some (call^[j] from_node) := by
      unfold keep_calling_test
      rw [keep_calling_test_loop_last call test result j fuel from_node (call from_node)
          (fun i hi => by
            rw [keep_calling_chain_start call from_node (i + 1),
              keep_calling_chain_start call from_node i]
            exact hbefore i hi)
          (by rw [keep_calling_chain_start call from_node (j + 1)]; exact hend)
          hfuel,
        keep_calling_chain_start call from_node j]
    have hplain : keep_calling call fuel from_node = some (call^[j] from_node) := by
      unfold keep_calling
      rw [keep_calling_loop_eq_test_loop call (fun a _ => a),
        keep_calling_test_loop_last call (fun _ _ => false) (fun a _ => a) j fuel from_node
          (call from_node)
          (fun i hi => by
            rw [keep_calling_chain_start call from_node (i + 1)]
            exact ⟨(hbefore i hi).1, rfl⟩)
          (by rw [keep_calling_chain_start call from_node (j + 1)]; exact hend)
          hfuel,
        keep_calling_chain_start call from_node j]
    refine ⟨hret, hret.trans hplain.symm, ?_⟩
    intro hfrom
    cases j with
    | zero => exact hfrom
    | succ j => exact (hbefore j (by omega)).1

/-! ## `apply_at_index` -/

/-- What `single_apply` does with an index below its target and with an index
that is not. -/
theorem element_apply_construction.single_apply_spec {α β : Type} (f : α → β)
    (tuple : List α) (index : Nat) :
    ∀ (target : Nat) (h : target ≤ tuple.length),
      (∀ hlt : index < tuple.length, index < target →
        element_apply_construction.single_apply f tuple target h index
          = apply_outcome.returned (f (tuple.get ⟨index, hlt⟩)) [index]) ∧
      (target ≤ index →
        element_apply_construction.single_apply f tuple target h index
          = apply_outcome.assertion_failed)
  | 0, _ => ⟨fun _ h0 => absurd h0 (Nat.not_lt_zero _), fun _ => rfl⟩
  | target + 1, h => by
    have ih := element_apply_construction.single_apply_spec f tuple index target
      (Nat.le_of_succ_le h)
    constructor
    · intro hlt hbelow
      by_cases heq : index = target
      · subst heq
        simp [element_apply_construction.single_apply]
      · simp only [element_apply_construction.single_apply, heq, if_false]
        exact ih.1 hlt (by omega)
    · intro hge
      have hne : index ≠ target := by omega
      simp only [element_apply_construction.single_apply, hne, if_false]
      exact ih.2 (by omega)

/-- C30. For every tuple of `n` elements, every callable `f` and every run-time
index `i`: when `i < n`, `apply_at_index(f, tuple, i)` returns `f` applied
to the element at position `i`, having applied `f` to that element and to
no other; and the failing assertion of the terminal case is reached if and
only if `i >= n`. (The code compiles for `n >= 1` only; here the empty tuple
reaches the assertion at once.) -/
theorem apply_at_index_applies_once {α β : Type} (f : α → β) (tuple : List α) (index : Nat) :
    (∀ h : index < tuple.length,
      apply_at_index f tuple index
        = apply_outcome.returned (f (tuple.get ⟨index, h⟩)) [index]) ∧
    (apply_at_index f tuple index = apply_outcome.assertion_failed
      ↔ tuple.length ≤ index) := by
  have hspec := element_apply_construction.single_apply_spec f tuple index tuple.length
    (Nat.le_refl _)
  refine ⟨fun h => hspec.1 h h, ?_, hspec.2⟩
  intro hfail
  by_contra hlt
  have h : index < tuple.length := by omega
  have hret := hspec.1 h h
  unfold apply_at_index at hfail
  rw [hret] at hfail
  exact apply_outcome.noConfusion hfail

/-- C30, at a concrete input: on the tuple `(10, 20, 30)` with `f` adding one, the
index 1 gives 21 with `f` applied to the element 1 only, and the index 3
reaches the assertion. -/
theorem apply_at_index_applies_once_witness :
    apply_at_index (fun x : Nat => x + 1) [10, 20, 30] 1 = apply_outcome.returned 21 [1] ∧
    (apply_at_index (fun x : Nat => x + 1) [10, 20, 30] 3 = apply_outcome.assertion_failed
      ↔ [10, 20, 30].length ≤ 3) :=
  ⟨(apply_at_index_applies_once (fun x : Nat => x + 1) [10, 20, 30] 1).1 (by decide),
    (apply_at_index_applies_once (fun x : Nat => x + 1) [10, 20, 30] 3).2⟩

/-! ## `calculate_size` -/

/-- The number of nodes under a binary root is what `calculate_size` returns. -/
theorem binary_node.subtrees_length {X : Type} :
    ∀ n : binary_node X, n.subtrees.length = n.calculate_size
  | binary_node.null => rfl
  | binary_node.node v l r => by
    rw [binary_node.calculate_size_node]
    simp only [binary_node.subtrees, List.length_cons, List.length_append,
      binary_node.subtrees_length l, binary_node.subtrees_length r]
    omega

/-- The number of nodes along a chain of siblings and under them is what the
loop of `calculate_size` adds to the running size. -/
theorem nary_node.forest_subtrees_length {X : Type} :
    ∀ c : nary_node X, c.forest_subtrees.length = nary_node.calculate_size_loop c 0
  | nary_node.null => rfl
  | nary_node.node v c s => by
    simp only [nary_node.forest_subtrees, List.length_cons, List.length_append,
      nary_node.forest_subtrees_length c, nary_node.forest_subtrees_length s,
      nary_node.calculate_size_loop]
    rw [nary_node.calculate_size_loop_add s (0 + nary_node.calculate_size_loop c 1),
      nary_node.calculate_size_loop_add c 1]
    omega

/-- The number of nodes under an n-ary root is what `calculate_size` returns. -/
theorem nary_node.subtrees_length_nary {X : Type} (n : nary_node X) :
    n.subtrees.length = n.calculate_size := by
  cases n with
  | null => rfl
  | node v c s =>
    simp only [nary_node.subtrees, List.length_cons, nary_node.forest_subtrees_length,
      nary_node.calculate_size]
    rw [nary_node.calculate_size_loop_add c 1]
    omega

/-- C24. For every binary or n-ary node, `calculate_size` (a total function on
finite nodes: the recursion follows the structure of the node) returns 1
plus the sum of `calculate_size` over the children of the node, which is
the number of nodes of the subtree rooted at the node and at least 1; on the
trees `100(200(300, 400), 500)` and `A(B, C(D))` it is the cached size, 5 and 4. -/
theorem calculate_size_counts_nodes (X : Type) :
    (∀ (v : X) (l r : binary_node X),
      (binary_node.node v l r).calculate_size
          = 1 + ((binary_node.node v l r).children.map binary_node.calculate_size).sum ∧
        (binary_node.node v l r).calculate_size = (binary_node.node v l r).subtrees.length ∧
        1 ≤ (binary_node.node v l r).calculate_size) ∧
    (∀ (v : X) (c s : nary_node X),
      (nary_node.node v c s).calculate_size
          = 1 + ((nary_node.node v c s).children.map nary_node.calculate_size).sum ∧
        (nary_node.node v c s).calculate_size = (nary_node.node v c s).subtrees.length ∧
        1 ≤ (nary_node.node v c s).calculate_size) ∧
    (sample_binary_tree.root.calculate_size = 5 ∧ sample_binary_tree.size = 5) ∧
    (letters_tree.root.calculate_size = 4 ∧ letters_tree.size = 4) := by
  refine ⟨?_, ?_, by decide, by decide⟩
  · intro v l r
    have h1 := binary_node.calculate_size_node v l r
    have h2 := binary_node.children_size v l r
    have h3 := binary_node.subtrees_length (binary_node.node v l r)
    refine ⟨by omega, h3.symm, by omega⟩
  · intro v c s
    have h1 := nary_node.calculate_size_node_nary v c s
    have h3 := nary_node.subtrees_length_nary (nary_node.node v c s)
    refine ⟨h1, h3.symm, by omega⟩

/-! ## `calculate_arity` -/

/-- The maximum over a node and more nodes. -/
theorem max_children_of_cons {N : Type} (children : N → List N) (n : N) (nodes : List N) :
    max_children_of children (n :: nodes)
      = max (children n).length (max_children_of children nodes) := rfl

/-- The maximum over two lists of nodes. -/
theorem max_children_of_append {N : Type} (children : N → List N) :
    ∀ xs ys : List N,
      max_children_of children (xs ++ ys)
        = max (max_children_of children xs) (max_children_of children ys)
  | [], ys => by simp [max_children_of]
  | x :: xs, ys => by
    rw [List.cons_append, max_children_of_cons, max_children_of_cons,
      max_children_of_append children xs ys, max_assoc]

/-- The maximum is below a bound exactly when every node is. -/
theorem max_children_of_le {N : Type} (children : N → List N) (k : Nat) :
    ∀ nodes : List N,
      max_children_of children nodes ≤ k ↔ ∀ m ∈ nodes, (children m).length ≤ k
  | [] => by simp [max_children_of]
  | n :: nodes => by
    rw [max_children_of_cons, max_le_iff, max_children_of_le children k nodes]
    simp

/-- The arity of a binary node without the early return is the maximum number
of children in its subtree. -/
theorem binary_node.full_arity_eq {X : Type} :
    ∀ n : binary_node X, n.full_arity = n.max_children
  | binary_node.null => rfl
  | binary_node.node v l r => by
    have hl := binary_node.full_arity_eq l
    have hr := binary_node.full_arity_eq r
    unfold binary_node.max_children at hl hr ⊢
    rw [binary_node.subtrees, max_children_of_cons, max_children_of_append, ← hl, ← hr]
    cases l with
    | null =>
      cases r with
      | null => rfl
      | node rv rl rr =>
        have hf : (binary_node.node v binary_node.null (binary_node.node rv rl rr)).full_arity
            = max 1 (binary_node.node rv rl rr).full_arity := rfl
        have hlen : (binary_node.node v binary_node.null
            (binary_node.node rv rl rr)).children.length = 1 := rfl
        have h0 : (binary_node.null : binary_node X).full_arity = 0 := rfl
        rw [hf, hlen, h0]
        omega
    | node lv ll lr =>
      cases r with
      | null =>
        have hf : (binary_node.node v (binary_node.node lv ll lr) binary_node.null).full_arity
            = max 1 (binary_node.node lv ll lr).full_arity := rfl
        have hlen : (binary_node.node v (binary_node.node lv ll lr)
            binary_node.null).children.length = 1 := rfl
        have h0 : (binary_node.null : binary_node X).full_arity = 0 := rfl
        rw [hf, hlen, h0]
        omega
      | node rv rl rr =>
        have hf : (binary_node.node v (binary_node.node lv ll lr)
              (binary_node.node rv rl rr)).full_arity
            = max (max 2 (binary_node.node lv ll lr).full_arity)
                (binary_node.node rv rl rr).full_arity := rfl
        have hlen : (binary_node.node v (binary_node.node lv ll lr)
            (binary_node.node rv rl rr)).children.length = 2 := rfl
        rw [hf, hlen]
        omega

/-- Under a bound that no node of the subtree exceeds, the early return of
`calculate_arity` on binary nodes does not change the result. -/
theorem binary_node.calculate_arity_eq_full {X : Type} (k : Nat) :
    ∀ n : binary_node X, n.max_children ≤ k → n.calculate_arity k = n.full_arity
  | binary_node.null, _ => rfl
  | binary_node.node v l r, h => by
    have hfull := binary_node.full_arity_eq (binary_node.node v l r)
    have hl0 := binary_node.full_arity_eq l
    have hr0 := binary_node.full_arity_eq r
    have hsplit : (binary_node.node v l r).max_children
        = max (binary_node.node v l r).children.length
            (max l.max_children r.max_children) := by
      unfold binary_node.max_children
      rw [binary_node.subtrees, max_children_of_cons, max_children_of_append]
    have hlk : l.max_children ≤ k := by omega
    have hrk : r.max_children ≤ k := by omega
    have hl := binary_node.calculate_arity_eq_full k l hlk
    have hr := binary_node.calculate_arity_eq_full k r hrk
    rw [hsplit] at h
    cases l with
    | null =>
      cases r with
      | null => rfl
      | node rv rl rr =>
        have hc : (binary_node.node v binary_node.null (binary_node.node rv rl rr)).calculate_arity k
            = if 1 = k then 1 else max 1 ((binary_node.node rv rl rr).calculate_arity k) := rfl
        have hf : (binary_node.node v binary_node.null (binary_node.node rv rl rr)).full_arity
            = max 1 (binary_node.node rv rl rr).full_arity := rfl
        have hlen : (binary_node.node v binary_node.null
            (binary_node.node rv rl rr)).children.length = 1 := rfl
        rw [hlen] at h
        rw [hc, hf, hr]
        split <;> omega
    | node lv ll lr =>
      cases r with
      | null =>
        have hc : (binary_node.node v (binary_node.node lv ll lr) binary_node.null).calculate_arity k
            = if 1 = k then 1 else max 1 ((binary_node.node lv ll lr).calculate_arity k) := rfl
        have hf : (binary_node.node v (binary_node.node lv ll lr) binary_node.null).full_arity
            = max 1 (binary_node.node lv ll lr).full_arity := rfl
        have hlen : (binary_node.node v (binary_node.node lv ll lr)
            binary_node.null).children.length = 1 := rfl
        rw [hlen] at h
        rw [hc, hf, hl]
        split <;> omega
      | node rv rl rr =>
        have hc : (binary_node.node v (binary_node.node lv ll lr)
              (binary_node.node rv rl rr)).calculate_arity k
            = if 2 = k then 2
              else
                if max 2 ((binary_node.node lv ll lr).calculate_arity k) = k then
                  max 2 ((binary_node.node lv ll lr).calculate_arity k)
                else
                  max (max 2 ((binary_node.node lv ll lr).calculate_arity k))
                    ((binary_node.node rv rl rr).calculate_arity k) := rfl
        have hf : (binary_node.node v (binary_node.node lv ll lr)
              (binary_node.node rv rl rr)).full_arity
            = max (max 2 (binary_node.node lv ll lr).full_arity)
                (binary_node.node rv rl rr).full_arity := rfl
        have hlen : (binary_node.node v (binary_node.node lv ll lr)
            (binary_node.node rv rl rr)).children.length = 2 := rfl
        rw [hlen] at h
        rw [hc, hf, hl, hr]
        split
        · omega
        · split <;> omega

/-- The length of a chain of siblings. -/
theorem nary_node.siblings_length {X : Type} :
    ∀ c : nary_node X, c.siblings.length = c.sibling_count
  | nary_node.null => rfl
  | nary_node.node _ _ s => by
    simp only [nary_node.siblings, List.length_cons, nary_node.sibling_count,
      nary_node.siblings_length s]
    omega

/-- The initial value of `arity` is the number of children. -/
theorem nary_node.initial_arity_eq {X : Type} (c : nary_node X) :
    c.initial_arity = c.siblings.length := by
  cases c with
  | null => rfl
  | node v c s =>
    simp only [nary_node.initial_arity, nary_node.following_siblings, nary_node.siblings,
      List.length_cons, nary_node.siblings_length s]

/-- The maximum number of children along a chain of siblings and under them. -/
theorem nary_node.forest_max_children_node {X : Type} (v : X) (c s : nary_node X) :
    max_children_of nary_node.children (nary_node.node v c s).forest_subtrees
      = max c.initial_arity
          (max (max_children_of nary_node.children c.forest_subtrees)
            (max_children_of nary_node.children s.forest_subtrees)) := by
  rw [nary_node.forest_subtrees, max_children_of_cons, max_children_of_append,
    nary_node.initial_arity_eq]
  rfl

/-- Without the early return, the loop of `calculate_arity` raises the running
value to the maximum number of children along the chain and under it. -/
theorem nary_node.full_arity_loop_eq {X : Type} :
    ∀ (chain : nary_node X) (arity : Nat),
      nary_node.full_arity_loop chain arity
        = max arity (max_children_of nary_node.children chain.forest_subtrees)
  | nary_node.null, arity => by
    simp [nary_node.full_arity_loop, nary_node.forest_subtrees, max_children_of]
  | nary_node.node v c s, arity => by
    rw [nary_node.forest_max_children_node, nary_node.full_arity_loop,
      nary_node.full_arity_loop_eq s, nary_node.full_arity_loop_eq c]
    omega

/-- Under a bound that neither the running value nor a node of the chain
exceeds, the loop of `calculate_arity` gives what it gives without the early
return. -/
theorem nary_node.calculate_arity_loop_eq {X : Type} (k : Nat) :
    ∀ (chain : nary_node X) (arity : Nat), arity ≤ k →
      max_children_of nary_node.children chain.forest_subtrees ≤ k →
      nary_node.calculate_arity_loop k chain arity
        = max arity (max_children_of nary_node.children chain.forest_subtrees)
  | nary_node.null, arity, _, _ => by
    simp [nary_node.calculate_arity_loop, nary_node.forest_subtrees, max_children_of]
  | nary_node.node v c s, arity, harity, hbound => by
    rw [nary_node.forest_max_children_node] at hbound ⊢
    have hc := nary_node.calculate_arity_loop_eq k c c.initial_arity (by omega) (by omega)
    rw [nary_node.calculate_arity_loop, hc]
    have hs := nary_node.calculate_arity_loop_eq k s
      (max arity (max c.initial_arity (max_children_of nary_node.children c.forest_subtrees)))
      (by omega) (by omega)
    rw [hs]
    split <;> omega

/-- The arity of an n-ary node without the early return is the maximum number of
children in its subtree. -/
theorem nary_node.full_arity_eq_nary {X : Type} (n : nary_node X) :
    n.full_arity = n.max_children := by
  cases n with
  | null => rfl
  | node v c s =>
    unfold nary_node.max_children
    rw [nary_node.subtrees, max_children_of_cons, nary_node.full_arity,
      nary_node.full_arity_loop_eq, nary_node.initial_arity_eq]
    rfl

/-- Under a bound that no node of the subtree exceeds, the early return of
`calculate_arity` on n-ary nodes does not change the result. -/
theorem nary_node.calculate_arity_eq_full_nary {X : Type} (k : Nat) (n : nary_node X)
    (h : n.max_children ≤ k) : n.calculate_arity k = n.full_arity := by
  cases n with
  | null => rfl
  | node v c s =>
    have hsplit : (nary_node.node v c s).max_children
        = max c.initial_arity (max_children_of nary_node.children c.forest_subtrees) := by
      unfold nary_node.max_children
      rw [nary_node.subtrees, max_children_of_cons, nary_node.initial_arity_eq]
      rfl
    rw [hsplit] at h
    rw [nary_node.calculate_arity, nary_node.full_arity, nary_node.full_arity_loop_eq,
      nary_node.calculate_arity_loop_eq k c c.initial_arity (by omega) (by omega)]

/-- C25. For every binary or n-ary node and every bound `max_expected_arity` such
that no node of the subtree has more children than the bound,
`calculate_arity(node, max_expected_arity)` returns the maximum number of
children of any node of the subtree rooted at the node, 0 for a leaf, and
that is what the function returns without its early return. On the tree
`1(2(5, 6, 7), 3, 4)` with the bound 3 the early return is taken at the root
and the result is 3; on `1(2(5, 6, 7), 3)` the result is 3 as well, while the
bound 2, which the node 2 exceeds, cuts it down to 2. -/
theorem calculate_arity_is_max_children (X : Type) :
    (∀ (max_expected_arity : Nat) (n : binary_node X),
      (∀ m ∈ n.subtrees, m.children.length ≤ max_expected_arity) →
      n.calculate_arity max_expected_arity = n.max_children ∧
        n.calculate_arity max_expected_arity = n.full_arity) ∧
    (∀ (max_expected_arity : Nat) (n : nary_node X),
      (∀ m ∈ n.subtrees, m.children.length ≤ max_expected_arity) →
      n.calculate_arity max_expected_arity = n.max_children ∧
        n.calculate_arity max_expected_arity = n.full_arity) ∧
    (∀ (max_expected_arity : Nat) (v : X),
      (binary_node.node v binary_node.null binary_node.null).calculate_arity
          max_expected_arity = 0) ∧
    (∀ (max_expected_arity : Nat) (v : X) (s : nary_node X),
      (nary_node.node v nary_node.null s).calculate_arity max_expected_arity = 0) ∧
    (sample_wide_tree.max_children = 3 ∧ sample_wide_tree.calculate_arity 3 = 3) ∧
    (sample_deep_tree.max_children = 3 ∧ sample_deep_tree.calculate_arity 3 = 3 ∧
      sample_deep_tree.calculate_arity 2 = 2) ∧
    (readme_binary_tree.max_children = 2 ∧ readme_binary_tree.calculate_arity 2 = 2) := by
  refine ⟨?_, ?_, fun _ _ => rfl, fun _ _ _ => rfl, by decide, by decide, by decide⟩
  · intro k n hbound
    have hle : n.max_children ≤ k :=
      (max_children_of_le binary_node.children k n.subtrees).2 hbound
    have h := binary_node.calculate_arity_eq_full k n hle
    exact ⟨h.trans (binary_node.full_arity_eq n), h⟩
  · intro k n hbound
    have hle : n.max_children ≤ k :=
      (max_children_of_le nary_node.children k n.subtrees).2 hbound
    have h := nary_node.calculate_arity_eq_full_nary k n hle
    exact ⟨h.trans (nary_node.full_arity_eq_nary n), h⟩

/-! ## A pre-seeded generated pointer -/

/-- With an external flag supplied and set when the base navigator returns, a
neighbour that is present on the target side is not synthesised:
`allocate` is not called, `attach_node` receives the generated pointer that
the base navigator returned, and the flag is reset. -/
theorem generative_navigator.do_navigate_generate_flag_set {H V : Type}
    (env : navigator_env H V) (st : nav_state H) (node : node_ptrs_t)
    (navigate : nav_state H → node_ptrs_t → node_ptrs_t × nav_state H)
    (attach_node : H → Nat → Nat → Nat → Nat × H)
    (hvalid : node.all_valid = true)
    (htarget : (navigate st node).1.target ≠ 0)
    (hflag : (navigate st node).2.flag = true) :
    generative_navigator.do_navigate_generate env { has_flag := true } st node navigate
        attach_node
      = some
          ({ target := (navigate st node).1.target,
             generated :=
               (attach_node (navigate st node).2.heap node.generated
                 (navigate st node).1.generated (navigate st node).1.target).1 },
           { heap :=
               (attach_node (navigate st node).2.heap node.generated
                 (navigate st node).1.generated (navigate st node).1.target).2,
             flag := false }) := by
  simp [generative_navigator.do_navigate_generate, hvalid, htarget, hflag]

/-- C22, as the code computes it. A navigation call made while the external flag
is set, with the neighbour present on the target side, allocates nothing:
the generated pointer that was supplied is handed to `attach_node`, the
result does not depend on the allocator, and the flag is reset. But the
next call, made with the flag not set, does not synthesise again: the choice
of the new node tests the pointer to the flag and not its value, so a
navigator that was given a flag never allocates. On the target tree
`100(200, 500)` and a generated root with a pre-built node 200 at address 5,
`get_first_child` attaches the node 5 under the generated root and returns
it without a new node in the heap; the following `get_right_child`, where
500 is absent on the generated side, returns a null generated pointer and
leaves the heap as it is, while a navigator without a flag allocates a node
holding 500 there. -/
theorem generative_navigator.flag_set_then_no_synthesis :
    (∀ (H V : Type) (env : navigator_env H V) (allocate : H → V → Nat × H)
        (st : nav_state H) (node : node_ptrs_t)
        (navigate : nav_state H → node_ptrs_t → node_ptrs_t × nav_state H)
        (attach_node : H → Nat → Nat → Nat → Nat × H),
      node.all_valid = true → (navigate st node).1.target ≠ 0 →
      (navigate st node).2.flag = true →
      generative_navigator.do_navigate_generate env { has_flag := true } st node navigate
          attach_node
        = some
            ({ target := (navigate st node).1.target,
               generated :=
                 (attach_node (navigate st node).2.heap node.generated
                   (navigate st node).1.generated (navigate st node).1.target).1 },
             { heap :=
                 (attach_node (navigate st node).2.heap node.generated
                   (navigate st node).1.generated (navigate st node).1.target).2,
               flag := false }) ∧
        generative_navigator.do_navigate_generate { env with allocate := allocate }
            { has_flag := true } st node navigate attach_node
          = generative_navigator.do_navigate_generate env { has_flag := true } st node navigate
              attach_node) ∧
    (generative_navigator.get seeded_env { has_flag := true } accessor.first_child
        { heap := seeded_heap, flag := false } { target := 1, generated := 4 }
      = some
          ({ target := 2, generated := 5 },
           { heap :=
               [{ value := 100, parent := 0, left := 2, right := 3 },
                { value := 200, parent := 1, left := 0, right := 0 },
                { value := 500, parent := 1, left := 0, right := 0 },
                { value := 100, parent := 0, left := 5, right := 0 },
                { value := 200, parent := 4, left := 0, right := 0 }],
             flag := false })) ∧
    (generative_navigator.get seeded_env { has_flag := true } accessor.right_child
        { heap :=
            [{ value := 100, parent := 0, left := 2, right := 3 },
             { value := 200, parent := 1, left := 0, right := 0 },
             { value := 500, parent := 1, left := 0, right := 0 },
             { value := 100, parent := 0, left := 5, right := 0 },
             { value := 200, parent := 4, left := 0, right := 0 }],
          flag := false }
        { target := 1, generated := 4 }
      = some
          ({ target := 3, generated := 0 },
           { heap :=
               [{ value := 100, parent := 0, left := 2, right := 3 },
                { value := 200, parent := 1, left := 0, right := 0 },
                { value := 500, parent := 1, left := 0, right := 0 },
                { value := 100, parent := 0, left := 5, right := 0 },
                { value := 200, parent := 4, left := 0, right := 0 }],
             flag := false })) ∧
    (generative_navigator.get seeded_env { has_flag := false } accessor.right_child
        { heap :=
            [{ value := 100, parent := 0, left := 2, right := 3 },
             { value := 200, parent := 1, left := 0, right := 0 },
             { value := 500, parent := 1, left := 0, right := 0 },
             { value := 100, parent := 0, left := 5, right := 0 },
             { value := 200, parent := 4, left := 0, right := 0 }],
          flag := false }
        { target := 1, generated := 4 }
      = some
          ({ target := 3, generated := 6 },
           { heap :=
               [{ value := 100, parent := 0, left := 2, right := 3 },
                { value := 200, parent := 1, left := 0, right := 0 },
                { value := 500, parent := 1, left := 0, right := 0 },
                { value := 100, parent := 0, left := 5, right := 6 },
                { value := 200, parent := 4, left := 0, right := 0 },
                { value := 500, parent := 4, left := 0, right := 0 }],
             flag := false })) := by
  refine ⟨?_, by decide, by decide, by decide⟩
  intro H V env allocate st node navigate attach_node hvalid htarget hflag
  refine ⟨generative_navigator.do_navigate_generate_flag_set env st node navigate attach_node
    hvalid htarget hflag, ?_⟩
  rw [generative_navigator.do_navigate_generate_flag_set env st node navigate attach_node
      hvalid htarget hflag,
    generative_navigator.do_navigate_generate_flag_set { env with allocate := allocate } st
      node navigate attach_node hvalid htarget hflag]

/-! ## One-matchers on an absent node -/

/-- C23. Every one-matcher has `matches_null = false` and
`shallow_matches_null = false`, is possessive and does not prefer null (the
field the code comments as reluctant), so `search_node` of a one-matcher on
an absent node fails at the first step, without running the search of the
matcher, whatever its value matcher and child matchers are; in the matcher
engine, a one-matcher with any capture, value matcher, first child and next
sibling fails on a node whose value is absent. -/
theorem one_matcher.search_node_null_fails :
    (one_matcher.info.matches_null = false ∧ one_matcher.info.shallow_matches_null = false ∧
      one_matcher.info.prefers_null = false ∧ one_matcher.info.possessive = true) ∧
    (∀ (S N : Type) (search_node_impl : S → N → Bool × S) (state : S),
      matcher.search_node one_matcher.info search_node_impl state none = (false, state)) ∧
    (∀ (N T : Type) [DecidableEq T] (nav : node_navigator N T) (mark : Option String)
        (value : value_matcher T) (first_child next_sibling : matcher_node T) (node : N),
      nav.get_value node = none →
      search_node nav (matcher_node.one mark value first_child next_sibling) node = none) := by
  refine ⟨⟨rfl, rfl, rfl, rfl⟩, fun _ _ _ _ => rfl, ?_⟩
  intro N T _ nav mark value first_child next_sibling node hnull
  simp [search_node, search, node_navigator.accepts, hnull]

/-! ## Comparison of two trees -/

/-- For two trees whose caches are recounts from their roots, `operator==` is
plain structural equality, it is true exactly when the roots are both absent
or both present and equal, it is reflexive and it is symmetric. -/
theorem basic_tree.equals_of_recount {N : Type} (null : N) (size_of arity_of : N → Nat)
    (node_equals : N → N → Bool) (a b : basic_tree N)
    (hsize : ∀ x, size_of x = 0 ↔ x = null)
    (ha : a.root_address = 0 ↔ a.root = null) (hb : b.root_address = 0 ↔ b.root = null)
    (has : a.size_value = size_of a.root) (hbs : b.size_value = size_of b.root)
    (haa : a.arity_value = arity_of a.root) (hba : b.arity_value = arity_of b.root)
    (heq : ∀ x y, x ≠ null → y ≠ null → (node_equals x y = true ↔ x = y)) :
    a.equals node_equals b = some (a.structurally_equal node_equals b) ∧
    (a.equals node_equals b = some true
      ↔ (a.root = null ∧ b.root = null) ∨ (a.root ≠ null ∧ b.root ≠ null ∧ a.root = b.root)) ∧
    a.equals node_equals a = some true ∧
    a.equals node_equals b = b.equals node_equals a := by
  have hrefl : a.equals node_equals a = some true := by
    by_cases h0 : a.root_address = 0
    · simp [basic_tree.equals, h0]
    · have hn : a.root ≠ null := fun h => h0 (ha.2 h)
      simp [basic_tree.equals, h0, (heq a.root a.root hn hn).2 rfl]
  by_cases h0 : a.root_address = 0
  · have hra : a.root = null := ha.1 h0
    by_cases h1 : b.root_address = 0
    · have hrb : b.root = null := hb.1 h1
      have hs : a.size_value = b.size_value := by rw [has, hbs, hra, hrb]
      have hr : a.arity_value = b.arity_value := by rw [haa, hba, hra, hrb]
      refine ⟨?_, ?_, hrefl, ?_⟩
      · simp [basic_tree.equals, basic_tree.structurally_equal, h0, h1, hs, hr]
      · simp [basic_tree.equals, h0, h1, hs, hr, hra, hrb]
      · simp [basic_tree.equals, h0, h1, hs, hr]
    · have hrb : b.root ≠ null := fun h => h1 (hb.2 h)
      have hsa : a.size_value = 0 := by rw [has]; exact (hsize _).2 hra
      have hsb : b.size_value ≠ 0 := by rw [hbs]; exact fun h => hrb ((hsize _).1 h)
      have hs : a.size_value ≠ b.size_value := by omega
      have hs2 : b.size_value ≠ a.size_value := by omega
      refine ⟨?_, ?_, hrefl, ?_⟩
      · simp [basic_tree.equals, basic_tree.structurally_equal, h0, h1, hs]
      · simp [basic_tree.equals, hs, hra, hrb]
      · simp [basic_tree.equals, hs, hs2]
  · have hra : a.root ≠ null := fun h => h0 (ha.2 h)
    by_cases h1 : b.root_address = 0
    · have hrb : b.root = null := hb.1 h1
      have hsb : b.size_value = 0 := by rw [hbs]; exact (hsize _).2 hrb
      have hsa : a.size_value ≠ 0 := by rw [has]; exact fun h => hra ((hsize _).1 h)
      have hs : a.size_value ≠ b.size_value := by omega
      have hs2 : b.size_value ≠ a.size_value := by omega
      refine ⟨?_, ?_, hrefl, ?_⟩
      · simp [basic_tree.equals, basic_tree.structurally_equal, h0, h1, hs]
      · simp [basic_tree.equals, hs, hra, hrb]
      · simp [basic_tree.equals, hs, hs2]
    · have hrb : b.root ≠ null := fun h => h1 (hb.2 h)
      have hnode := heq a.root b.root hra hrb
      have hnode2 := heq b.root a.root hrb hra
      have hsym : node_equals a.root b.root = node_equals b.root a.root := by
        cases hab : node_equals a.root b.root with
        | true => exact ((hnode2.2 (hnode.1 hab).symm)).symm
        | false =>
          cases hba2 : node_equals b.root a.root with
          | false => rfl
          | true =>
            have := hnode.2 (hnode2.1 hba2).symm
            rw [hab] at this
            exact this
      by_cases hpre : a.size_value ≠ b.size_value ∨ a.arity_value ≠ b.arity_value
      · have hne : a.root ≠ b.root := by
          intro h
          rcases hpre with hp | hp
          · exact hp (by rw [has, hbs, h])
          · exact hp (by rw [haa, hba, h])
        have hfalse : node_equals a.root b.root = false := by
          cases hab : node_equals a.root b.root with
          | false => rfl
          | true => exact absurd (hnode.1 hab) hne
        have hpre2 : b.size_value ≠ a.size_value ∨ b.arity_value ≠ a.arity_value := by
          rcases hpre with hp | hp
          · exact Or.inl (Ne.symm hp)
          · exact Or.inr (Ne.symm hp)
        refine ⟨?_, ?_, hrefl, ?_⟩
        · simp [basic_tree.equals, basic_tree.structurally_equal, hpre, h0, h1, hfalse]
        · simp [basic_tree.equals, hpre, hra, hrb, hne]
        · simp [basic_tree.equals, hpre, hpre2]
      · have hpre2 : ¬ (b.size_value ≠ a.size_value ∨ b.arity_value ≠ a.arity_value) := by
          intro h
          apply hpre
          rcases h with hp | hp
          · exact Or.inl (Ne.symm hp)
          · exact Or.inr (Ne.symm hp)
        have ha0 : (a.root_address == 0) = false := by simpa using h0
        have hb0 : (b.root_address == 0) = false := by simpa using h1
        have ha1 : (a.root_address != 0) = true := by simpa using h0
        have hb1 : (b.root_address != 0) = true := by simpa using h1
        refine ⟨?_, ?_, hrefl, ?_⟩
        · simp only [basic_tree.equals, basic_tree.structurally_equal, hpre, h0, h1, ha0, hb0,
            ha1, hb1, if_false, false_and, false_or, Bool.false_and, Bool.false_or,
            Bool.true_and]
        · simp [basic_tree.equals, hpre, h0, h1, hra, hrb, hnode]
        · simp [basic_tree.equals, hpre, hpre2, h0, h1, hsym]

/-- C31. For all binary or n-ary trees `a` and `b` whose root pointer is null
exactly when there is no root node, whose cached size is the recount
`calculate_size` of the root and whose cached arity is one and the same
recount of the root, and for a node comparison that decides whether two
present nodes are structurally equal: `a == b` is plain structural equality
(the preliminary comparison of size and arity does not change the outcome),
it is true if and only if both have no root or both have a root and the
roots are structurally equal, and it is reflexive and symmetric. The tree
`100(200(300, 400), 500)` is equal to a copy of itself and to itself,
different from the tree `7` and from the empty tree, and the empty tree is
equal to itself. -/
theorem basic_tree.equals_is_structural_equality (T : Type) :
    (∀ (node_equals : binary_node T → binary_node T → Bool) (arity_of : binary_node T → Nat)
        (a b : basic_tree (binary_node T)),
      binary_root_consistent a → binary_root_consistent b →
      a.size_value = a.root.calculate_size → b.size_value = b.root.calculate_size →
      a.arity_value = arity_of a.root → b.arity_value = arity_of b.root →
      (∀ x y, x ≠ binary_node.null → y ≠ binary_node.null →
        (node_equals x y = true ↔ x = y)) →
      a.equals node_equals b = some (a.structurally_equal node_equals b) ∧
        (a.equals node_equals b = some true
          ↔ (a.root = binary_node.null ∧ b.root = binary_node.null)
            ∨ (a.root ≠ binary_node.null ∧ b.root ≠ binary_node.null ∧ a.root = b.root)) ∧
        a.equals node_equals a = some true ∧
        a.equals node_equals b = b.equals node_equals a) ∧
    (∀ (node_equals : nary_node T → nary_node T → Bool) (arity_of : nary_node T → Nat)
        (a b : basic_tree (nary_node T)),
      nary_root_consistent a → nary_root_consistent b →
      a.size_value = a.root.calculate_size → b.size_value = b.root.calculate_size →
      a.arity_value = arity_of a.root → b.arity_value = arity_of b.root →
      (∀ x y, x ≠ nary_node.null → y ≠ nary_node.null →
        (node_equals x y = true ↔ x = y)) →
      a.equals node_equals b = some (a.structurally_equal node_equals b) ∧
        (a.equals node_equals b = some true
          ↔ (a.root = nary_node.null ∧ b.root = nary_node.null)
            ∨ (a.root ≠ nary_node.null ∧ b.root ≠ nary_node.null ∧ a.root = b.root)) ∧
        a.equals node_equals a = some true ∧
        a.equals node_equals b = b.equals node_equals a) ∧
    (sample_binary_tree.equals (fun x y => decide (x = y)) sample_binary_copy = some true ∧
      sample_binary_tree.equals (fun x y => decide (x = y)) sample_binary_tree = some true ∧
      sample_binary_tree.equals (fun x y => decide (x = y)) other_binary_tree = some false ∧
      sample_binary_tree.equals (fun x y => decide (x = y)) empty_binary_tree = some false ∧
      empty_binary_tree.equals (fun x y => decide (x = y)) sample_binary_tree = some false ∧
      empty_binary_tree.equals (fun x y => decide (x = y)) empty_binary_tree = some true) := by
  refine ⟨?_, ?_, by decide⟩
  · intro node_equals arity_of a b ha hb has hbs haa hba heq
    exact basic_tree.equals_of_recount binary_node.null binary_node.calculate_size arity_of
      node_equals a b binary_node.calculate_size_eq_zero ha hb has hbs haa hba heq
  · intro node_equals arity_of a b ha hb has hbs haa hba heq
    exact basic_tree.equals_of_recount nary_node.null nary_node.calculate_size arity_of
      node_equals a b nary_node.calculate_size_eq_zero_nary ha hb has hbs haa hba heq

/-- C32. For all trees `a` and `b` that each satisfy "the root is absent if and
only if the size is 0", the evaluation of `a == b` returns without
dereferencing an absent root: the deep comparison of the nodes is reached
only when both roots are present. -/
theorem basic_tree.equals_never_dereferences_null {N : Type} (node_equals : N → N → Bool)
    (a b : basic_tree N)
    (ha : a.root_address = 0 ↔ a.size_value = 0)
    (hb : b.root_address = 0 ↔ b.size_value = 0) :
    (∃ r, a.equals node_equals b = some r) ∧
    (a.deep_comparison_reached b = true → a.root_address ≠ 0 ∧ b.root_address ≠ 0) := by
  constructor
  · by_cases hpre : a.size_value ≠ b.size_value ∨ a.arity_value ≠ b.arity_value
    · exact ⟨false, by simp [basic_tree.equals, hpre]⟩
    · have hs : a.size_value = b.size_value := by
        by_contra h
        exact hpre (Or.inl h)
      by_cases h0 : a.root_address = 0
      · have h1 : b.root_address = 0 := hb.2 (hs ▸ ha.1 h0)
        exact ⟨true, by simp [basic_tree.equals, hpre, h0, h1]⟩
      · have h1 : b.root_address ≠ 0 := fun h => h0 (ha.2 (hs ▸ hb.1 h))
        exact ⟨node_equals a.root b.root, by simp [basic_tree.equals, hpre, h0, h1]⟩
  · intro hreach
    simp only [basic_tree.deep_comparison_reached, Bool.and_eq_true, Bool.not_eq_true',
      Bool.or_eq_false_iff, bne_eq_false_iff_eq, Bool.and_eq_false_iff, beq_eq_false_iff_ne]
      at hreach
    obtain ⟨⟨hs, _⟩, hnot⟩ := hreach
    have hiff : a.root_address = 0 ↔ b.root_address = 0 := by
      rw [ha, hb, hs]
    constructor
    · intro h
      rcases hnot with h2 | h2
      · exact h2 h
      · exact h2 (hiff.1 h)
    · intro h
      rcases hnot with h2 | h2
      · exact h2 (hiff.2 h)
      · exact h2 h

/-- C32, at concrete inputs: the comparison of `100(200(300, 400), 500)` with a
copy of itself reaches the deep comparison with both roots present and
returns; against the empty tree it returns without reaching it. A tree
object without a root but with the cached size and arity of the tree `7`
breaks the condition, and its comparison with the tree `7` dereferences the
null root. -/
theorem basic_tree.equals_never_dereferences_null_witness :
    ((sample_binary_tree.root_address = 0 ↔ sample_binary_tree.size_value = 0) ∧
      (sample_binary_copy.root_address = 0 ↔ sample_binary_copy.size_value = 0) ∧
      (empty_binary_tree.root_address = 0 ↔ empty_binary_tree.size_value = 0)) ∧
    ((∃ r, sample_binary_tree.equals (fun x y => decide (x = y)) sample_binary_copy = some r) ∧
      (sample_binary_tree.deep_comparison_reached sample_binary_copy = true →
        sample_binary_tree.root_address ≠ 0 ∧ sample_binary_copy.root_address ≠ 0)) ∧
    sample_binary_tree.deep_comparison_reached sample_binary_copy = true ∧
    ((∃ r, sample_binary_tree.equals (fun x y => decide (x = y)) empty_binary_tree = some r) ∧
      (sample_binary_tree.deep_comparison_reached empty_binary_tree = true →
        sample_binary_tree.root_address ≠ 0 ∧ empty_binary_tree.root_address ≠ 0)) ∧
    sample_binary_tree.deep_comparison_reached empty_binary_tree = false ∧
    rootless_sized_tree.equals (fun x y => decide (x = y)) other_binary_tree = none :=
  ⟨by decide,
    basic_tree.equals_never_dereferences_null (fun x y => decide (x = y)) sample_binary_tree
      sample_binary_copy (by decide) (by decide),
    by decide,
    basic_tree.equals_never_dereferences_null (fun x y => decide (x = y)) sample_binary_tree
      empty_binary_tree (by decide) (by decide),
    by decide, by decide⟩

/-! ## Patterns that have not matched yet -/

/-- A pattern on which no `match` call has returned true has no `node_type`. -/
theorem pattern.never_matched_node_type {M : Type} (p : pattern M)
    (h : pattern.never_matched p) : p.node_type = none ∧ p.matched_tree = 0 := by
  induction h with
  | fresh tree => exact ⟨rfl, rfl⟩
  | failed ops p tree _ hfalse ih =>
    have hk := pattern.do_match_false_keeps ops p tree hfalse
    simp only [pattern.match_tree]
    exact ⟨hk.1.trans ih.1, hk.2.trans ih.2⟩

/-- C33. For every pattern on which no `match` call has yet returned true, and for
every destination tree, of either node kind and with any matcher functions,
`assign_result`, `assign_mark(index)` and `assign_mark(name)` end with the
invalid-argument condition and the destination tree after the call is the
destination tree before the call. -/
theorem pattern.assign_before_match_throws {M N : Type} (rops : result_ops M N)
    (p : pattern M) (dest : basic_tree N) (index : Nat) (name : String)
    (h : pattern.never_matched p) :
    p.assign_result rops dest = (outcome.invalid_argument type_mismatch_message, dest) ∧
    p.assign_mark_index rops index dest
      = (outcome.invalid_argument type_mismatch_message, dest) ∧
    p.assign_mark_name rops name dest
      = (outcome.invalid_argument type_mismatch_message, dest) := by
  apply pattern.assign_mismatch
  rw [(pattern.never_matched_node_type p h).1]
  exact fun heq => Option.noConfusion heq

/-- C33, at concrete inputs: the pattern accepting roots that hold 100, after a
`match` against the tree `7` that returned false, throws on the binary tree
`100(200(300, 400), 500)` and on the n-ary tree `1(2, 3)` and leaves them as
they were. -/
theorem pattern.assign_before_match_throws_witness :
    ((pattern.mk_pattern ([] : List matcher_call)).match_tree (logging_ops 100)
        other_binary_tree).1 = false ∧
    (((pattern.mk_pattern ([] : List matcher_call)).match_tree (logging_ops 100)
          other_binary_tree).2.assign_result
        (constant_result_ops (List matcher_call) other_binary_tree.root 1 0)
        sample_binary_tree
      = (outcome.invalid_argument type_mismatch_message, sample_binary_tree)) ∧
    (((pattern.mk_pattern ([] : List matcher_call)).match_tree (logging_ops 100)
          other_binary_tree).2.assign_mark_index
        (constant_result_ops (List matcher_call) sample_nary_tree.root 3 2) 0
        sample_nary_tree
      = (outcome.invalid_argument type_mismatch_message, sample_nary_tree)) ∧
    (((pattern.mk_pattern ([] : List matcher_call)).match_tree (logging_ops 100)
          other_binary_tree).2.assign_mark_name
        (constant_result_ops (List matcher_call) sample_nary_tree.root 3 2) "a"
        sample_nary_tree
      = (outcome.invalid_argument type_mismatch_message, sample_nary_tree)) :=
  ⟨by decide,
    (pattern.assign_before_match_throws
      (constant_result_ops (List matcher_call) other_binary_tree.root 1 0) _
      sample_binary_tree 0 "a"
      (pattern.never_matched.failed (logging_ops 100) _ other_binary_tree
        (pattern.never_matched.fresh []) (by decide))).1,
    (pattern.assign_before_match_throws
      (constant_result_ops (List matcher_call) sample_nary_tree.root 3 2) _
      sample_nary_tree 0 "a"
      (pattern.never_matched.failed (logging_ops 100) _ other_binary_tree
        (pattern.never_matched.fresh []) (by decide))).2.1,
    (pattern.assign_before_match_throws
      (constant_result_ops (List matcher_call) sample_nary_tree.root 3 2) _
      sample_nary_tree 0 "a"
      (pattern.never_matched.failed (logging_ops 100) _ other_binary_tree
        (pattern.never_matched.fresh []) (by decide))).2.2⟩

/-! ## `matcher_traits` -/

/-- C34, as the code computes it: for a matcher without a first child, with or
without a next sibling, and for a matcher with both, `children_captures` is
the capture list of the first child and `siblings_captures` the capture list
of the next sibling. For a matcher with a first child and no next sibling
the specialisation of lines 54-58 is chosen, and it gives the empty tuple as
`children_captures` and the capture list of the first child as
`siblings_captures`: the two are the wrong way round whenever the first
child has a capture, as for a first child with the one capture named
`atom 10`. -/
theorem matcher_traits.first_child_only_swapped :
    (∀ next_sibling : Option (List cpp_type),
      (matcher_traits.of none next_sibling).children_captures = captures_of none ∧
        (matcher_traits.of none next_sibling).siblings_captures
          = captures_of next_sibling) ∧
    (∀ first_child next_sibling : List cpp_type,
      (matcher_traits.of (some first_child) (some next_sibling)).children_captures
          = captures_of (some first_child) ∧
        (matcher_traits.of (some first_child) (some next_sibling)).siblings_captures
          = captures_of (some next_sibling)) ∧
    (∀ first_child : List cpp_type,
      (matcher_traits.of (some first_child) none).children_captures = [] ∧
        (matcher_traits.of (some first_child) none).siblings_captures = first_child ∧
        (first_child ≠ [] →
          (matcher_traits.of (some first_child) none).children_captures
              ≠ captures_of (some first_child) ∧
            (matcher_traits.of (some first_child) none).siblings_captures
              ≠ captures_of none)) ∧
    (matcher_traits.of
        (some [capture_matcher (cpp_type.atom 10) (cpp_type.atom 0) (cpp_type.atom 0)]) none
      = { children_captures := [],
          siblings_captures :=
            [capture_matcher (cpp_type.atom 10) (cpp_type.atom 0) (cpp_type.atom 0)] }) := by
  refine ⟨?_, fun _ _ => ⟨rfl, rfl⟩, ?_, rfl⟩
  · intro next_sibling
    cases next_sibling <;> exact ⟨rfl, rfl⟩
  · intro first_child
    refine ⟨rfl, rfl, ?_⟩
    intro hne
    exact ⟨fun h => hne h.symm, hne⟩

end TreeDS
